import Mathlib

/-!
Open Policy Agent, packages `v1/types` and `v1/ast`.

A shallow embedding of the type lattice of `v1/types/types.go` and of the
built-in registry and rule heads of `v1/ast`, with the properties of those
programs stated and proved over the embedding.

A Go `panic` is the result `none`; a Go interface value that is `nil` is the
constructor `Ty.nil`.
-/

namespace types

/-- Go values of static type `any` that are used as static object keys and as
the operand of `TypeOf`/`Select`. `other` stands for a value of any dynamic type
that `TypeOf` has no case for. A Go map is the list of its entries. -/
inductive GoVal where
  | nil
  | bool (b : Bool)
  | string (s : String)
  | number (n : String)
  | mapString (m : List (String × GoVal))
  | mapAny (m : List (GoVal × GoVal))
  | slice (xs : List GoVal)
  | other
  deriving Inhabited

/-- The interface `Type` with its implementations `Null`, `Boolean`, `Number`,
`String`, `*Array`, `*Object`, `*Set`, `Any`, `*Function` and `*NamedType`.
`Object.dynamic` is the pointer `*DynamicProperty` (`none` when nil, otherwise
its `Key` and `Value`); a `*StaticProperty` is the pair of its `Key` and
`Value`. -/
inductive Ty where
  | nil
  | Null
  | Boolean
  | Number
  | String
  | Array (static : List Ty) (dynamic : Ty)
  | Object (static : List (GoVal × Ty)) (dynamic : Option (Ty × Ty))
  | Set (of : Ty)
  | Any (of : List Ty)
  | Function (args : List Ty) (result : Ty) (variadic : Ty)
  | NamedType (name descr : String) (type : Ty)
  deriving Inhabited

/-- The test `x == nil` for an interface value. -/
def Ty.isNil : Ty → Bool
  | .nil => true
  | _ => false

/-- The type switch `x.(Any)`. -/
def Ty.isAny : Ty → Bool
  | .Any _ => true
  | _ => false

/-- The type switch `x.(*Function)`. -/
def Ty.isFunction : Ty → Bool
  | .Function _ _ _ => true
  | _ => false

/-- The type switch `x.(*NamedType)`. -/
def Ty.isNamed : Ty → Bool
  | .NamedType _ _ _ => true
  | _ => false

/-- Go `unwrap`: a `*NamedType` gives its `Type` field, every other value
itself. -/
def unwrap : Ty → Ty
  | .NamedType _ _ t => t
  | t => t

/-- Go `typeOrder`: the rank of the dynamic type of `unwrap(x)`; a `*NamedType`
left after the unwrap reaches `panic("unreachable")`. -/
def typeOrder (x : Ty) : Option Int :=
  match unwrap x with
  | .Null => some 0
  | .Boolean => some 1
  | .Number => some 2
  | .String => some 3
  | .Array _ _ => some 4
  | .Object _ _ => some 5
  | .Set _ => some 6
  | .Any _ => some 7
  | .Function _ _ _ => some 8
  | .nil => some (-1)
  | .NamedType _ _ _ => none

/-- The statement `if cmp := c; cmp != 0 { return cmp }` followed by `rest`. -/
def returnIfNonZero (c : Option Int) (rest : Option Int) : Option Int :=
  match c with
  | none => none
  | some cmp => if cmp ≠ 0 then some cmp else rest

mutual
/-- The body of `Compare` after its first line `a, b = unwrap(a), unwrap(b)`,
run on `unwrap` applied `unwraps` times to `a` and on `b` as it is: `Compare`
is `compareFrom utilCompare 1 a (unwrap b)`. The parameter `utilCompare` is
`util.Compare` on static object keys. -/
def compareFrom (utilCompare : GoVal → GoVal → Int) (unwraps : Nat) (a b : Ty) : Option Int :=
  match unwraps, a with
  | n + 1, .NamedType _ _ t => compareFrom utilCompare n t b
  | _, a =>
    match typeOrder a, typeOrder b with
    | some x, some y =>
      if x > y then some 1
      else if x < y then some (-1)
      else
        match a, b with
        | .nil, _ => some 0
        | .Null, _ => some 0
        | .Boolean, _ => some 0
        | .Number, _ => some 0
        | .String, _ => some 0
        | .Array staticA dynamicA, .Array staticB dynamicB =>
          if !dynamicA.isNil && dynamicB.isNil then some 1
          else if !dynamicB.isNil && dynamicA.isNil then some (-1)
          else if !dynamicB.isNil && !dynamicA.isNil then
            returnIfNonZero (compareFrom utilCompare 1 dynamicA (unwrap dynamicB))
              (typeSliceCompare utilCompare staticA staticB)
          else typeSliceCompare utilCompare staticA staticB
        | .Object staticA dynamicA, .Object staticB dynamicB =>
          match dynamicA, dynamicB with
          | some _, none => some 1
          | none, some _ => some (-1)
          | some (keyA, valueA), some (keyB, valueB) =>
            returnIfNonZero (compareFrom utilCompare 1 keyA (unwrap keyB))
              (returnIfNonZero (compareFrom utilCompare 1 valueA (unwrap valueB))
                (staticCompare utilCompare staticA staticB))
          | none, none => staticCompare utilCompare staticA staticB
        | .Set ofA, .Set ofB =>
          if ofA.isNil && ofB.isNil then some 0
          else if ofA.isNil then some (-1)
          else if ofB.isNil then some 1
          else compareFrom utilCompare 1 ofA (unwrap ofB)
        | .Any sl1, .Any sl2 => typeSliceCompare utilCompare sl1 sl2
        | .Function argsA resultA variadicA, .Function argsB resultB variadicB =>
          if argsA.length < argsB.length then some (-1)
          else if argsA.length > argsB.length then some 1
          else
            returnIfNonZero (argsCompare utilCompare argsA argsB)
              (returnIfNonZero (compareFrom utilCompare 1 resultA (unwrap resultB))
                (compareFrom utilCompare 1 variadicA (unwrap variadicB)))
        | _, _ => none
    | _, _ => none
termination_by structural a
/-- Go `typeSliceCompare`: the loop over the first `min(len(b), len(a))` positions,
then the comparison of the lengths. -/
def typeSliceCompare (utilCompare : GoVal → GoVal → Int) : List Ty → List Ty → Option Int
  | a :: as, b :: bs =>
    returnIfNonZero (compareFrom utilCompare 1 a (unwrap b)) (typeSliceCompare utilCompare as bs)
  | [], _ :: _ => some (-1)
  | _ :: _, [] => some 1
  | [], [] => some 0
termination_by structural a => a
/-- The `*Object` case of `Compare` from `lenStaticA := len(objA.static)` on:
the loop over the first `minLen` static properties, then the lengths. -/
def staticCompare (utilCompare : GoVal → GoVal → Int) :
    List (GoVal × Ty) → List (GoVal × Ty) → Option Int
  | (keyA, valueA) :: as, (keyB, valueB) :: bs =>
    returnIfNonZero (some (utilCompare keyA keyB))
      (returnIfNonZero (compareFrom utilCompare 1 valueA (unwrap valueB))
        (staticCompare utilCompare as bs))
  | [], _ :: _ => some (-1)
  | _ :: _, [] => some 1
  | [], [] => some 0
termination_by structural a => a
/-- The loop `for i := range len(fA.args)` of the `*Function` case of `Compare`,
run when both argument lists have the same length; `some 0` when it falls
through. -/
def argsCompare (utilCompare : GoVal → GoVal → Int) : List Ty → List Ty → Option Int
  | a :: as, b :: bs =>
    returnIfNonZero (compareFrom utilCompare 1 a (unwrap b)) (argsCompare utilCompare as bs)
  | _, _ => some 0
termination_by structural a => a
end

/-- Go `Compare` returns -1, 0, 1 based on comparison between a and b. -/
def Compare (utilCompare : GoVal → GoVal → Int) (a b : Ty) : Option Int :=
  compareFrom utilCompare 1 a (unwrap b)

/-- The loop of `sort.Search(n, f)` of the Go standard library on the bounds
`i` and `j`: `for i < j { h := int(uint(i+j) >> 1); if !f(h) { i = h + 1 } else
{ j = h } }; return i`. Every iteration shrinks `j - i`, so `fuel = j - i`
iterations are never used up. -/
def searchLoop (f : Nat → Option Bool) : Nat → Nat → Nat → Option Nat
  | 0, i, _ => some i
  | fuel + 1, i, j =>
    if i < j then
      let h := (i + j) / 2
      match f h with
      | none => none
      | some false => searchLoop f fuel (h + 1) j
      | some true => searchLoop f fuel i h
    else some i

/-- Go `sort.Search(n, f)`; the predicate may panic. -/
def Search (n : Nat) (f : Nat → Option Bool) : Option Nat :=
  searchLoop f n 0 n

/-- The inner loop of the insertion sort of the Go standard library,
`for j := i; j > a && less(data[j], data[j-1]); j-- { swap }`, on the sorted
prefix held back to front: the new element moves left past every element it is
less than. -/
def insertBack {α : Type} (less : α → α → Option Bool) (x : α) : List α → Option (List α)
  | [] => some [x]
  | y :: ys =>
    match less x y with
    | none => none
    | some true => (insertBack less x ys).map (fun r => y :: r)
    | some false => some (x :: y :: ys)

/-- The outer loop of the insertion sort, `for i := a + 1; i < b; i++`, with the
prefix sorted so far held back to front. -/
def insertionLoop {α : Type} (less : α → α → Option Bool) : List α → List α → Option (List α)
  | sortedRev, [] => some sortedRev.reverse
  | sortedRev, x :: rest =>
    match insertBack less x sortedRev with
    | none => none
    | some sortedRev2 => insertionLoop less sortedRev2 rest

/-- Go `sort.Sort` and `slices.SortFunc` of the Go standard library, as the
insertion sort they run on a slice of at most 12 elements. On a longer slice
the standard library runs pattern-defeating quicksort, whose result is the same
whenever no two elements compare equal under a strict weak order. -/
def insertionSort {α : Type} (less : α → α → Option Bool) (data : List α) : Option (List α) :=
  insertionLoop less [] data

/-- The method `typeSlice.Less`: `Compare(s[i], s[j]) < 0`. -/
def typeSliceLess (utilCompare : GoVal → GoVal → Int) (x y : Ty) : Option Bool :=
  (Compare utilCompare x y).map (fun c => decide (c < 0))

/-- Go `NewAny` returns a new Any type: the copy of `of`, sorted. -/
def NewAny (utilCompare : GoVal → GoVal → Int) (of : List Ty) : Option Ty :=
  (insertionSort (typeSliceLess utilCompare) of).map Ty.Any

/-- Go `A` represents the superset of all types: `NewAny()`. -/
def A : Ty := Ty.Any []

/-- The predicate `func(i int) bool { return Compare(t[i], other) >= 0 }`. -/
def compareAtLeast (utilCompare : GoVal → GoVal → Int) (t : List Ty) (other : Ty) (i : Nat) :
    Option Bool :=
  match t[i]? with
  | none => none
  | some x => (Compare utilCompare x other).map (fun c => decide (c ≥ 0))

/-- Go `Any.Contains` returns true if t is a superset of other. -/
def Any.Contains (utilCompare : GoVal → GoVal → Int) (t : List Ty) (other : Ty) : Option Bool :=
  if other.isFunction then some false
  else
    match Search t.length (compareAtLeast utilCompare t other) with
    | none => none
    | some i =>
      if i < t.length then
        match t[i]? with
        | none => none
        | some x =>
          match Compare utilCompare x other with
          | none => none
          | some c => if c = 0 then some true else some (decide (t.length = 0))
      else some (decide (t.length = 0))

/-- Go `Contains` returns true if a is a superset or equal to b. -/
def Contains (utilCompare : GoVal → GoVal → Int) (a b : Ty) : Option Bool :=
  match unwrap a with
  | .Any x => Any.Contains utilCompare x b
  | _ => (Compare utilCompare a b).map (fun c => decide (c = 0))

/-- The loop of `Any.Union` on what is left of `t` and of `other`. An iteration
either appends one element and advances or, when `Compare` returns a value that
is none of -1, 0, 1, changes nothing; `none` is a panic of `Compare` or the loop
still running when the fuel is used up. -/
def unionLoop (utilCompare : GoVal → GoVal → Int) : Nat → List Ty → List Ty → Option (List Ty)
  | 0, _, _ => none
  | _ + 1, [], restOther => some restOther
  | _ + 1, restT, [] => some restT
  | fuel + 1, a :: restT, b :: restOther =>
    match Compare utilCompare a b with
    | none => none
    | some c =>
      if c = -1 then (unionLoop utilCompare fuel restT (b :: restOther)).map (fun m => a :: m)
      else if c = 0 then (unionLoop utilCompare fuel restT restOther).map (fun m => a :: m)
      else if c = 1 then (unionLoop utilCompare fuel (a :: restT) restOther).map (fun m => b :: m)
      else unionLoop utilCompare fuel (a :: restT) (b :: restOther)

/-- Go `Any.Union` returns a new Any type that is the union of the two Any
types. -/
def Any.Union (utilCompare : GoVal → GoVal → Int) (t other : List Ty) : Option (List Ty) :=
  if t.length = 0 then some t
  else if other.length = 0 then some other
  else unionLoop utilCompare (t.length + other.length + 1) t other

/-- Go `Any.Merge` return a new Any type that is the superset of t and other. -/
def Any.Merge (utilCompare : GoVal → GoVal → Int) (t : List Ty) (other : Ty) : Option (List Ty) :=
  match other with
  | .Any otherAny => Any.Union utilCompare t otherAny
  | _ =>
    match Any.Contains utilCompare t other with
    | none => none
    | some true => some t
    | some false =>
      match Search t.length (compareAtLeast utilCompare t other) with
      | none => none
      | some idx => some (t.take idx ++ other :: t.drop idx)

mutual
/-- The body of `Or` after its first line `a, b = unwrap(a), unwrap(b)`, run on
`unwrap` applied `unwraps` times to `a` and on `b` as it is: `Or` is
`orFrom utilCompare 1 a (unwrap b)`. The `*Function` case is `Function.Union`
on two non-nil receivers. Its nil result is written `Ty.nil` here; in Go `Or`
then returns an interface value that holds a nil `*Function` and is not equal
to the nil interface, so the results of `Or` on two function types that have no
union stand for that value and are not to be passed on as a nil type.
`Function.Union` passes
`Or` the results of `Args()`, `Result()` and `FuncArgs().Variadic`, which are
unwrapped once already. -/
def orFrom (utilCompare : GoVal → GoVal → Int) (unwraps : Nat) (a b : Ty) : Option Ty :=
  match unwraps, a with
  | n + 1, .NamedType _ _ t => orFrom utilCompare n t b
  | _, a =>
    if a.isNil then some b
    else if b.isNil then some a
    else
      match a, b with
      | .Function argsA resultA variadicA, .Function argsB resultB variadicB =>
        if argsA.length ≠ argsB.length then some .nil
        else if !(unwrap variadicA).isNil && (unwrap variadicB).isNil then some .nil
        else if !(unwrap variadicB).isNil && (unwrap variadicA).isNil then some .nil
        else
          match orArgs utilCompare argsA argsB,
            orFrom utilCompare 2 resultA (unwrap (unwrap resultB)),
            orFrom utilCompare 2 variadicA (unwrap (unwrap variadicB)) with
          | some args, some result, some variadic => some (.Function args result variadic)
          | _, _, _ => none
      | .Function _ _ _, _ => some .nil
      | _, .Function _ _ _ => some .nil
      | .Any anyA, _ => (Any.Merge utilCompare anyA b).map Ty.Any
      | _, .Any anyB => (Any.Merge utilCompare anyB a).map Ty.Any
      | _, _ =>
        match Compare utilCompare a b with
        | none => none
        | some c => if c = 0 then some a else NewAny utilCompare [a, b]
termination_by structural a
/-- The loop `for i := range a { args[i] = Or(a[i], b[i]) }` of
`Function.Union`, on argument lists of the same length. -/
def orArgs (utilCompare : GoVal → GoVal → Int) : List Ty → List Ty → Option (List Ty)
  | a :: as, b :: bs =>
    match orFrom utilCompare 2 a (unwrap (unwrap b)), orArgs utilCompare as bs with
    | some x, some xs => some (x :: xs)
    | _, _ => none
  | _, _ => some []
termination_by structural a => a
end

/-- Go `Or` returns a type that represents the union of a and b. If one type is a
superset of the other, the superset is returned unchanged. -/
def Or (utilCompare : GoVal → GoVal → Int) (a b : Ty) : Option Ty :=
  orFrom utilCompare 1 a (unwrap b)

/-- The inner loop of `insertionSortCmpFunc` of the Go standard library, on the
sorted prefix held back to front. -/
def insertBackFunc {α : Type} (cmp : α → α → Int) (x : α) : List α → List α
  | [] => [x]
  | y :: ys => if cmp x y < 0 then y :: insertBackFunc cmp x ys else x :: y :: ys

/-- Go `slices.SortFunc` of the Go standard library, as the insertion sort it runs
on a slice of at most 12 elements. On a longer slice the standard library runs
pattern-defeating quicksort, whose result is the same whenever no two elements
compare equal under a strict weak order. -/
def SortFunc {α : Type} (cmp : α → α → Int) (data : List α) : List α :=
  (data.foldl (fun sortedRev x => insertBackFunc cmp x sortedRev) []).reverse

/-- Go `NewObject` returns a new Object type: `static` sorted by
`util.Compare(a.Key, b.Key)`. -/
def NewObject (utilCompare : GoVal → GoVal → Int) (static : List (GoVal × Ty))
    (dynamic : Option (Ty × Ty)) : Ty :=
  .Object (SortFunc (fun a b => utilCompare a.1 b.1) static) dynamic

/-- Go `NewArray` returns a new Array type. -/
def NewArray (static : List Ty) (dynamic : Ty) : Ty :=
  .Array static dynamic

mutual
/-- Go `TypeOf` returns the type of the Golang native value; a value of a type
that has no case reaches `panic("unreachable")`. -/
def TypeOf (utilCompare : GoVal → GoVal → Int) : GoVal → Option Ty
  | .nil => some .Null
  | .bool _ => some .Boolean
  | .string _ => some .String
  | .number _ => some .Number
  | .mapString m => (typeOfStringMap utilCompare m).map (fun static => NewObject utilCompare static none)
  | .mapAny m => (typeOfAnyMap utilCompare m).map (fun static => NewObject utilCompare static none)
  | .slice xs => (typeOfSlice utilCompare xs).map (fun static => NewArray static .nil)
  | .other => none
termination_by structural x => x
/-- The loop of the `map[string]any` case of `TypeOf`. -/
def typeOfStringMap (utilCompare : GoVal → GoVal → Int) :
    List (String × GoVal) → Option (List (GoVal × Ty))
  | [] => some []
  | (k, v) :: rest =>
    match TypeOf utilCompare v, typeOfStringMap utilCompare rest with
    | some t, some static => some ((.string k, t) :: static)
    | _, _ => none
termination_by structural x => x
/-- The loop of the `map[any]any` case of `TypeOf`. -/
def typeOfAnyMap (utilCompare : GoVal → GoVal → Int) :
    List (GoVal × GoVal) → Option (List (GoVal × Ty))
  | [] => some []
  | (k, v) :: rest =>
    match TypeOf utilCompare v, typeOfAnyMap utilCompare rest with
    | some t, some static => some ((k, t) :: static)
    | _, _ => none
termination_by structural x => x
/-- The loop of the `[]any` case of `TypeOf`. -/
def typeOfSlice (utilCompare : GoVal → GoVal → Int) : List GoVal → Option (List Ty)
  | [] => some []
  | x :: rest =>
    match TypeOf utilCompare x, typeOfSlice utilCompare rest with
    | some t, some static => some (t :: static)
    | _, _ => none
termination_by structural x => x
end

/-- Go `Array.Len` returns the number of static array elements. -/
def Array.Len (static : List Ty) : Int :=
  static.length

/-- Go `Array.Select` returns the type of element at the zero-based pos, on the
array with the fields `static` and `dynamic`; `none` is the panic of an index
out of range. -/
def Array.Select (static : List Ty) (dynamic : Ty) (pos : Int) : Option Ty :=
  if pos ≥ 0 then
    if (static.length : Int) > pos then static[pos.toNat]?
    else if !dynamic.isNil then some dynamic
    else some .nil
  else some .nil

/-- The predicate `func(x int) bool { return util.Compare(t.static[x].Key, name)
>= 0 }`. -/
def keyAtLeast (utilCompare : GoVal → GoVal → Int) (static : List (GoVal × Ty)) (name : GoVal)
    (x : Nat) : Option Bool :=
  match static[x]? with
  | none => none
  | some p => some (decide (utilCompare p.1 name ≥ 0))

/-- Go `Object.Select` returns the type of the named property, on the object with
the fields `static` and `dynamic`. -/
def Object.Select (utilCompare : GoVal → GoVal → Int) (static : List (GoVal × Ty))
    (dynamic : Option (Ty × Ty)) (name : GoVal) : Option Ty :=
  match Search static.length (keyAtLeast utilCompare static name) with
  | none => none
  | some pos =>
    let dynamicCase : Option Ty :=
      match dynamic with
      | some (key, value) =>
        match TypeOf utilCompare name with
        | none => none
        | some tpe =>
          match Contains utilCompare key tpe with
          | none => none
          | some true => some value
          | some false => some .nil
      | none => some .nil
    if pos < static.length then
      match static[pos]? with
      | none => none
      | some p => if utilCompare p.1 name = 0 then some p.2 else dynamicCase
    else dynamicCase

/-- The method `Select` on an object type; any other receiver is outside the method. -/
def Ty.SelectProperty (utilCompare : GoVal → GoVal → Int) (t : Ty) (name : GoVal) : Option Ty :=
  match t with
  | .Object static dynamic => Object.Select utilCompare static dynamic name
  | _ => none

/-- Go `Object.Keys` returns the keys of the object's static elements. -/
def Object.Keys (static : List (GoVal × Ty)) : List GoVal :=
  static.map (fun p => p.1)

/-- The loop `for _, k := range a.Keys() { tpe = Or(tpe, TypeOf(k)) }` of
`Keys`. -/
def keysObjectLoop (utilCompare : GoVal → GoVal → Int) : List GoVal → Ty → Option Ty
  | [], tpe => some tpe
  | k :: rest, tpe =>
    match TypeOf utilCompare k with
    | none => none
    | some tk =>
      match Or utilCompare tpe tk with
      | none => none
      | some tpe2 => keysObjectLoop utilCompare rest tpe2

mutual
/-- The function `Keys` on `unwrap` applied `unwraps` times to `a`: `Keys` is
`keysFrom utilCompare 1`. -/
def keysFrom (utilCompare : GoVal → GoVal → Int) (unwraps : Nat) (a : Ty) : Option Ty :=
  match unwraps, a with
  | n + 1, .NamedType _ _ t => keysFrom utilCompare n t
  | _, a =>
    match a with
    | .Array _ _ => some .Number
    | .Object static dynamic =>
      match keysObjectLoop utilCompare (Object.Keys static) .nil with
      | none => none
      | some tpe =>
        match dynamic with
        | some (key, _) => Or utilCompare tpe key
        | none => some tpe
    | .Set of => some of
    | .Any sl =>
      match Compare utilCompare a A with
      | none => none
      | some c => if c = 0 then some A else keysAnyLoop utilCompare sl .nil
    | _ => some .nil
termination_by structural a
/-- The loop `for i := range a { tpe = Or(Keys(a[i]), tpe) }` of `Keys`. -/
def keysAnyLoop (utilCompare : GoVal → GoVal → Int) : List Ty → Ty → Option Ty
  | [], tpe => some tpe
  | x :: rest, tpe =>
    match keysFrom utilCompare 1 x with
    | none => none
    | some k =>
      match Or utilCompare k tpe with
      | none => none
      | some tpe2 => keysAnyLoop utilCompare rest tpe2
termination_by structural a => a
end

/-- Go `Keys` returns the type of keys that can be enumerated for a. -/
def Keys (utilCompare : GoVal → GoVal → Int) (a : Ty) : Option Ty :=
  keysFrom utilCompare 1 a

/-- Go `Function` represents a function type: the struct a `*Function` points to,
with its fields `args`, `result` and `variadic`. -/
structure Function where
  args : List Ty
  result : Ty
  variadic : Ty

/-- The interface value of type `Type` that holds a non-nil `*Function`. -/
def Function.toType (t : Function) : Ty :=
  Ty.Function t.args t.result t.variadic

/-- Go `FuncArgs` represents the arguments that can be passed to a function. -/
structure FuncArgs where
  Args : List Ty
  Variadic : Ty

/-- Go `NewFunction` returns a new Function object of the given argument and
result types. -/
def NewFunction (args : List Ty) (result : Ty) : Function :=
  { args := args, result := result, variadic := Ty.nil }

/-- Go `NewVariadicFunction` returns a new Function object with the variadic bit
set; a non-nil `result` reaches the panic "non-void variadic functions not
supported". -/
def NewVariadicFunction (args : List Ty) (varargs : Ty) (result : Ty) : Option Function :=
  if !result.isNil then none
  else some { args := args, variadic := varargs, result := Ty.nil }

/-- Go `Function.Args` returns the function's arguments as a slice, ignoring
variadic arguments: a copy with `unwrap` applied to every element. -/
def Function.Args (t : Function) : List Ty :=
  t.args.map unwrap

/-- Go `Function.FuncArgs` returns the function's arguments. -/
def Function.FuncArgs (t : Function) : FuncArgs :=
  { Args := t.Args, Variadic := unwrap t.variadic }

/-- Go `Function.Arity` returns the number of arguments in the function
signature. -/
def Function.Arity (t : Function) : Int :=
  t.args.length

/-- Go `Function.Result` returns the function's result type. -/
def Function.Result (t : Function) : Ty :=
  unwrap t.result

/-! ## Definitions for the proofs -/

/-- The underlying type below every `*NamedType` wrapper. -/
def strip : Ty → Ty
  | .NamedType _ _ t => strip t
  | t => t

/-- The rank `typeOrder` gives the underlying type. -/
def rank : Ty → Int
  | .nil => -1
  | .Null => 0
  | .Boolean => 1
  | .Number => 2
  | .String => 3
  | .Array _ _ => 4
  | .Object _ _ => 5
  | .Set _ => 6
  | .Any _ => 7
  | .Function _ _ _ => 8
  | .NamedType _ _ t => rank t

/-- The three-way comparison of two integers. -/
def cmpInt (x y : Int) : Int :=
  if x > y then 1 else if x < y then -1 else 0

/-- The first comparison that is not zero decides. -/
def lex (c rest : Int) : Int :=
  if c ≠ 0 then c else rest

/-- One for a non-nil interface value, zero for nil. -/
def nonNil (t : Ty) : Int :=
  if t.isNil then 0 else 1

mutual
/-- The value of `Compare` on types without nested named types, as an integer
and without the panics. -/
def cmp (uc : GoVal → GoVal → Int) : Ty → Ty → Int
  | .NamedType _ _ t, b => cmp uc t b
  | .nil, b => cmpInt (-1) (rank b)
  | .Null, b => cmpInt 0 (rank b)
  | .Boolean, b => cmpInt 1 (rank b)
  | .Number, b => cmpInt 2 (rank b)
  | .String, b => cmpInt 3 (rank b)
  | .Array sa da, b =>
    lex (cmpInt 4 (rank b))
      (match strip b with
       | .Array sb db =>
         lex (cmpInt (nonNil da) (nonNil db))
           (lex (if da.isNil then 0 else cmp uc da db) (cmpList uc sa sb))
       | _ => 0)
  | .Object sa da, b =>
    lex (cmpInt 5 (rank b))
      (match strip b with
       | .Object sb db =>
         match da, db with
         | some _, none => 1
         | none, some _ => -1
         | some (ka, va), some (kb, vb) =>
           lex (cmp uc ka kb) (lex (cmp uc va vb) (cmpStatic uc sa sb))
         | none, none => cmpStatic uc sa sb
       | _ => 0)
  | .Set oa, b =>
    lex (cmpInt 6 (rank b))
      (match strip b with
       | .Set ob => lex (cmpInt (nonNil oa) (nonNil ob)) (if oa.isNil then 0 else cmp uc oa ob)
       | _ => 0)
  | .Any sa, b =>
    lex (cmpInt 7 (rank b))
      (match strip b with
       | .Any sb => cmpList uc sa sb
       | _ => 0)
  | .Function aa ra va, b =>
    lex (cmpInt 8 (rank b))
      (match strip b with
       | .Function ab rb vb =>
         lex (cmpInt aa.length ab.length)
           (lex (cmpList uc aa ab) (lex (cmp uc ra rb) (cmp uc va vb)))
       | _ => 0)
termination_by structural a => a
/-- The value of `typeSliceCompare`. -/
def cmpList (uc : GoVal → GoVal → Int) : List Ty → List Ty → Int
  | a :: as, b :: bs => lex (cmp uc a b) (cmpList uc as bs)
  | [], _ :: _ => -1
  | _ :: _, [] => 1
  | [], [] => 0
termination_by structural a => a
/-- The value of `staticCompare`. -/
def cmpStatic (uc : GoVal → GoVal → Int) : List (GoVal × Ty) → List (GoVal × Ty) → Int
  | (ka, va) :: as, (kb, vb) :: bs => lex (uc ka kb) (lex (cmp uc va vb) (cmpStatic uc as bs))
  | [], _ :: _ => -1
  | _ :: _, [] => 1
  | [], [] => 0
termination_by structural a => a
end

mutual
/-- No `*NamedType` has a `*NamedType` as its `Type` field, anywhere in the
type. -/
def noNestedNamed : Ty → Bool
  | .Array s d => noNestedNamedList s && noNestedNamed d
  | .Object s d => noNestedNamedStatic s && noNestedNamedDynamic d
  | .Set o => noNestedNamed o
  | .Any o => noNestedNamedList o
  | .Function a r v => noNestedNamedList a && noNestedNamed r && noNestedNamed v
  | .NamedType _ _ t => !t.isNamed && noNestedNamed t
  | _ => true
/-- The check `noNestedNamed` on every element. -/
def noNestedNamedList : List Ty → Bool
  | [] => true
  | t :: ts => noNestedNamed t && noNestedNamedList ts
/-- The check `noNestedNamed` on the value of every static property. -/
def noNestedNamedStatic : List (GoVal × Ty) → Bool
  | [] => true
  | (_, t) :: ts => noNestedNamed t && noNestedNamedStatic ts
/-- The check `noNestedNamed` on the key and value of a dynamic property. -/
def noNestedNamedDynamic : Option (Ty × Ty) → Bool
  | none => true
  | some (k, v) => noNestedNamed k && noNestedNamed v
end

/-- A result of a three-way comparison. -/
def IsSign (c : Int) : Prop := c = -1 ∨ c = 0 ∨ c = 1

/-- The three comparisons `x` of a with b, `y` of b with c and `z` of a with c
agree with some way of ordering a, b and c. -/
def Consistent (x y z : Int) : Prop :=
  (x ≤ 0 → y ≤ 0 → z ≤ 0) ∧ (0 ≤ x → 0 ≤ y → 0 ≤ z) ∧ (0 ≤ x → z ≤ 0 → y ≤ 0) ∧
  (x ≤ 0 → 0 ≤ z → 0 ≤ y) ∧ (z ≤ 0 → 0 ≤ y → x ≤ 0) ∧ (0 ≤ z → y ≤ 0 → 0 ≤ x)

/-- The hypotheses on `util.Compare`: it returns -1, 0 or 1, swapping the
arguments negates the result, and it is transitive. -/
structure KeyOrder (uc : GoVal → GoVal → Int) : Prop where
  sign : ∀ x y, IsSign (uc x y)
  antisymm : ∀ x y, uc y x = -uc x y
  trans : ∀ x y z, uc x y ≤ 0 → uc y z ≤ 0 → uc x z ≤ 0

/-- The predicate `sort.Search` is run with on a list: element `i` compared
with the target by `c` is at least zero. -/
def atLeast {α : Type} (c : α → Int) (l : List α) (i : Nat) : Option Bool :=
  match l[i]? with
  | none => none
  | some a => some (decide (c a ≥ 0))

/-- Along the list, once `c` is at least zero it stays at least zero. -/
def MonotoneFrom {α : Type} (c : α → Int) (l : List α) : Prop :=
  l.Pairwise (fun a b => 0 ≤ c a → 0 ≤ c b)

/-- The last two statements of `Or`: `if Compare(a, b) == 0 { return a }` and
`return NewAny(a, b)`. -/
def orPlain (uc : GoVal → GoVal → Int) (a b : Ty) : Option Ty :=
  match Compare uc a b with
  | none => none
  | some c => if c = 0 then some a else NewAny uc [a, b]

/-- The function `Or` on arguments that are neither nil nor functions below their name. -/
def orBody (uc : GoVal → GoVal → Int) (a b : Ty) : Option Ty :=
  match a, b with
  | .Any x, b => (Any.Merge uc x b).map Ty.Any
  | a, .Any y => (Any.Merge uc y a).map Ty.Any
  | a, b => orPlain uc a b

/-- Strictly ascending under the value of `Compare`. -/
def Ascending (uc : GoVal → GoVal → Int) (t : List Ty) : Prop :=
  t.Pairwise (fun a b => cmp uc a b < 0)

/-- Strictly ascending under `Compare`: every element compares -1 with every
later one. -/
def StrictlyAscending (uc : GoVal → GoVal → Int) (t : List Ty) : Prop :=
  t.Pairwise (fun a b => Compare uc a b = some (-1))

/-- The part of `Object.Select` after the static properties: the dynamic
property, when there is one and its key type contains the type of the name. -/
def selectDynamic (uc : GoVal → GoVal → Int) (dynamic : Option (Ty × Ty)) (name : GoVal) :
    Option Ty :=
  match dynamic with
  | some (key, value) =>
    match TypeOf uc name with
    | none => none
    | some tpe =>
      match Contains uc key tpe with
      | none => none
      | some true => some value
      | some false => some .nil
  | none => some .nil

mutual
/-- The Go value has a dynamic type that `TypeOf` has a case for, and so have
the values of its entries or elements. -/
def typeOfDefined : GoVal → Bool
  | .nil => true
  | .bool _ => true
  | .string _ => true
  | .number _ => true
  | .mapString m => typeOfDefinedStringMap m
  | .mapAny m => typeOfDefinedAnyMap m
  | .slice xs => typeOfDefinedSlice xs
  | .other => false
termination_by structural x => x
/-- The check `typeOfDefined` on the values of a `map[string]any`. -/
def typeOfDefinedStringMap : List (String × GoVal) → Bool
  | [] => true
  | (_, v) :: rest => typeOfDefined v && typeOfDefinedStringMap rest
termination_by structural x => x
/-- The check `typeOfDefined` on the values of a `map[any]any`. -/
def typeOfDefinedAnyMap : List (GoVal × GoVal) → Bool
  | [] => true
  | (_, v) :: rest => typeOfDefined v && typeOfDefinedAnyMap rest
termination_by structural x => x
/-- The check `typeOfDefined` on the elements of a `[]any`. -/
def typeOfDefinedSlice : List GoVal → Bool
  | [] => true
  | x :: rest => typeOfDefined x && typeOfDefinedSlice rest
termination_by structural x => x
end

/-- The rank of a key under `sampleCompare`. -/
def keyRank : GoVal → Nat
  | .nil => 0
  | .bool false => 1
  | .bool true => 2
  | .number n => 3 + n.length
  | .string s => 1000 + s.length
  | _ => 100000

/-- A comparison of keys to instantiate `utilCompare` with: nil, then the
booleans, then numbers and then strings by the length of their text, then
every other value. -/
def sampleCompare (a b : GoVal) : Int :=
  cmpInt (keyRank a) (keyRank b)

end types

namespace ast

/-- Go `Builtin` represents a built-in function supported by OPA. Every built-in
function is uniquely identified by a name. The fields are the ones the registry
and the flags of a built-in read; `Description`, `Categories` and `Decl` are
not read by `RegisterBuiltin`. -/
structure Builtin where
  Name : String
  Infix : String
  Relation : Bool
  deprecated : Bool
  canSkipBctx : Bool
  Nondeterministic : Bool
  deriving DecidableEq, Repr

/-- The built-in `Equality`. -/
def Equality : Builtin :=
  ⟨"eq", "=", false, false, true, false⟩

/-- The built-in `Assign`. -/
def Assign : Builtin :=
  ⟨"assign", ":=", false, false, true, false⟩

/-- The built-in `Member`. -/
def Member : Builtin :=
  ⟨"internal.member_2", "in", false, false, true, false⟩

/-- The built-in `MemberWithKey`. -/
def MemberWithKey : Builtin :=
  ⟨"internal.member_3", "in", false, false, true, false⟩

/-- The built-in `GreaterThan`. -/
def GreaterThan : Builtin :=
  ⟨"gt", ">", false, false, true, false⟩

/-- The built-in `GreaterThanEq`. -/
def GreaterThanEq : Builtin :=
  ⟨"gte", ">=", false, false, true, false⟩

/-- The built-in `LessThan`. -/
def LessThan : Builtin :=
  ⟨"lt", "<", false, false, true, false⟩

/-- The built-in `LessThanEq`. -/
def LessThanEq : Builtin :=
  ⟨"lte", "<=", false, false, true, false⟩

/-- The built-in `NotEqual`. -/
def NotEqual : Builtin :=
  ⟨"neq", "!=", false, false, true, false⟩

/-- The built-in `Equal`. -/
def Equal : Builtin :=
  ⟨"equal", "==", false, false, true, false⟩

/-- The built-in `Plus`. -/
def Plus : Builtin :=
  ⟨"plus", "+", false, false, true, false⟩

/-- The built-in `Minus`. -/
def Minus : Builtin :=
  ⟨"minus", "-", false, false, true, false⟩

/-- The built-in `Multiply`. -/
def Multiply : Builtin :=
  ⟨"mul", "*", false, false, true, false⟩

/-- The built-in `Divide`. -/
def Divide : Builtin :=
  ⟨"div", "/", false, false, true, false⟩

/-- The built-in `Ceil`. -/
def Ceil : Builtin :=
  ⟨"ceil", "", false, false, true, false⟩

/-- The built-in `Floor`. -/
def Floor : Builtin :=
  ⟨"floor", "", false, false, true, false⟩

/-- The built-in `Round`. -/
def Round : Builtin :=
  ⟨"round", "", false, false, true, false⟩

/-- The built-in `Abs`. -/
def Abs : Builtin :=
  ⟨"abs", "", false, false, true, false⟩

/-- The built-in `Rem`. -/
def Rem : Builtin :=
  ⟨"rem", "%", false, false, true, false⟩

/-- The built-in `BitsOr`. -/
def BitsOr : Builtin :=
  ⟨"bits.or", "", false, false, true, false⟩

/-- The built-in `BitsAnd`. -/
def BitsAnd : Builtin :=
  ⟨"bits.and", "", false, false, true, false⟩

/-- The built-in `BitsNegate`. -/
def BitsNegate : Builtin :=
  ⟨"bits.negate", "", false, false, true, false⟩

/-- The built-in `BitsXOr`. -/
def BitsXOr : Builtin :=
  ⟨"bits.xor", "", false, false, true, false⟩

/-- The built-in `BitsShiftLeft`. -/
def BitsShiftLeft : Builtin :=
  ⟨"bits.lsh", "", false, false, true, false⟩

/-- The built-in `BitsShiftRight`. -/
def BitsShiftRight : Builtin :=
  ⟨"bits.rsh", "", false, false, true, false⟩

/-- The built-in `And`. -/
def And : Builtin :=
  ⟨"and", "&", false, false, true, false⟩

/-- The built-in `Or`. -/
def Or : Builtin :=
  ⟨"or", "|", false, false, true, false⟩

/-- The built-in `Count`. -/
def Count : Builtin :=
  ⟨"count", "", false, false, true, false⟩

/-- The built-in `Sum`. -/
def Sum : Builtin :=
  ⟨"sum", "", false, false, true, false⟩

/-- The built-in `Product`. -/
def Product : Builtin :=
  ⟨"product", "", false, false, true, false⟩

/-- The built-in `Max`. -/
def Max : Builtin :=
  ⟨"max", "", false, false, true, false⟩

/-- The built-in `Min`. -/
def Min : Builtin :=
  ⟨"min", "", false, false, true, false⟩

/-- The built-in `Any`. -/
def Any : Builtin :=
  ⟨"any", "", false, true, true, false⟩

/-- The built-in `All`. -/
def All : Builtin :=
  ⟨"all", "", false, true, true, false⟩

/-- The built-in `ArrayConcat`. -/
def ArrayConcat : Builtin :=
  ⟨"array.concat", "", false, false, true, false⟩

/-- The built-in `ArraySlice`. -/
def ArraySlice : Builtin :=
  ⟨"array.slice", "", false, false, true, false⟩

/-- The built-in `ArrayReverse`. -/
def ArrayReverse : Builtin :=
  ⟨"array.reverse", "", false, false, true, false⟩

/-- The built-in `ToNumber`. -/
def ToNumber : Builtin :=
  ⟨"to_number", "", false, false, true, false⟩

/-- The built-in `CastObject`. -/
def CastObject : Builtin :=
  ⟨"cast_object", "", false, true, true, false⟩

/-- The built-in `CastNull`. -/
def CastNull : Builtin :=
  ⟨"cast_null", "", false, true, true, false⟩

/-- The built-in `CastBoolean`. -/
def CastBoolean : Builtin :=
  ⟨"cast_boolean", "", false, true, true, false⟩

/-- The built-in `CastString`. -/
def CastString : Builtin :=
  ⟨"cast_string", "", false, true, true, false⟩

/-- The built-in `CastSet`. -/
def CastSet : Builtin :=
  ⟨"cast_set", "", false, true, true, false⟩

/-- The built-in `CastArray`. -/
def CastArray : Builtin :=
  ⟨"cast_array", "", false, true, true, false⟩

/-- The built-in `RegexIsValid`. -/
def RegexIsValid : Builtin :=
  ⟨"regex.is_valid", "", false, false, true, false⟩

/-- The built-in `RegexMatch`. -/
def RegexMatch : Builtin :=
  ⟨"regex.match", "", false, false, false, false⟩

/-- The built-in `RegexMatchDeprecated`. -/
def RegexMatchDeprecated : Builtin :=
  ⟨"re_match", "", false, true, false, false⟩

/-- The built-in `RegexSplit`. -/
def RegexSplit : Builtin :=
  ⟨"regex.split", "", false, false, false, false⟩

/-- The built-in `GlobsMatch`. -/
def GlobsMatch : Builtin :=
  ⟨"regex.globs_match", "", false, false, true, false⟩

/-- The built-in `RegexTemplateMatch`. -/
def RegexTemplateMatch : Builtin :=
  ⟨"regex.template_match", "", false, false, true, false⟩

/-- The built-in `RegexFind`. -/
def RegexFind : Builtin :=
  ⟨"regex.find_n", "", false, false, false, false⟩

/-- The built-in `RegexFindAllStringSubmatch`. -/
def RegexFindAllStringSubmatch : Builtin :=
  ⟨"regex.find_all_string_submatch_n", "", false, false, false, false⟩

/-- The built-in `RegexReplace`. -/
def RegexReplace : Builtin :=
  ⟨"regex.replace", "", false, false, false, false⟩

/-- The built-in `SetDiff`. -/
def SetDiff : Builtin :=
  ⟨"set_diff", "", false, true, true, false⟩

/-- The built-in `Intersection`. -/
def Intersection : Builtin :=
  ⟨"intersection", "", false, false, true, false⟩

/-- The built-in `Union`. -/
def Union : Builtin :=
  ⟨"union", "", false, false, true, false⟩

/-- The built-in `AnyPrefixMatch`. -/
def AnyPrefixMatch : Builtin :=
  ⟨"strings.any_prefix_match", "", false, false, true, false⟩

/-- The built-in `AnySuffixMatch`. -/
def AnySuffixMatch : Builtin :=
  ⟨"strings.any_suffix_match", "", false, false, true, false⟩

/-- The built-in `Concat`. -/
def Concat : Builtin :=
  ⟨"concat", "", false, false, true, false⟩

/-- The built-in `FormatInt`. -/
def FormatInt : Builtin :=
  ⟨"format_int", "", false, false, true, false⟩

/-- The built-in `IndexOf`. -/
def IndexOf : Builtin :=
  ⟨"indexof", "", false, false, true, false⟩

/-- The built-in `IndexOfN`. -/
def IndexOfN : Builtin :=
  ⟨"indexof_n", "", false, false, true, false⟩

/-- The built-in `Substring`. -/
def Substring : Builtin :=
  ⟨"substring", "", false, false, true, false⟩

/-- The built-in `Lower`. -/
def Lower : Builtin :=
  ⟨"lower", "", false, false, true, false⟩

/-- The built-in `Upper`. -/
def Upper : Builtin :=
  ⟨"upper", "", false, false, true, false⟩

/-- The built-in `Contains`. -/
def Contains : Builtin :=
  ⟨"contains", "", false, false, true, false⟩

/-- The built-in `StringCount`. -/
def StringCount : Builtin :=
  ⟨"strings.count", "", false, false, true, false⟩

/-- The built-in `StartsWith`. -/
def StartsWith : Builtin :=
  ⟨"startswith", "", false, false, true, false⟩

/-- The built-in `EndsWith`. -/
def EndsWith : Builtin :=
  ⟨"endswith", "", false, false, true, false⟩

/-- The built-in `Split`. -/
def Split : Builtin :=
  ⟨"split", "", false, false, true, false⟩

/-- The built-in `Replace`. -/
def Replace : Builtin :=
  ⟨"replace", "", false, false, true, false⟩

/-- The built-in `ReplaceN`. -/
def ReplaceN : Builtin :=
  ⟨"strings.replace_n", "", false, false, true, false⟩

/-- The built-in `Trim`. -/
def Trim : Builtin :=
  ⟨"trim", "", false, false, true, false⟩

/-- The built-in `TrimLeft`. -/
def TrimLeft : Builtin :=
  ⟨"trim_left", "", false, false, true, false⟩

/-- The built-in `TrimPrefix`. -/
def TrimPrefix : Builtin :=
  ⟨"trim_prefix", "", false, false, true, false⟩

/-- The built-in `TrimRight`. -/
def TrimRight : Builtin :=
  ⟨"trim_right", "", false, false, true, false⟩

/-- The built-in `TrimSuffix`. -/
def TrimSuffix : Builtin :=
  ⟨"trim_suffix", "", false, false, true, false⟩

/-- The built-in `TrimSpace`. -/
def TrimSpace : Builtin :=
  ⟨"trim_space", "", false, false, true, false⟩

/-- The built-in `Sprintf`. -/
def Sprintf : Builtin :=
  ⟨"sprintf", "", false, false, true, false⟩

/-- The built-in `StringReverse`. -/
def StringReverse : Builtin :=
  ⟨"strings.reverse", "", false, false, true, false⟩

/-- The built-in `RenderTemplate`. -/
def RenderTemplate : Builtin :=
  ⟨"strings.render_template", "", false, false, true, false⟩

/-- The built-in `NumbersRange`. -/
def NumbersRange : Builtin :=
  ⟨"numbers.range", "", false, false, false, false⟩

/-- The built-in `NumbersRangeStep`. -/
def NumbersRangeStep : Builtin :=
  ⟨"numbers.range_step", "", false, false, false, false⟩

/-- The built-in `RandIntn`. -/
def RandIntn : Builtin :=
  ⟨"rand.intn", "", false, false, false, true⟩

/-- The built-in `JSONMarshal`. -/
def JSONMarshal : Builtin :=
  ⟨"json.marshal", "", false, false, true, false⟩

/-- The built-in `JSONMarshalWithOptions`. -/
def JSONMarshalWithOptions : Builtin :=
  ⟨"json.marshal_with_options", "", false, false, true, false⟩

/-- The built-in `JSONUnmarshal`. -/
def JSONUnmarshal : Builtin :=
  ⟨"json.unmarshal", "", false, false, true, false⟩

/-- The built-in `JSONIsValid`. -/
def JSONIsValid : Builtin :=
  ⟨"json.is_valid", "", false, false, true, false⟩

/-- The built-in `Base64Encode`. -/
def Base64Encode : Builtin :=
  ⟨"base64.encode", "", false, false, true, false⟩

/-- The built-in `Base64Decode`. -/
def Base64Decode : Builtin :=
  ⟨"base64.decode", "", false, false, true, false⟩

/-- The built-in `Base64IsValid`. -/
def Base64IsValid : Builtin :=
  ⟨"base64.is_valid", "", false, false, true, false⟩

/-- The built-in `Base64UrlEncode`. -/
def Base64UrlEncode : Builtin :=
  ⟨"base64url.encode", "", false, false, true, false⟩

/-- The built-in `Base64UrlEncodeNoPad`. -/
def Base64UrlEncodeNoPad : Builtin :=
  ⟨"base64url.encode_no_pad", "", false, false, true, false⟩

/-- The built-in `Base64UrlDecode`. -/
def Base64UrlDecode : Builtin :=
  ⟨"base64url.decode", "", false, false, true, false⟩

/-- The built-in `URLQueryDecode`. -/
def URLQueryDecode : Builtin :=
  ⟨"urlquery.decode", "", false, false, true, false⟩

/-- The built-in `URLQueryEncode`. -/
def URLQueryEncode : Builtin :=
  ⟨"urlquery.encode", "", false, false, true, false⟩

/-- The built-in `URLQueryEncodeObject`. -/
def URLQueryEncodeObject : Builtin :=
  ⟨"urlquery.encode_object", "", false, false, true, false⟩

/-- The built-in `URLQueryDecodeObject`. -/
def URLQueryDecodeObject : Builtin :=
  ⟨"urlquery.decode_object", "", false, false, true, false⟩

/-- The built-in `YAMLMarshal`. -/
def YAMLMarshal : Builtin :=
  ⟨"yaml.marshal", "", false, false, true, false⟩

/-- The built-in `YAMLUnmarshal`. -/
def YAMLUnmarshal : Builtin :=
  ⟨"yaml.unmarshal", "", false, false, true, false⟩

/-- The built-in `YAMLIsValid`. -/
def YAMLIsValid : Builtin :=
  ⟨"yaml.is_valid", "", false, false, true, false⟩

/-- The built-in `HexEncode`. -/
def HexEncode : Builtin :=
  ⟨"hex.encode", "", false, false, true, false⟩

/-- The built-in `HexDecode`. -/
def HexDecode : Builtin :=
  ⟨"hex.decode", "", false, false, true, false⟩

/-- The built-in `ObjectUnion`. -/
def ObjectUnion : Builtin :=
  ⟨"object.union", "", false, false, true, false⟩

/-- The built-in `ObjectUnionN`. -/
def ObjectUnionN : Builtin :=
  ⟨"object.union_n", "", false, false, true, false⟩

/-- The built-in `ObjectRemove`. -/
def ObjectRemove : Builtin :=
  ⟨"object.remove", "", false, false, true, false⟩

/-- The built-in `ObjectFilter`. -/
def ObjectFilter : Builtin :=
  ⟨"object.filter", "", false, false, true, false⟩

/-- The built-in `ObjectGet`. -/
def ObjectGet : Builtin :=
  ⟨"object.get", "", false, false, true, false⟩

/-- The built-in `ObjectKeys`. -/
def ObjectKeys : Builtin :=
  ⟨"object.keys", "", false, false, true, false⟩

/-- The built-in `ObjectSubset`. -/
def ObjectSubset : Builtin :=
  ⟨"object.subset", "", false, false, true, false⟩

/-- The built-in `JSONFilter`. -/
def JSONFilter : Builtin :=
  ⟨"json.filter", "", false, false, true, false⟩

/-- The built-in `JSONRemove`. -/
def JSONRemove : Builtin :=
  ⟨"json.remove", "", false, false, true, false⟩

/-- The built-in `JSONPatch`. -/
def JSONPatch : Builtin :=
  ⟨"json.patch", "", false, false, true, false⟩

/-- The built-in `JWTDecode`. -/
def JWTDecode : Builtin :=
  ⟨"io.jwt.decode", "", false, false, true, false⟩

/-- The built-in `JWTVerifyRS256`. -/
def JWTVerifyRS256 : Builtin :=
  ⟨"io.jwt.verify_rs256", "", false, false, false, false⟩

/-- The built-in `JWTVerifyRS384`. -/
def JWTVerifyRS384 : Builtin :=
  ⟨"io.jwt.verify_rs384", "", false, false, false, false⟩

/-- The built-in `JWTVerifyRS512`. -/
def JWTVerifyRS512 : Builtin :=
  ⟨"io.jwt.verify_rs512", "", false, false, false, false⟩

/-- The built-in `JWTVerifyPS256`. -/
def JWTVerifyPS256 : Builtin :=
  ⟨"io.jwt.verify_ps256", "", false, false, false, false⟩

/-- The built-in `JWTVerifyPS384`. -/
def JWTVerifyPS384 : Builtin :=
  ⟨"io.jwt.verify_ps384", "", false, false, false, false⟩

/-- The built-in `JWTVerifyPS512`. -/
def JWTVerifyPS512 : Builtin :=
  ⟨"io.jwt.verify_ps512", "", false, false, false, false⟩

/-- The built-in `JWTVerifyES256`. -/
def JWTVerifyES256 : Builtin :=
  ⟨"io.jwt.verify_es256", "", false, false, false, false⟩

/-- The built-in `JWTVerifyES384`. -/
def JWTVerifyES384 : Builtin :=
  ⟨"io.jwt.verify_es384", "", false, false, false, false⟩

/-- The built-in `JWTVerifyES512`. -/
def JWTVerifyES512 : Builtin :=
  ⟨"io.jwt.verify_es512", "", false, false, false, false⟩

/-- The built-in `JWTVerifyHS256`. -/
def JWTVerifyHS256 : Builtin :=
  ⟨"io.jwt.verify_hs256", "", false, false, false, false⟩

/-- The built-in `JWTVerifyHS384`. -/
def JWTVerifyHS384 : Builtin :=
  ⟨"io.jwt.verify_hs384", "", false, false, false, false⟩

/-- The built-in `JWTVerifyHS512`. -/
def JWTVerifyHS512 : Builtin :=
  ⟨"io.jwt.verify_hs512", "", false, false, false, false⟩

/-- The built-in `JWTDecodeVerify`. -/
def JWTDecodeVerify : Builtin :=
  ⟨"io.jwt.decode_verify", "", false, false, false, true⟩

/-- The built-in `JWTEncodeSignRaw`. -/
def JWTEncodeSignRaw : Builtin :=
  ⟨"io.jwt.encode_sign_raw", "", false, false, false, true⟩

/-- The built-in `JWTEncodeSign`. -/
def JWTEncodeSign : Builtin :=
  ⟨"io.jwt.encode_sign", "", false, false, false, true⟩

/-- The built-in `NowNanos`. -/
def NowNanos : Builtin :=
  ⟨"time.now_ns", "", false, false, false, true⟩

/-- The built-in `ParseNanos`. -/
def ParseNanos : Builtin :=
  ⟨"time.parse_ns", "", false, false, true, false⟩

/-- The built-in `ParseRFC3339Nanos`. -/
def ParseRFC3339Nanos : Builtin :=
  ⟨"time.parse_rfc3339_ns", "", false, false, true, false⟩

/-- The built-in `ParseDurationNanos`. -/
def ParseDurationNanos : Builtin :=
  ⟨"time.parse_duration_ns", "", false, false, true, false⟩

/-- The built-in `Format`. -/
def Format : Builtin :=
  ⟨"time.format", "", false, false, true, false⟩

/-- The built-in `Date`. -/
def Date : Builtin :=
  ⟨"time.date", "", false, false, true, false⟩

/-- The built-in `Clock`. -/
def Clock : Builtin :=
  ⟨"time.clock", "", false, false, true, false⟩

/-- The built-in `Weekday`. -/
def Weekday : Builtin :=
  ⟨"time.weekday", "", false, false, true, false⟩

/-- The built-in `AddDate`. -/
def AddDate : Builtin :=
  ⟨"time.add_date", "", false, false, true, false⟩

/-- The built-in `Diff`. -/
def Diff : Builtin :=
  ⟨"time.diff", "", false, false, true, false⟩

/-- The built-in `CryptoX509ParseCertificates`. -/
def CryptoX509ParseCertificates : Builtin :=
  ⟨"crypto.x509.parse_certificates", "", false, false, true, false⟩

/-- The built-in `CryptoX509ParseAndVerifyCertificates`. -/
def CryptoX509ParseAndVerifyCertificates : Builtin :=
  ⟨"crypto.x509.parse_and_verify_certificates", "", false, false, true, false⟩

/-- The built-in `CryptoX509ParseAndVerifyCertificatesWithOptions`. -/
def CryptoX509ParseAndVerifyCertificatesWithOptions : Builtin :=
  ⟨"crypto.x509.parse_and_verify_certificates_with_options", "", false, false, true, false⟩

/-- The built-in `CryptoMd5`. -/
def CryptoMd5 : Builtin :=
  ⟨"crypto.md5", "", false, false, true, false⟩

/-- The built-in `CryptoSha1`. -/
def CryptoSha1 : Builtin :=
  ⟨"crypto.sha1", "", false, false, true, false⟩

/-- The built-in `CryptoSha256`. -/
def CryptoSha256 : Builtin :=
  ⟨"crypto.sha256", "", false, false, true, false⟩

/-- The built-in `CryptoX509ParseCertificateRequest`. -/
def CryptoX509ParseCertificateRequest : Builtin :=
  ⟨"crypto.x509.parse_certificate_request", "", false, false, true, false⟩

/-- The built-in `CryptoX509ParseRSAPrivateKey`. -/
def CryptoX509ParseRSAPrivateKey : Builtin :=
  ⟨"crypto.x509.parse_rsa_private_key", "", false, false, true, false⟩

/-- The built-in `CryptoX509ParseKeyPair`. -/
def CryptoX509ParseKeyPair : Builtin :=
  ⟨"crypto.x509.parse_keypair", "", false, false, true, false⟩

/-- The built-in `CryptoParsePrivateKeys`. -/
def CryptoParsePrivateKeys : Builtin :=
  ⟨"crypto.parse_private_keys", "", false, false, true, false⟩

/-- The built-in `CryptoHmacMd5`. -/
def CryptoHmacMd5 : Builtin :=
  ⟨"crypto.hmac.md5", "", false, false, true, false⟩

/-- The built-in `CryptoHmacSha1`. -/
def CryptoHmacSha1 : Builtin :=
  ⟨"crypto.hmac.sha1", "", false, false, true, false⟩

/-- The built-in `CryptoHmacSha256`. -/
def CryptoHmacSha256 : Builtin :=
  ⟨"crypto.hmac.sha256", "", false, false, true, false⟩

/-- The built-in `CryptoHmacSha512`. -/
def CryptoHmacSha512 : Builtin :=
  ⟨"crypto.hmac.sha512", "", false, false, true, false⟩

/-- The built-in `CryptoHmacEqual`. -/
def CryptoHmacEqual : Builtin :=
  ⟨"crypto.hmac.equal", "", false, false, true, false⟩

/-- The built-in `WalkBuiltin`. -/
def WalkBuiltin : Builtin :=
  ⟨"walk", "", true, false, true, false⟩

/-- The built-in `ReachableBuiltin`. -/
def ReachableBuiltin : Builtin :=
  ⟨"graph.reachable", "", false, false, true, false⟩

/-- The built-in `ReachablePathsBuiltin`. -/
def ReachablePathsBuiltin : Builtin :=
  ⟨"graph.reachable_paths", "", false, false, true, false⟩

/-- The built-in `Sort`, under a name that is not a reserved word. -/
def SortBuiltin : Builtin :=
  ⟨"sort", "", false, false, true, false⟩

/-- The built-in `IsNumber`. -/
def IsNumber : Builtin :=
  ⟨"is_number", "", false, false, true, false⟩

/-- The built-in `IsString`. -/
def IsString : Builtin :=
  ⟨"is_string", "", false, false, true, false⟩

/-- The built-in `IsBoolean`. -/
def IsBoolean : Builtin :=
  ⟨"is_boolean", "", false, false, true, false⟩

/-- The built-in `IsArray`. -/
def IsArray : Builtin :=
  ⟨"is_array", "", false, false, true, false⟩

/-- The built-in `IsSet`. -/
def IsSet : Builtin :=
  ⟨"is_set", "", false, false, true, false⟩

/-- The built-in `IsObject`. -/
def IsObject : Builtin :=
  ⟨"is_object", "", false, false, true, false⟩

/-- The built-in `IsNull`. -/
def IsNull : Builtin :=
  ⟨"is_null", "", false, false, true, false⟩

/-- The built-in `TypeNameBuiltin`. -/
def TypeNameBuiltin : Builtin :=
  ⟨"type_name", "", false, false, true, false⟩

/-- The built-in `HTTPSend`. -/
def HTTPSend : Builtin :=
  ⟨"http.send", "", false, false, false, true⟩

/-- The built-in `GraphQLParse`. -/
def GraphQLParse : Builtin :=
  ⟨"graphql.parse", "", false, false, false, false⟩

/-- The built-in `GraphQLParseAndVerify`. -/
def GraphQLParseAndVerify : Builtin :=
  ⟨"graphql.parse_and_verify", "", false, false, false, false⟩

/-- The built-in `GraphQLParseQuery`. -/
def GraphQLParseQuery : Builtin :=
  ⟨"graphql.parse_query", "", false, false, true, false⟩

/-- The built-in `GraphQLParseSchema`. -/
def GraphQLParseSchema : Builtin :=
  ⟨"graphql.parse_schema", "", false, false, false, false⟩

/-- The built-in `GraphQLIsValid`. -/
def GraphQLIsValid : Builtin :=
  ⟨"graphql.is_valid", "", false, false, false, false⟩

/-- The built-in `GraphQLSchemaIsValid`. -/
def GraphQLSchemaIsValid : Builtin :=
  ⟨"graphql.schema_is_valid", "", false, false, false, false⟩

/-- The built-in `JSONSchemaVerify`. -/
def JSONSchemaVerify : Builtin :=
  ⟨"json.verify_schema", "", false, false, true, false⟩

/-- The built-in `JSONMatchSchema`. -/
def JSONMatchSchema : Builtin :=
  ⟨"json.match_schema", "", false, false, false, false⟩

/-- The built-in `ProvidersAWSSignReqObj`. -/
def ProvidersAWSSignReqObj : Builtin :=
  ⟨"providers.aws.sign_req", "", false, false, true, false⟩

/-- The built-in `RegoParseModule`. -/
def RegoParseModule : Builtin :=
  ⟨"rego.parse_module", "", false, false, true, false⟩

/-- The built-in `RegoMetadataChain`. -/
def RegoMetadataChain : Builtin :=
  ⟨"rego.metadata.chain", "", false, false, true, false⟩

/-- The built-in `RegoMetadataRule`. -/
def RegoMetadataRule : Builtin :=
  ⟨"rego.metadata.rule", "", false, false, true, false⟩

/-- The built-in `OPARuntime`. -/
def OPARuntime : Builtin :=
  ⟨"opa.runtime", "", false, false, false, true⟩

/-- The built-in `Trace`. -/
def Trace : Builtin :=
  ⟨"trace", "", false, false, false, false⟩

/-- The built-in `NetCIDROverlap`. -/
def NetCIDROverlap : Builtin :=
  ⟨"net.cidr_overlap", "", false, true, true, false⟩

/-- The built-in `NetCIDRIntersects`. -/
def NetCIDRIntersects : Builtin :=
  ⟨"net.cidr_intersects", "", false, false, true, false⟩

/-- The built-in `NetCIDRContains`. -/
def NetCIDRContains : Builtin :=
  ⟨"net.cidr_contains", "", false, false, true, false⟩

/-- The built-in `NetCIDRContainsMatches`. -/
def NetCIDRContainsMatches : Builtin :=
  ⟨"net.cidr_contains_matches", "", false, false, true, false⟩

/-- The built-in `NetCIDRExpand`. -/
def NetCIDRExpand : Builtin :=
  ⟨"net.cidr_expand", "", false, false, false, false⟩

/-- The built-in `NetCIDRMerge`. -/
def NetCIDRMerge : Builtin :=
  ⟨"net.cidr_merge", "", false, false, true, false⟩

/-- The built-in `NetLookupIPAddr`. -/
def NetLookupIPAddr : Builtin :=
  ⟨"net.lookup_ip_addr", "", false, false, false, true⟩

/-- The built-in `NetCIDRIsValid`. -/
def NetCIDRIsValid : Builtin :=
  ⟨"net.cidr_is_valid", "", false, false, true, false⟩

/-- The built-in `GlobMatch`. -/
def GlobMatch : Builtin :=
  ⟨"glob.match", "", false, false, false, false⟩

/-- The built-in `GlobQuoteMeta`. -/
def GlobQuoteMeta : Builtin :=
  ⟨"glob.quote_meta", "", false, false, true, false⟩

/-- The built-in `UnitsParse`. -/
def UnitsParse : Builtin :=
  ⟨"units.parse", "", false, false, true, false⟩

/-- The built-in `UnitsParseBytes`. -/
def UnitsParseBytes : Builtin :=
  ⟨"units.parse_bytes", "", false, false, true, false⟩

/-- The built-in `UUIDRFC4122`. -/
def UUIDRFC4122 : Builtin :=
  ⟨"uuid.rfc4122", "", false, false, false, true⟩

/-- The built-in `UUIDParse`. -/
def UUIDParse : Builtin :=
  ⟨"uuid.parse", "", false, false, true, false⟩

/-- The built-in `SemVerIsValid`. -/
def SemVerIsValid : Builtin :=
  ⟨"semver.is_valid", "", false, false, true, false⟩

/-- The built-in `SemVerCompare`. -/
def SemVerCompare : Builtin :=
  ⟨"semver.compare", "", false, false, true, false⟩

/-- The built-in `Print`. -/
def Print : Builtin :=
  ⟨"print", "", false, false, false, false⟩

/-- The built-in `InternalPrint`. -/
def InternalPrint : Builtin :=
  ⟨"internal.print", "", false, false, false, false⟩

/-- The built-in `InternalTestCase`. -/
def InternalTestCase : Builtin :=
  ⟨"internal.test_case", "", false, false, false, false⟩

/-- Go `DefaultBuiltins` is the registry of built-in functions supported in OPA by
default. -/
def DefaultBuiltins : List Builtin :=
  [Equality, Assign, Member, MemberWithKey, GreaterThan, GreaterThanEq,
   LessThan, LessThanEq, NotEqual, Equal, Plus, Minus,
   Multiply, Divide, Ceil, Floor, Round, Abs,
   Rem, BitsOr, BitsAnd, BitsNegate, BitsXOr, BitsShiftLeft,
   BitsShiftRight, And, Or, Count, Sum, Product,
   Max, Min, Any, All, ArrayConcat, ArraySlice,
   ArrayReverse, ToNumber, CastObject, CastNull, CastBoolean, CastString,
   CastSet, CastArray, RegexIsValid, RegexMatch, RegexMatchDeprecated, RegexSplit,
   GlobsMatch, RegexTemplateMatch, RegexFind, RegexFindAllStringSubmatch, RegexReplace, SetDiff,
   Intersection, Union, AnyPrefixMatch, AnySuffixMatch, Concat, FormatInt,
   IndexOf, IndexOfN, Substring, Lower, Upper, Contains,
   StringCount, StartsWith, EndsWith, Split, Replace, ReplaceN,
   Trim, TrimLeft, TrimPrefix, TrimRight, TrimSuffix, TrimSpace,
   Sprintf, StringReverse, RenderTemplate, NumbersRange, NumbersRangeStep, RandIntn,
   JSONMarshal, JSONMarshalWithOptions, JSONUnmarshal, JSONIsValid, Base64Encode, Base64Decode,
   Base64IsValid, Base64UrlEncode, Base64UrlEncodeNoPad, Base64UrlDecode, URLQueryDecode, URLQueryEncode,
   URLQueryEncodeObject, URLQueryDecodeObject, YAMLMarshal, YAMLUnmarshal, YAMLIsValid, HexEncode,
   HexDecode, ObjectUnion, ObjectUnionN, ObjectRemove, ObjectFilter, ObjectGet,
   ObjectKeys, ObjectSubset, JSONFilter, JSONRemove, JSONPatch, JWTDecode,
   JWTVerifyRS256, JWTVerifyRS384, JWTVerifyRS512, JWTVerifyPS256, JWTVerifyPS384, JWTVerifyPS512,
   JWTVerifyES256, JWTVerifyES384, JWTVerifyES512, JWTVerifyHS256, JWTVerifyHS384, JWTVerifyHS512,
   JWTDecodeVerify, JWTEncodeSignRaw, JWTEncodeSign, NowNanos, ParseNanos, ParseRFC3339Nanos,
   ParseDurationNanos, Format, Date, Clock, Weekday, AddDate,
   Diff, CryptoX509ParseCertificates, CryptoX509ParseAndVerifyCertificates, CryptoX509ParseAndVerifyCertificatesWithOptions, CryptoMd5, CryptoSha1,
   CryptoSha256, CryptoX509ParseCertificateRequest, CryptoX509ParseRSAPrivateKey, CryptoX509ParseKeyPair, CryptoParsePrivateKeys, CryptoHmacMd5,
   CryptoHmacSha1, CryptoHmacSha256, CryptoHmacSha512, CryptoHmacEqual, WalkBuiltin, ReachableBuiltin,
   ReachablePathsBuiltin, SortBuiltin, IsNumber, IsString, IsBoolean, IsArray,
   IsSet, IsObject, IsNull, TypeNameBuiltin, HTTPSend, GraphQLParse,
   GraphQLParseAndVerify, GraphQLParseQuery, GraphQLParseSchema, GraphQLIsValid, GraphQLSchemaIsValid, JSONSchemaVerify,
   JSONMatchSchema, ProvidersAWSSignReqObj, RegoParseModule, RegoMetadataChain, RegoMetadataRule, OPARuntime,
   Trace, NetCIDROverlap, NetCIDRIntersects, NetCIDRContains, NetCIDRContainsMatches, NetCIDRExpand,
   NetCIDRMerge, NetLookupIPAddr, NetCIDRIsValid, GlobMatch, GlobQuoteMeta, UnitsParse,
   UnitsParseBytes, UUIDRFC4122, UUIDParse, SemVerIsValid, SemVerCompare, Print,
   InternalPrint, InternalTestCase]

/-- The package variables `Builtins` and `BuiltinMap`; the map is the function
from a key to the built-in stored under it. -/
structure Registry where
  Builtins : List Builtin
  BuiltinMap : String → Option Builtin

/-- The assignment `m[key] = b` on a map. -/
def mapSet (m : String → Option Builtin) (key : String) (b : Builtin) : String → Option Builtin :=
  fun k => if k = key then some b else m k

/-- Go `RegisterBuiltin` adds a new built-in function to the registry. The
interning of the name and infix strings does not touch the registry. -/
def RegisterBuiltin (r : Registry) (b : Builtin) : Registry :=
  let Builtins := r.Builtins ++ [b]
  let BuiltinMap := mapSet r.BuiltinMap b.Name b
  if b.Infix.length > 0 then ⟨Builtins, mapSet BuiltinMap b.Infix b⟩
  else ⟨Builtins, BuiltinMap⟩

/-- The package initialiser: `BuiltinMap = map[string]*Builtin{}` and
`RegisterBuiltin(b)` for every `b` of `DefaultBuiltins`, in order. -/
def init : Registry :=
  DefaultBuiltins.foldl RegisterBuiltin ⟨[], fun _ => none⟩

/-- The map `BuiltinMap` after package initialisation. -/
def BuiltinMap : String → Option Builtin :=
  init.BuiltinMap

/-- Modelled from the spec: the term model of `ast/term.go`, which is not among
the sources: a `*Term` by its value, one of null, boolean, number, string,
variable, reference, array, object, set and call, without locations and
comprehensions. -/
inductive Term where
  | Null
  | Boolean (b : Bool)
  | Number (n : String)
  | String (s : String)
  | Var (name : String)
  | Ref (terms : List Term)
  | Array (terms : List Term)
  | Object (entries : List (Term × Term))
  | Set (terms : List Term)
  | Call (terms : List Term)
  deriving Inhabited

/-- Go `Ref` is a sequence of terms. -/
abbrev Ref := List Term

/-- Go `Head` represents the head of a rule; a nil `*Term` is `none`. The location
and the keywords are left out. -/
structure Head where
  Name : String
  Reference : Ref
  Args : List Term
  Key : Option Term
  Value : Option Term
  Assign : Bool
  generatedValue : Bool

/-- Go `DocKind` represents the collection of document types that can be produced
by rules. -/
inductive DocKind where
  | CompleteDoc
  | PartialSetDoc
  | PartialObjectDoc
  deriving DecidableEq, Repr

/-- The loop `for i := 1; i < len(ref); i++` of `Ref.Dynamic` from position `i`
on: the position of the first operand that is not constant, -1 when there is
none. -/
def dynamicLoop (isConstant : Term → Bool) : List Term → Nat → Int
  | [], _ => -1
  | t :: rest, i => if !isConstant t then (i : Int) else dynamicLoop isConstant rest (i + 1)

/-- Modelled from the spec: `Ref.Dynamic` of `ast/term.go`, which is not among
the sources: the offset of the first non-constant operand of the reference, 0
when the head of the reference is a call and -1 when every operand after the
head is constant. The head `ref[0]` is read first, so the empty reference
panics. The parameter `isConstant` is `IsConstant` of `ast/term.go`. -/
def Ref.Dynamic (isConstant : Term → Bool) : Ref → Option Int
  | [] => none
  | Term.Call _ :: _ => some 0
  | _ :: rest => some (dynamicLoop isConstant rest 1)

/-- The method `Head.HasDynamicRef`; `none` is the panic of `Ref.Dynamic` on an
empty `Reference`. -/
def Head.HasDynamicRef (isConstant : Term → Bool) (head : Head) : Option Bool :=
  match Ref.Dynamic isConstant head.Reference with
  | none => none
  | some pos => some (decide (pos > 0) && decide (pos < (head.Reference.length : Int)))

/-- Go `Head.DocKind` returns the type of document produced by this rule; `none`
is the panic of `HasDynamicRef`. -/
def Head.DocKind (isConstant : Term → Bool) (head : Head) : Option ast.DocKind :=
  if head.Key.isSome then
    if head.Value.isSome then some ast.DocKind.PartialObjectDoc
    else some ast.DocKind.PartialSetDoc
  else
    match head.HasDynamicRef isConstant with
    | none => none
    | some true => some ast.DocKind.PartialObjectDoc
    | some false => some ast.DocKind.CompleteDoc

/-- Go `IgnoreDuringPartialEval`, the deprecated list of built-ins that partial
evaluation ignores. -/
def IgnoreDuringPartialEval : List Builtin :=
  [RandIntn, UUIDRFC4122, JWTDecodeVerify, JWTEncodeSignRaw, JWTEncodeSign, NowNanos, HTTPSend,
   OPARuntime, NetLookupIPAddr]

/-- Go `Builtin.IsNondeterministic` returns true if the Builtin function returns
non-deterministic results. -/
def Builtin.IsNondeterministic (b : Builtin) : Bool :=
  b.Nondeterministic

/-- Go `Builtin.NeedsBuiltInContext` returns true if the built-in depends on the
built-in context. -/
def Builtin.NeedsBuiltInContext (b : Builtin) : Bool :=
  !b.canSkipBctx

/-- The Go struct `Builtin` with all of its fields: the six of `Builtin` above
and `Description`, `Categories` (a slice, `none` when nil) and `Decl` (a
`*types.Function`, `none` when nil). -/
structure FullBuiltin extends Builtin where
  Description : String
  Categories : Option (List String)
  Decl : Option types.Function

/-- Go `Builtin.IsTargetPos` returns true if a variable in the i-th position will
be bound by evaluating the call expression. A nil `Decl` is dereferenced by
`Arity`, and the call panics. -/
def FullBuiltin.IsTargetPos (b : FullBuiltin) (i : Int) : Option Bool :=
  match b.Decl with
  | none => none
  | some decl => some (decide (decl.Arity = i))

/-- Go `Builtin.Minimal` returns a shallow copy of b with the descriptions and
categories and named arguments stripped out. The receiver is only read. A nil
`Decl` is dereferenced by `FuncArgs`, and `NewVariadicFunction` panics on a
result that is not nil. -/
def FullBuiltin.Minimal (b : FullBuiltin) : Option FullBuiltin :=
  match b.Decl with
  | none => none
  | some decl =>
    let fargs := decl.FuncArgs
    let cpyDecl :=
      if !fargs.Variadic.isNil then types.NewVariadicFunction fargs.Args fargs.Variadic decl.Result
      else some (types.NewFunction fargs.Args decl.Result)
    match cpyDecl with
    | none => none
    | some d => some { b with Decl := some d, Categories := none, Description := "" }

/-- A non-nil pointer `*Builtin`: the address of a built-in. -/
abbrev BuiltinPtr := Nat

/-- The built-ins in memory: the built-in every `*Builtin` points to, and the
first address that is not allocated yet. -/
structure BuiltinStore where
  cells : BuiltinPtr → FullBuiltin
  next : BuiltinPtr

/-- Go `Builtin.Minimal` on its pointer receiver: `cpy := *b` is a new variable,
whose address `&cpy` is returned; the fields of `cpy` are those that
`FullBuiltin.Minimal` computes from the built-in `b` points to. -/
def BuiltinStore.Minimal (s : BuiltinStore) (b : BuiltinPtr) :
    Option (BuiltinStore × BuiltinPtr) :=
  match (s.cells b).Minimal with
  | none => none
  | some cpy =>
    some ({ cells := fun p => if p = s.next then cpy else s.cells p, next := s.next + 1 },
      s.next)

/-- Go `strings.Split(s, sep)` for a separator of one ASCII character: the
pieces of `s` between the separators, at least one piece. `cur` holds the
characters of the current piece, last first. -/
def splitLoop (sep : Char) : List Char → List Char → List String
  | cur, [] => [String.mk cur.reverse]
  | cur, c :: cs =>
    if c = sep then String.mk cur.reverse :: splitLoop sep [] cs
    else splitLoop sep (c :: cur) cs

/-- The call `strings.Split(s, ".")`. -/
def splitDots (s : String) : List String :=
  splitLoop '.' [] s.data

/-- Go `Builtin.Ref` returns a Ref that refers to the built-in function:
`VarTerm` of the first part of the name, `InternedTerm` (a string term) of every
further part. `strings.Split` returns at least one part. -/
def Builtin.Ref (b : Builtin) : Ref :=
  match splitDots b.Name with
  | [] => []
  | part :: parts => Term.Var part :: parts.map Term.String

/-- Go `With` represents a modifier on an expression, by its target and value. -/
structure With where
  Target : Term
  Value : Term

/-- Go `SomeDecl` represents a variable declaration statement, by its symbols. -/
structure SomeDecl where
  Symbols : List Term

mutual
/-- The field `Terms any` of an expression by its dynamic type: a `*Term`, a
`[]*Term`, a `*SomeDecl`, an `*Every`, or anything else (nil included). -/
inductive ExprTerms where
  | term (t : Term)
  | call (ts : List Term)
  | someDecl (d : SomeDecl)
  | every (q : Every)
  | other
/-- Go `Every` represents the `every` quantifier; a nil `*Term` is `none`. -/
inductive Every where
  | mk (Key : Option Term) (Value : Option Term) (Domain : Option Term) (Body : List Expr)
/-- Go `Expr` represents a single expression contained inside the body of a rule,
without its location and the fields `generatedFrom` and `generates`. -/
inductive Expr where
  | mk (With : List With) (Terms : ExprTerms) (Index : Int) (Generated : Bool) (Negated : Bool)
end

/-- Go `Body` represents one or more expressions contained inside a rule or user
function, here by the values of its expressions. -/
abbrev Body := List Expr

/-- The field `With`. -/
def Expr.With : Expr → List With
  | .mk w _ _ _ _ => w

/-- The field `Terms`. -/
def Expr.Terms : Expr → ExprTerms
  | .mk _ t _ _ _ => t

/-- The field `Index`. -/
def Expr.Index : Expr → Int
  | .mk _ _ i _ _ => i

/-- The field `Generated`. -/
def Expr.Generated : Expr → Bool
  | .mk _ _ _ g _ => g

/-- The field `Negated`. -/
def Expr.Negated : Expr → Bool
  | .mk _ _ _ _ n => n

/-- The assignment `expr.Index = i`. -/
def Expr.setIndex : Expr → Int → Expr
  | .mk w t _ g n, i => .mk w t i g n

/-- Go `Builtin.Expr` creates a new expression for the built-in with the given
operands. `NewTerm` wraps the reference in a term; the fields that the
composite literal leaves out have their zero values. -/
def Builtin.Expr (b : Builtin) (operands : List Term) : Expr :=
  let ts := Term.Ref b.Ref :: operands
  Expr.mk [] (ExprTerms.call ts) 0 false false

/-- Go `Expr.IsCall` returns true if this expression calls a function. -/
def Expr.IsCall (expr : Expr) : Bool :=
  match expr.Terms with
  | .call _ => true
  | _ => false

/-- Go `Expr.OperatorTerm` returns the name of the function or built-in this
expression refers to, nil if this expression is not a function call. -/
def Expr.OperatorTerm (expr : Expr) : Option Term :=
  match expr.Terms with
  | .call (t :: _) => some t
  | _ => none

/-- Go `Expr.Operator` returns the name of the function or built-in this
expression refers to, the nil reference if this expression is not a function
call. The outer `none` is the panic of the type assertion `op.Value.(Ref)`. -/
def Expr.Operator (expr : Expr) : Option Ref :=
  match expr.OperatorTerm with
  | none => some []
  | some (Term.Ref ref) => some ref
  | some _ => none

/-- The value of a Go `int` sum: the integer modulo 2^64 in the signed range. -/
def wrapInt (x : Int) : Int :=
  (x + 2 ^ 63) % 2 ^ 64 - 2 ^ 63

/-- Go `Expr.Operand` returns the term at the zero-based pos, nil (the inner
`none`) if the expr does not include at least pos+1 terms. The sum `pos + 1`
is a Go `int` and wraps around; the outer `none` is the panic of `terms[idx]`
on a negative index. -/
def Expr.Operand (expr : Expr) (pos : Int) : Option (Option Term) :=
  match expr.Terms with
  | .call terms =>
    let idx := wrapInt (pos + 1)
    if idx < terms.length then
      if 0 ≤ idx then some terms[idx.toNat]? else none
    else some none
  | _ => some none

/-- Go `Expr.Operands` returns the built-in function operands, nil (the empty
list) when the expression is no call. `none` is the panic of `terms[1:]` on an
empty slice. -/
def Expr.Operands (expr : Expr) : Option (List Term) :=
  match expr.Terms with
  | .call (_ :: operands) => some operands
  | .call [] => none
  | _ => some []

/-- Modelled from the spec: `Ref.Append` of `ast/term.go`, which is not among
the sources: the reference with the term added at its end. -/
def Ref.Append (ref : Ref) (term : Term) : Ref :=
  ref ++ [term]

/-- Go `NewHead` returns a new Head object. If args are provided, the first will
be used for the key and the second will be used for the value. `NewTerm(name)`
is the variable term of the name. -/
def NewHead (name : String) (args : List (Option Term)) : Head :=
  let head : Head :=
    { Name := name, Reference := [Term.Var name], Args := [], Key := none, Value := none,
      Assign := false, generatedValue := false }
  match args with
  | [] => head
  | [key] => { head with Key := key }
  | key :: value :: _ =>
    let head := { head with Key := key, Value := value }
    match key, value with
    | some k, some _ => { head with Reference := Ref.Append head.Reference k }
    | _, _ => head

/-- A non-nil pointer `*Expr`: the address of an expression. -/
abbrev ExprPtr := Nat

/-- The expressions in memory: the expression every `*Expr` points to. -/
abbrev Store := ExprPtr → Expr

/-- The assignment `expr.Index = i` through the pointer `expr`. -/
def Store.setIndex (s : Store) (expr : ExprPtr) (i : Int) : Store :=
  fun p => if p = expr then (s p).setIndex i else s p

/-- The loop `for i, expr := range exprs { expr.Index = i }` of `NewBody` from
position `i` on. -/
def newBodyLoop (s : Store) : List ExprPtr → Nat → Store
  | [], _ => s
  | expr :: exprs, i => newBodyLoop (s.setIndex expr i) exprs (i + 1)

/-- Go `NewBody` returns a new Body containing the given expressions. The indices
of the immediate expressions will be reset. The body is the slice of pointers
it was given. -/
def NewBody (s : Store) (exprs : List ExprPtr) : Store × List ExprPtr :=
  (newBodyLoop s exprs 0, exprs)

/-- Go `Body.Append` adds the expr to the body and updates the expr's index
accordingly. -/
def Body.Append (s : Store) (body : List ExprPtr) (expr : ExprPtr) : Store × List ExprPtr :=
  let n := body.length
  (s.setIndex expr n, body ++ [expr])

/-- Go `Body.Set` sets the expr in the body at the specified position and
updates the expr's index accordingly. `none` is the panic of `body[pos]` on an
index out of range. -/
def Body.Set (s : Store) (body : List ExprPtr) (expr : ExprPtr) (pos : Int) :
    Option (Store × List ExprPtr) :=
  if 0 ≤ pos ∧ pos < body.length then some (s.setIndex expr pos, body.set pos.toNat expr)
  else none

/-- Go `Rule` represents a rule as defined in the language, without location,
annotations and module pointer; a nil `Else` is `none`. -/
inductive Rule where
  | mk (Default : Bool) (Head : Head) (Body : Body) (Else : Option Rule) (generatedBody : Bool)

/-- The field `Head`. -/
def Rule.Head : Rule → Head
  | .mk _ h _ _ _ => h

/-- Go `Module` represents a collection of policies, by its rules. -/
structure Module where
  Rules : List Rule

/-- Go `RuleSet` represents a collection of rules that produce a virtual
document. -/
abbrev RuleSet := List Rule

/-- Go `RuleSet.Add` inserts the rule into rs. The parameter `ruleEqual` is the
method `Rule.Equal`, whose comparison runs through `ast/compare.go` and
`ast/annotations.go`, which are not among the sources. -/
def RuleSet.Add (ruleEqual : Rule → Rule → Bool) (rs : RuleSet) (rule : Rule) : RuleSet :=
  if rs.any (fun exist => ruleEqual exist rule) then rs
  else rs ++ [rule]

/-- Modelled from the spec: `Var.Equal` of `ast/term.go`, which is not among
the sources, on two variables: they have the same name. -/
def Var.Equal (v other : String) : Bool :=
  decide (v = other)

/-- Go `Module.RuleSet` returns a RuleSet containing named rules in the mod. -/
def Module.RuleSet (ruleEqual : Rule → Rule → Bool) (mod : Module) (name : String) : RuleSet :=
  mod.Rules.foldl
    (fun rs rule => if Var.Equal rule.Head.Name name then RuleSet.Add ruleEqual rs rule else rs) []

/-- Modelled from the spec: `termSliceCompare` of `ast/term.go`, which is not
among the sources: the terms are compared position by position and the first
difference decides, then the shorter slice comes first, as `Body.Compare` does
for expressions. The parameter `termCompare` is the generic `Compare` of
`ast/compare.go` on the values of two terms. -/
def termSliceCompare (termCompare : Term → Term → Int) : List Term → List Term → Int
  | a :: as, b :: bs =>
    let cmp := termCompare a b
    if cmp ≠ 0 then cmp else termSliceCompare termCompare as bs
  | [], _ :: _ => -1
  | _ :: _, [] => 1
  | [], [] => 0

/-- Modelled from the spec: `termSliceHash` of `ast/term.go`, which is not among
the sources: the sum of the hashes of the values of the terms. The parameter
`termHash` is the method `Hash` of the value of a term. -/
def termSliceHash (termHash : Term → Int) (a : List Term) : Int :=
  a.foldl (fun hash v => wrapInt (hash + termHash v)) 0

/-- The generic `Compare` of `ast/compare.go` on two `*Term` that may be nil:
nil comes before every term, as in the nil cases of `With.Compare`. -/
def compareTermPtr (termCompare : Term → Term → Int) : Option Term → Option Term → Int
  | none, none => 0
  | none, some _ => -1
  | some _, none => 1
  | some a, some b => termCompare a b

/-- Go `With.Compare` returns an integer indicating whether w is less than, equal
to, or greater than other, on two non-nil receivers. -/
def With.Compare (termCompare : Term → Term → Int) (w other : With) : Int :=
  let cmp := termCompare w.Target other.Target
  if cmp ≠ 0 then cmp else termCompare w.Value other.Value

/-- Go `With.Hash` returns the hash code of the With. -/
def With.Hash (termHash : Term → Int) (w : With) : Int :=
  wrapInt (termHash w.Target + termHash w.Value)

/-- Modelled from the spec: `withSliceCompare` of `ast/term.go`, which is not
among the sources: the modifiers are compared position by position with
`With.Compare` and the first difference decides, then the shorter slice comes
first. -/
def withSliceCompare (termCompare : Term → Term → Int) : List With → List With → Int
  | a :: as, b :: bs =>
    let cmp := With.Compare termCompare a b
    if cmp ≠ 0 then cmp else withSliceCompare termCompare as bs
  | [], _ :: _ => -1
  | _ :: _, [] => 1
  | [], [] => 0

/-- Go `SomeDecl.Compare` returns an integer indicating whether d is less than,
equal to, or greater than other. -/
def SomeDecl.Compare (termCompare : Term → Term → Int) (d other : SomeDecl) : Int :=
  termSliceCompare termCompare d.Symbols other.Symbols

/-- Go `SomeDecl.Hash` returns a hash code of d. -/
def SomeDecl.Hash (termHash : Term → Int) (d : SomeDecl) : Int :=
  termSliceHash termHash d.Symbols

/-- Go `Expr.sortOrder`. -/
def ExprTerms.sortOrder : ExprTerms → Int
  | .someDecl _ => 0
  | .term _ => 1
  | .call _ => 2
  | .every _ => 3
  | .other => -1

mutual
/-- Go `Expr.Compare` returns an integer indicating whether expr is less than,
equal to, or greater than other, on two non-nil receivers. After equal sort
orders both `Terms` have the same dynamic type, so the type assertions on
`other.Terms` hold. The generic `Compare` hands two `*SomeDecl` and two
`*Every` to their `Compare` methods. -/
def Expr.Compare (termCompare : Term → Term → Int) : Expr → Expr → Int
  | .mk exprWith exprTerms exprIndex _ exprNegated,
    .mk otherWith otherTerms otherIndex _ otherNegated =>
    let o1 := exprTerms.sortOrder
    let o2 := otherTerms.sortOrder
    if o1 < o2 then -1
    else if o2 < o1 then 1
    else if exprIndex < otherIndex then -1
    else if exprIndex > otherIndex then 1
    else if exprNegated && !otherNegated then 1
    else if !exprNegated && otherNegated then -1
    else
      let cmp :=
        match exprTerms, otherTerms with
        | .term t, .term u => termCompare t u
        | .call t, .call u => termSliceCompare termCompare t u
        | .someDecl t, .someDecl u => t.Compare termCompare u
        | .every t, .every u => Every.Compare termCompare t u
        | _, _ => 0
      if cmp ≠ 0 then cmp else withSliceCompare termCompare exprWith otherWith
termination_by structural expr => expr
/-- Go `Every.Compare`: the keys, the values and the domains are compared, then
the bodies. -/
def Every.Compare (termCompare : Term → Term → Int) : Every → Every → Int
  | .mk qKey qValue qDomain qBody, .mk otherKey otherValue otherDomain otherBody =>
    let d1 := compareTermPtr termCompare qKey otherKey
    if d1 ≠ 0 then d1
    else
      let d2 := compareTermPtr termCompare qValue otherValue
      if d2 ≠ 0 then d2
      else
        let d3 := compareTermPtr termCompare qDomain otherDomain
        if d3 ≠ 0 then d3 else Body.Compare termCompare qBody otherBody
termination_by structural q => q
/-- Go `Body.Compare` returns an integer indicating whether body is less than,
equal to, or greater than other. If body is a subset of other, it is
considered less than (and vice versa). -/
def Body.Compare (termCompare : Term → Term → Int) : List Expr → List Expr → Int
  | expr :: body, otherExpr :: other =>
    let cmp := Expr.Compare termCompare expr otherExpr
    if cmp ≠ 0 then cmp else Body.Compare termCompare body other
  | [], _ :: _ => -1
  | _ :: _, [] => 1
  | [], [] => 0
termination_by structural body => body
end

/-- Go `Expr.Equal` returns true if this Expr equals the other Expr. -/
def Expr.Equal (termCompare : Term → Term → Int) (expr other : Expr) : Bool :=
  Expr.Compare termCompare expr other == 0

/-- Go `Body.Equal` returns true if this Body is equal to the other Body. -/
def Body.Equal (termCompare : Term → Term → Int) (body other : Body) : Bool :=
  Body.Compare termCompare body other == 0

/-- The type switch on `expr.Terms` in `Expr.Hash`, which adds the hash of the
terms to the sum `s`; an `*Every` adds nothing. -/
def ExprTerms.addHash (termHash : Term → Int) (s : Int) : ExprTerms → Int
  | .someDecl ts => wrapInt (s + ts.Hash termHash)
  | .call ts => ts.foldl (fun s t => wrapInt (s + termHash t)) s
  | .term ts => wrapInt (s + termHash ts)
  | _ => s

/-- Go `Expr.Hash` returns the hash code of the Expr. -/
def Expr.Hash (termHash : Term → Int) (expr : Expr) : Int :=
  let s := expr.Index
  let s := expr.Terms.addHash termHash s
  let s := if expr.Negated then wrapInt (s + 1) else s
  expr.With.foldl (fun s w => wrapInt (s + w.Hash termHash)) s

/-- Go `Body.Hash` returns the hash code for the Body. -/
def Body.Hash (termHash : Term → Int) (body : Body) : Int :=
  body.foldl (fun s e => wrapInt (s + e.Hash termHash)) 0

/-! ## Definitions for the proofs about expressions, bodies and rules -/

/-- A built-in with the declaration `(number, number) => number`, for the
instances of the theorems. -/
def samplePlus : FullBuiltin :=
  { Plus with
    Description := "Plus adds two numbers together."
    Categories := some ["numbers"]
    Decl := some { args := [types.Ty.NamedType "x" "" types.Ty.Number,
                            types.Ty.NamedType "y" "" types.Ty.Number],
                   result := types.Ty.NamedType "z" "the sum" types.Ty.Number,
                   variadic := types.Ty.nil } }

/-- A built-in without declaration, as in `&Builtin{Name: "eq"}`. -/
def sampleUndeclared : FullBuiltin :=
  { Name := "eq", Infix := "", Relation := false, deprecated := false, canSkipBctx := false,
    Nondeterministic := false, Description := "", Categories := none, Decl := none }

/-- A built-in whose argument is a string type named twice. -/
def sampleNestedNamed : FullBuiltin :=
  { Name := "f", Infix := "", Relation := false, deprecated := false, canSkipBctx := false,
    Nondeterministic := false, Description := "", Categories := none,
    Decl := some { args := [types.Ty.NamedType "a" "" (types.Ty.NamedType "b" "" types.Ty.String)],
                   result := types.Ty.Boolean, variadic := types.Ty.nil } }

/-- A store that holds `samplePlus` at every address, with three addresses
allocated. -/
def sampleBuiltinStore : BuiltinStore :=
  { cells := fun _ => samplePlus, next := 3 }

/-- The body index invariant: the expression at position `i` has `Index` `i`. -/
def IndexInvariant (s : Store) (body : List ExprPtr) : Prop :=
  ∀ (i : Nat) (h : i < body.length), (s (body.get ⟨i, h⟩)).Index = i

/-- A store for the instances of the theorems: the expression at address `p` is
an empty expression with `Index` `p`. -/
def sampleStore : Store :=
  fun p => Expr.mk [] ExprTerms.other p false false

/-- One iteration of the loop of `Module.RuleSet`. -/
def ruleSetStep (ruleEqual : Rule → Rule → Bool) (name : String) (rs : RuleSet) (rule : Rule) :
    RuleSet :=
  if Var.Equal rule.Head.Name name then RuleSet.Add ruleEqual rs rule else rs

/-- A rule without body for the instances of the theorems. -/
def sampleRule (name : String) (isDefault : Bool) : Rule :=
  Rule.mk isDefault (NewHead name []) [] none false

/-- An equality of rules for the instances of the theorems: the same name and
the same `Default`. -/
def sampleRuleEqual : Rule → Rule → Bool
  | .mk d1 h1 _ _ _, .mk d2 h2 _ _ _ => decide (h1.Name = h2.Name) && (d1 == d2)

/-- A hash of terms for the instances of the theorems: 0 for a variable, 1 for
every other term. -/
def sampleTermHash : Term → Int
  | .Var _ => 0
  | _ => 1

/-- A comparison of terms for the instances of the theorems: variables come
before every other term. -/
def sampleTermCompare (a b : Term) : Int :=
  if sampleTermHash a < sampleTermHash b then -1
  else if sampleTermHash a > sampleTermHash b then 1 else 0

end ast

/-! ## The type lattice -/

namespace types

theorem strip_of_notNamed {t : Ty} (h : t.isNamed = false) : strip t = t := by
  cases t <;> first | rfl | simp [Ty.isNamed] at h

theorem unwrap_facts {b : Ty} (h : noNestedNamed b = true) :
    (unwrap b).isNamed = false ∧ noNestedNamed (unwrap b) = true ∧ strip b = unwrap b ∧
      rank b = rank (unwrap b) := by
  cases b with
  | NamedType n d t =>
    simp only [noNestedNamed, Bool.and_eq_true, Bool.not_eq_true'] at h
    refine ⟨h.1, h.2, ?_, rfl⟩
    simp [strip, unwrap, strip_of_notNamed h.1]
  | _ => exact ⟨rfl, h, rfl, rfl⟩

theorem returnIfNonZero_some (c r : Int) :
    returnIfNonZero (some c) (some r) = some (lex c r) := by
  simp only [returnIfNonZero, lex]; split <;> rfl

theorem strip_notNamed : ∀ (t : Ty), (strip t).isNamed = false
  | .NamedType _ _ t => by rw [strip]; exact strip_notNamed t
  | .nil | .Null | .Boolean | .Number | .String | .Array _ _ | .Object _ _ | .Set _ | .Any _
  | .Function _ _ _ => rfl

theorem strip_strip (t : Ty) : strip (strip t) = strip t :=
  strip_of_notNamed (strip_notNamed t)

theorem rank_strip : ∀ (t : Ty), rank (strip t) = rank t
  | .NamedType _ _ t => by rw [strip, rank]; exact rank_strip t
  | .nil | .Null | .Boolean | .Number | .String | .Array _ _ | .Object _ _ | .Set _ | .Any _
  | .Function _ _ _ => rfl

theorem cmp_strip_right (uc : GoVal → GoVal → Int) : ∀ (a b : Ty), cmp uc a (strip b) = cmp uc a b
  | .NamedType _ _ t, b => by rw [cmp, cmp]; exact cmp_strip_right uc t b
  | .nil, b => by rw [cmp, cmp, rank_strip]
  | .Null, b => by rw [cmp, cmp, rank_strip]
  | .Boolean, b => by rw [cmp, cmp, rank_strip]
  | .Number, b => by rw [cmp, cmp, rank_strip]
  | .String, b => by rw [cmp, cmp, rank_strip]
  | .Array _ _, b => by rw [cmp, cmp, rank_strip, strip_strip]
  | .Object _ _, b => by rw [cmp, cmp, rank_strip, strip_strip]
  | .Set _, b => by rw [cmp, cmp, rank_strip, strip_strip]
  | .Any _, b => by rw [cmp, cmp, rank_strip, strip_strip]
  | .Function _ _ _, b => by rw [cmp, cmp, rank_strip, strip_strip]

theorem cmp_strip_left (uc : GoVal → GoVal → Int) : ∀ (a b : Ty), cmp uc (strip a) b = cmp uc a b
  | .NamedType _ _ t, b => by rw [strip, cmp]; exact cmp_strip_left uc t b
  | .nil, _ => rfl
  | .Null, _ => rfl
  | .Boolean, _ => rfl
  | .Number, _ => rfl
  | .String, _ => rfl
  | .Array _ _, _ => rfl
  | .Object _ _, _ => rfl
  | .Set _, _ => rfl
  | .Any _, _ => rfl
  | .Function _ _ _, _ => rfl

theorem cmp_unwrap_right (uc : GoVal → GoVal → Int) (a : Ty) {b : Ty}
    (h : noNestedNamed b = true) : cmp uc a (unwrap b) = cmp uc a b := by
  rw [← (unwrap_facts h).2.2.1, cmp_strip_right]

theorem wf_array {sa da} (h : noNestedNamed (.Array sa da) = true) :
    noNestedNamedList sa = true ∧ noNestedNamed da = true := by
  simpa [noNestedNamed] using h

theorem wf_function {aa ra va} (h : noNestedNamed (.Function aa ra va) = true) :
    noNestedNamedList aa = true ∧ noNestedNamed ra = true ∧ noNestedNamed va = true := by
  simpa [noNestedNamed, and_assoc] using h

theorem wf_object {sa da} (h : noNestedNamed (.Object sa da) = true) :
    noNestedNamedStatic sa = true ∧ noNestedNamedDynamic da = true := by
  simpa [noNestedNamed] using h

theorem wf_dynamic {k v} (h : noNestedNamedDynamic (some (k, v)) = true) :
    noNestedNamed k = true ∧ noNestedNamed v = true := by
  simpa [noNestedNamedDynamic] using h

theorem wf_cons {t ts} (h : noNestedNamedList (t :: ts) = true) :
    noNestedNamed t = true ∧ noNestedNamedList ts = true := by
  simpa [noNestedNamedList] using h

theorem wf_static_cons {k t ts} (h : noNestedNamedStatic ((k, t) :: ts) = true) :
    noNestedNamed t = true ∧ noNestedNamedStatic ts = true := by
  simpa [noNestedNamedStatic] using h

theorem Compare_def (uc : GoVal → GoVal → Int) (a b : Ty) :
    Compare uc a b = compareFrom uc 1 a (unwrap b) := rfl

theorem compareFrom_named (uc : GoVal → GoVal → Int) (x d : String) (t b : Ty) :
    compareFrom uc 1 (.NamedType x d t) b = compareFrom uc 0 t b := rfl

theorem argsCompare_eq (uc : GoVal → GoVal → Int) :
    ∀ (as bs : List Ty), as.length = bs.length →
      argsCompare uc as bs = typeSliceCompare uc as bs
  | [], [], _ => rfl
  | [], _ :: _, h => by simp at h
  | _ :: _, [], h => by simp at h
  | a :: as, b :: bs, h => by
    have ih := argsCompare_eq uc as bs (by simpa using h)
    have e1 : argsCompare uc (a :: as) (b :: bs) =
        returnIfNonZero (compareFrom uc 1 a (unwrap b)) (argsCompare uc as bs) := rfl
    have e2 : typeSliceCompare uc (a :: as) (b :: bs) =
        returnIfNonZero (compareFrom uc 1 a (unwrap b)) (typeSliceCompare uc as bs) := rfl
    rw [e1, e2, ih]

mutual
theorem compareFrom_eq_cmp (uc : GoVal → GoVal → Int) :
    ∀ (a b : Ty), noNestedNamed a = true → noNestedNamed b = true → b.isNamed = false →
      compareFrom uc 1 a b = some (cmp uc a b) ∧
      (a.isNamed = false → compareFrom uc 0 a b = some (cmp uc a b))
  | .nil, b, _, _, hb => by cases b <;> first | exact ⟨rfl, fun _ => rfl⟩ | simp [Ty.isNamed] at hb
  | .Null, b, _, _, hb => by cases b <;> first | exact ⟨rfl, fun _ => rfl⟩ | simp [Ty.isNamed] at hb
  | .Boolean, b, _, _, hb => by cases b <;> first | exact ⟨rfl, fun _ => rfl⟩ | simp [Ty.isNamed] at hb
  | .Number, b, _, _, hb => by cases b <;> first | exact ⟨rfl, fun _ => rfl⟩ | simp [Ty.isNamed] at hb
  | .String, b, _, _, hb => by cases b <;> first | exact ⟨rfl, fun _ => rfl⟩ | simp [Ty.isNamed] at hb
  | .NamedType x d t, b, ha, hbw, hb => by
    simp only [noNestedNamed, Bool.and_eq_true, Bool.not_eq_true'] at ha
    have ih := (compareFrom_eq_cmp uc t b ha.2 hbw hb).2 ha.1
    refine ⟨?_, fun h => by simp [Ty.isNamed] at h⟩
    rw [compareFrom_named, ih]; rfl
  | .Array sa da, b, ha, hbw, hb => by
    obtain ⟨ha1, ha2⟩ := wf_array ha
    cases b with
    | Array sb db =>
      obtain ⟨hb1, hb2⟩ := wf_array hbw
      obtain ⟨u1, u2, -, -⟩ := unwrap_facts hb2
      have e : ∀ n : Nat, n ≤ 1 → compareFrom uc n (.Array sa da) (.Array sb db) =
          (if !da.isNil && db.isNil then some 1
          else if !db.isNil && da.isNil then some (-1)
          else if !db.isNil && !da.isNil then
            returnIfNonZero (compareFrom uc 1 da (unwrap db)) (typeSliceCompare uc sa sb)
          else typeSliceCompare uc sa sb) := by
        intro n hn; interval_cases n <;> rfl
      have e2 : cmp uc (.Array sa da) (.Array sb db) =
         lex (cmpInt (nonNil da) (nonNil db))
           (lex (if da.isNil then 0 else cmp uc da db) (cmpList uc sa sb)) := rfl
      have e3 := (compareFrom_eq_cmp uc da (unwrap db) ha2 u2 u1).1
      rw [cmp_unwrap_right uc da hb2] at e3
      have e4 := typeSliceCompare_eq_cmpList uc sa sb ha1 hb1
      have key : ∀ n : Nat, n ≤ 1 → compareFrom uc n (.Array sa da) (.Array sb db) =
          some (cmp uc (.Array sa da) (.Array sb db)) := by
        intro n hn
        rw [e n hn, e2, e3, e4, returnIfNonZero_some]
        cases hda : da.isNil <;> cases hdb : db.isNil <;> simp [lex, cmpInt, nonNil, hda, hdb]
      exact ⟨key 1 (le_refl _), fun _ => key 0 (by omega)⟩
    | NamedType _ _ _ => simp [Ty.isNamed] at hb
    | _ => exact ⟨rfl, fun _ => rfl⟩
  | .Object sa da, b, ha, hbw, hb => by
    obtain ⟨ha1, ha2⟩ := wf_object ha
    cases b with
    | Object sb db =>
      obtain ⟨hb1, hb2⟩ := wf_object hbw
      have e4 := staticCompare_eq_cmpStatic uc sa sb ha1 hb1
      cases da with
      | none =>
        cases db with
        | none => exact ⟨e4, fun _ => e4⟩
        | some pb => exact ⟨rfl, fun _ => rfl⟩
      | some pa =>
        cases db with
        | none => exact ⟨rfl, fun _ => rfl⟩
        | some pb =>
          obtain ⟨ka, va⟩ := pa
          obtain ⟨kb, vb⟩ := pb
          obtain ⟨hka, hva⟩ := wf_dynamic ha2
          obtain ⟨hkb, hvb⟩ := wf_dynamic hb2
          obtain ⟨k1, k2, -, -⟩ := unwrap_facts hkb
          obtain ⟨v1, v2, -, -⟩ := unwrap_facts hvb
          have e : ∀ n : Nat, n ≤ 1 →
              compareFrom uc n (.Object sa (some (ka, va))) (.Object sb (some (kb, vb))) =
              returnIfNonZero (compareFrom uc 1 ka (unwrap kb))
                (returnIfNonZero (compareFrom uc 1 va (unwrap vb)) (staticCompare uc sa sb)) := by
            intro n hn; interval_cases n <;> rfl
          have e2 : cmp uc (.Object sa (some (ka, va))) (.Object sb (some (kb, vb))) =
              lex (cmp uc ka kb) (lex (cmp uc va vb) (cmpStatic uc sa sb)) := rfl
          have e3 := (compareFrom_eq_cmp uc ka (unwrap kb) hka k2 k1).1
          rw [cmp_unwrap_right uc ka hkb] at e3
          have e5 := (compareFrom_eq_cmp uc va (unwrap vb) hva v2 v1).1
          rw [cmp_unwrap_right uc va hvb] at e5
          have key : ∀ n : Nat, n ≤ 1 →
              compareFrom uc n (.Object sa (some (ka, va))) (.Object sb (some (kb, vb))) =
              some (cmp uc (.Object sa (some (ka, va))) (.Object sb (some (kb, vb)))) := by
            intro n hn
            rw [e n hn, e2, e3, e4, e5, returnIfNonZero_some, returnIfNonZero_some]
          exact ⟨key 1 (le_refl _), fun _ => key 0 (by omega)⟩
    | NamedType _ _ _ => simp [Ty.isNamed] at hb
    | _ => exact ⟨rfl, fun _ => rfl⟩
  | .Set oa, b, ha, hbw, hb => by
    have ha1 : noNestedNamed oa = true := by simpa [noNestedNamed] using ha
    cases b with
    | Set ob =>
      have hb1 : noNestedNamed ob = true := by simpa [noNestedNamed] using hbw
      obtain ⟨u1, u2, -, -⟩ := unwrap_facts hb1
      have e : ∀ n : Nat, n ≤ 1 → compareFrom uc n (.Set oa) (.Set ob) =
          (if oa.isNil && ob.isNil then some 0
          else if oa.isNil then some (-1)
          else if ob.isNil then some 1
          else compareFrom uc 1 oa (unwrap ob)) := by
        intro n hn; interval_cases n <;> rfl
      have e2 : cmp uc (.Set oa) (.Set ob) =
          lex (cmpInt (nonNil oa) (nonNil ob)) (if oa.isNil then 0 else cmp uc oa ob) := rfl
      have e3 := (compareFrom_eq_cmp uc oa (unwrap ob) ha1 u2 u1).1
      rw [cmp_unwrap_right uc oa hb1] at e3
      have key : ∀ n : Nat, n ≤ 1 → compareFrom uc n (.Set oa) (.Set ob) =
          some (cmp uc (.Set oa) (.Set ob)) := by
        intro n hn
        rw [e n hn, e2, e3]
        cases hda : oa.isNil <;> cases hdb : ob.isNil <;> simp [lex, cmpInt, nonNil, hda, hdb]
      exact ⟨key 1 (le_refl _), fun _ => key 0 (by omega)⟩
    | NamedType _ _ _ => simp [Ty.isNamed] at hb
    | _ => exact ⟨rfl, fun _ => rfl⟩
  | .Any sa, b, ha, hbw, hb => by
    have ha1 : noNestedNamedList sa = true := by simpa [noNestedNamed] using ha
    cases b with
    | Any sb =>
      have hb1 : noNestedNamedList sb = true := by simpa [noNestedNamed] using hbw
      have e4 := typeSliceCompare_eq_cmpList uc sa sb ha1 hb1
      exact ⟨e4, fun _ => e4⟩
    | NamedType _ _ _ => simp [Ty.isNamed] at hb
    | _ => exact ⟨rfl, fun _ => rfl⟩
  | .Function aa ra va, b, ha, hbw, hb => by
    obtain ⟨ha1, ha2, ha3⟩ := wf_function ha
    cases b with
    | Function ab rb vb =>
      obtain ⟨hb1, hb2, hb3⟩ := wf_function hbw
      obtain ⟨r1, r2, -, -⟩ := unwrap_facts hb2
      obtain ⟨v1, v2, -, -⟩ := unwrap_facts hb3
      have e : ∀ n : Nat, n ≤ 1 → compareFrom uc n (.Function aa ra va) (.Function ab rb vb) =
          (if aa.length < ab.length then some (-1)
          else if aa.length > ab.length then some 1
          else
            returnIfNonZero (argsCompare uc aa ab)
              (returnIfNonZero (compareFrom uc 1 ra (unwrap rb))
                (compareFrom uc 1 va (unwrap vb)))) := by
        intro n hn; interval_cases n <;> rfl
      have e2 : cmp uc (.Function aa ra va) (.Function ab rb vb) =
          lex (cmpInt aa.length ab.length)
            (lex (cmpList uc aa ab) (lex (cmp uc ra rb) (cmp uc va vb))) := rfl
      have e3 := (compareFrom_eq_cmp uc ra (unwrap rb) ha2 r2 r1).1
      rw [cmp_unwrap_right uc ra hb2] at e3
      have e5 := (compareFrom_eq_cmp uc va (unwrap vb) ha3 v2 v1).1
      rw [cmp_unwrap_right uc va hb3] at e5
      have e4 := typeSliceCompare_eq_cmpList uc aa ab ha1 hb1
      have key : ∀ n : Nat, n ≤ 1 → compareFrom uc n (.Function aa ra va) (.Function ab rb vb) =
          some (cmp uc (.Function aa ra va) (.Function ab rb vb)) := by
        intro n hn
        rw [e n hn, e2, e3, e5]
        by_cases h1 : aa.length < ab.length
        · simp [h1, lex, cmpInt]; omega
        · by_cases h2 : aa.length > ab.length
          · simp [h1, h2, lex, cmpInt]
          · have h3 : aa.length = ab.length := by omega
            rw [argsCompare_eq uc aa ab h3, e4, returnIfNonZero_some, returnIfNonZero_some]
            simp [h3, lex, cmpInt]
      exact ⟨key 1 (le_refl _), fun _ => key 0 (by omega)⟩
    | NamedType _ _ _ => simp [Ty.isNamed] at hb
    | _ => exact ⟨rfl, fun _ => rfl⟩
theorem typeSliceCompare_eq_cmpList (uc : GoVal → GoVal → Int) :
    ∀ (as bs : List Ty), noNestedNamedList as = true → noNestedNamedList bs = true →
      typeSliceCompare uc as bs = some (cmpList uc as bs)
  | [], [], _, _ => rfl
  | [], _ :: _, _, _ => rfl
  | _ :: _, [], _, _ => rfl
  | a :: as, b :: bs, ha, hb => by
    obtain ⟨ha1, ha2⟩ := wf_cons ha
    obtain ⟨hb1, hb2⟩ := wf_cons hb
    obtain ⟨u1, u2, -, -⟩ := unwrap_facts hb1
    have e : typeSliceCompare uc (a :: as) (b :: bs) =
        returnIfNonZero (compareFrom uc 1 a (unwrap b)) (typeSliceCompare uc as bs) := rfl
    have e3 := (compareFrom_eq_cmp uc a (unwrap b) ha1 u2 u1).1
    rw [cmp_unwrap_right uc a hb1] at e3
    rw [e, e3, typeSliceCompare_eq_cmpList uc as bs ha2 hb2, returnIfNonZero_some]
    rfl
theorem staticCompare_eq_cmpStatic (uc : GoVal → GoVal → Int) :
    ∀ (as bs : List (GoVal × Ty)), noNestedNamedStatic as = true → noNestedNamedStatic bs = true →
      staticCompare uc as bs = some (cmpStatic uc as bs)
  | [], [], _, _ => rfl
  | [], _ :: _, _, _ => rfl
  | _ :: _, [], _, _ => rfl
  | (ka, va) :: as, (kb, vb) :: bs, ha, hb => by
    obtain ⟨ha1, ha2⟩ := wf_static_cons ha
    obtain ⟨hb1, hb2⟩ := wf_static_cons hb
    obtain ⟨u1, u2, -, -⟩ := unwrap_facts hb1
    have e : staticCompare uc ((ka, va) :: as) ((kb, vb) :: bs) =
        returnIfNonZero (some (uc ka kb))
          (returnIfNonZero (compareFrom uc 1 va (unwrap vb)) (staticCompare uc as bs)) := rfl
    have e3 := (compareFrom_eq_cmp uc va (unwrap vb) ha1 u2 u1).1
    rw [cmp_unwrap_right uc va hb1] at e3
    rw [e, e3, staticCompare_eq_cmpStatic uc as bs ha2 hb2, returnIfNonZero_some,
      returnIfNonZero_some]
    rfl
end

theorem Compare_eq_cmp (uc : GoVal → GoVal → Int) {a b : Ty} (ha : noNestedNamed a = true)
    (hb : noNestedNamed b = true) : Compare uc a b = some (cmp uc a b) := by
  obtain ⟨u1, u2, -, -⟩ := unwrap_facts hb
  rw [Compare_def, (compareFrom_eq_cmp uc a (unwrap b) ha u2 u1).1, cmp_unwrap_right uc a hb]


theorem isSign_zero : IsSign 0 := Or.inr (Or.inl rfl)
theorem isSign_one : IsSign 1 := Or.inr (Or.inr rfl)
theorem isSign_neg_one : IsSign (-1) := Or.inl rfl

theorem cmpInt_sign (x y : Int) : IsSign (cmpInt x y) := by
  unfold cmpInt IsSign; split_ifs <;> simp

theorem lex_sign {c r : Int} (hc : IsSign c) (hr : IsSign r) : IsSign (lex c r) := by
  unfold lex; split_ifs <;> assumption

mutual
theorem cmp_sign (uc : GoVal → GoVal → Int) (h : ∀ x y, IsSign (uc x y)) :
    ∀ (a b : Ty), IsSign (cmp uc a b)
  | .NamedType _ _ t, b => by rw [cmp]; exact cmp_sign uc h t b
  | .nil, b => by rw [cmp]; exact cmpInt_sign _ _
  | .Null, b => by rw [cmp]; exact cmpInt_sign _ _
  | .Boolean, b => by rw [cmp]; exact cmpInt_sign _ _
  | .Number, b => by rw [cmp]; exact cmpInt_sign _ _
  | .String, b => by rw [cmp]; exact cmpInt_sign _ _
  | .Array sa da, b => by
    rw [cmp]; refine lex_sign (cmpInt_sign _ _) ?_
    cases strip b <;> first
      | exact isSign_zero
      | (refine lex_sign (cmpInt_sign _ _) (lex_sign ?_ (cmpList_sign uc h sa _))
         split
         · exact isSign_zero
         · exact cmp_sign uc h da _)
  | .Object sa da, b => by
    rw [cmp]; refine lex_sign (cmpInt_sign _ _) ?_
    cases strip b with
    | Object sb db =>
      cases da with
      | none => cases db with
        | none => exact cmpStatic_sign uc h sa sb
        | some _ => exact isSign_neg_one
      | some pa => cases db with
        | none => exact isSign_one
        | some pb =>
          exact lex_sign (cmp_sign uc h pa.1 pb.1)
            (lex_sign (cmp_sign uc h pa.2 pb.2) (cmpStatic_sign uc h sa sb))
    | _ => exact isSign_zero
  | .Set oa, b => by
    rw [cmp]; refine lex_sign (cmpInt_sign _ _) ?_
    cases strip b <;> first
      | exact isSign_zero
      | (refine lex_sign (cmpInt_sign _ _) ?_
         split
         · exact isSign_zero
         · exact cmp_sign uc h oa _)
  | .Any sa, b => by
    rw [cmp]; refine lex_sign (cmpInt_sign _ _) ?_
    cases strip b <;> first
      | exact isSign_zero
      | exact cmpList_sign uc h sa _
  | .Function aa ra va, b => by
    rw [cmp]; refine lex_sign (cmpInt_sign _ _) ?_
    cases strip b <;> first
      | exact isSign_zero
      | exact lex_sign (cmpInt_sign _ _) (lex_sign (cmpList_sign uc h aa _)
          (lex_sign (cmp_sign uc h ra _) (cmp_sign uc h va _)))
theorem cmpList_sign (uc : GoVal → GoVal → Int) (h : ∀ x y, IsSign (uc x y)) :
    ∀ (as bs : List Ty), IsSign (cmpList uc as bs)
  | [], [] => isSign_zero
  | [], _ :: _ => isSign_neg_one
  | _ :: _, [] => isSign_one
  | a :: as, b :: bs => by
    rw [cmpList]; exact lex_sign (cmp_sign uc h a b) (cmpList_sign uc h as bs)
theorem cmpStatic_sign (uc : GoVal → GoVal → Int) (h : ∀ x y, IsSign (uc x y)) :
    ∀ (as bs : List (GoVal × Ty)), IsSign (cmpStatic uc as bs)
  | [], [] => isSign_zero
  | [], _ :: _ => isSign_neg_one
  | _ :: _, [] => isSign_one
  | (ka, va) :: as, (kb, vb) :: bs => by
    rw [cmpStatic]; exact lex_sign (h ka kb) (lex_sign (cmp_sign uc h va vb) (cmpStatic_sign uc h as bs))
end


theorem cmpInt_neg (x y : Int) : cmpInt y x = -cmpInt x y := by
  unfold cmpInt; split_ifs <;> omega

theorem lex_neg (c r : Int) : lex (-c) (-r) = -lex c r := by
  unfold lex; split_ifs <;> omega

theorem cmp_named_right (uc : GoVal → GoVal → Int) (a : Ty) (x d : String) (t : Ty) :
    cmp uc a (.NamedType x d t) = cmp uc a t := by
  rw [← cmp_strip_right uc a (.NamedType x d t), strip, cmp_strip_right]

theorem antisymm_of_aux (uc : GoVal → GoVal → Int) (a : Ty)
    (ih : ∀ b : Ty, b.isNamed = false → cmp uc b a = -cmp uc a b) (b : Ty) :
    cmp uc b a = -cmp uc a b := by
  rw [← cmp_strip_left uc b a, ← cmp_strip_right uc a b]
  exact ih _ (strip_notNamed b)

set_option maxHeartbeats 4000000 in
mutual
theorem cmp_antisymm_aux (uc : GoVal → GoVal → Int) (h : ∀ x y, uc y x = -uc x y) :
    ∀ (a b : Ty), b.isNamed = false → cmp uc b a = -cmp uc a b
  | .NamedType x d t, b, hb => by
    rw [cmp_named_right, cmp]; exact cmp_antisymm_aux uc h t b hb
  | .nil, b, hb => by cases b <;> first | rfl | simp [Ty.isNamed] at hb
  | .Null, b, hb => by cases b <;> first | rfl | simp [Ty.isNamed] at hb
  | .Boolean, b, hb => by cases b <;> first | rfl | simp [Ty.isNamed] at hb
  | .Number, b, hb => by cases b <;> first | rfl | simp [Ty.isNamed] at hb
  | .String, b, hb => by cases b <;> first | rfl | simp [Ty.isNamed] at hb
  | .Array sa da, b, hb => by
    cases b with
    | Array sb db =>
      have e1 : cmp uc (.Array sa da) (.Array sb db) =
         lex (cmpInt (nonNil da) (nonNil db))
           (lex (if da.isNil then 0 else cmp uc da db) (cmpList uc sa sb)) := rfl
      have e2 : cmp uc (.Array sb db) (.Array sa da) =
         lex (cmpInt (nonNil db) (nonNil da))
           (lex (if db.isNil then 0 else cmp uc db da) (cmpList uc sb sa)) := rfl
      rw [e1, e2, antisymm_of_aux uc da (cmp_antisymm_aux uc h da) db, cmpList_antisymm uc h sa sb]
      cases hda : da.isNil <;> cases hdb : db.isNil <;>
        simp only [lex, cmpInt, nonNil, hda, hdb] <;> split_ifs <;> omega
    | NamedType _ _ _ => simp [Ty.isNamed] at hb
    | _ => rfl
  | .Object sa da, b, hb => by
    cases b with
    | Object sb db =>
      have e4 := cmpStatic_antisymm uc h sa sb
      cases da with
      | none => cases db with
        | none => exact e4
        | some _ => rfl
      | some pa => cases db with
        | none => rfl
        | some pb =>
          obtain ⟨ka, va⟩ := pa
          obtain ⟨kb, vb⟩ := pb
          have e1 : cmp uc (.Object sa (some (ka, va))) (.Object sb (some (kb, vb))) =
              lex (cmp uc ka kb) (lex (cmp uc va vb) (cmpStatic uc sa sb)) := rfl
          have e2 : cmp uc (.Object sb (some (kb, vb))) (.Object sa (some (ka, va))) =
              lex (cmp uc kb ka) (lex (cmp uc vb va) (cmpStatic uc sb sa)) := rfl
          rw [e1, e2, e4, antisymm_of_aux uc ka (cmp_antisymm_aux uc h ka) kb, antisymm_of_aux uc va (cmp_antisymm_aux uc h va) vb, lex_neg, lex_neg]
    | NamedType _ _ _ => simp [Ty.isNamed] at hb
    | _ => rfl
  | .Set oa, b, hb => by
    cases b with
    | Set ob =>
      have e1 : cmp uc (.Set oa) (.Set ob) =
          lex (cmpInt (nonNil oa) (nonNil ob)) (if oa.isNil then 0 else cmp uc oa ob) := rfl
      have e2 : cmp uc (.Set ob) (.Set oa) =
          lex (cmpInt (nonNil ob) (nonNil oa)) (if ob.isNil then 0 else cmp uc ob oa) := rfl
      rw [e1, e2, antisymm_of_aux uc oa (cmp_antisymm_aux uc h oa) ob]
      cases hda : oa.isNil <;> cases hdb : ob.isNil <;>
        simp only [lex, cmpInt, nonNil, hda, hdb] <;> split_ifs <;> omega
    | NamedType _ _ _ => simp [Ty.isNamed] at hb
    | _ => rfl
  | .Any sa, b, hb => by
    cases b with
    | Any sb => exact cmpList_antisymm uc h sa sb
    | NamedType _ _ _ => simp [Ty.isNamed] at hb
    | _ => rfl
  | .Function aa ra va, b, hb => by
    cases b with
    | Function ab rb vb =>
      have e1 : cmp uc (.Function aa ra va) (.Function ab rb vb) =
          lex (cmpInt aa.length ab.length)
            (lex (cmpList uc aa ab) (lex (cmp uc ra rb) (cmp uc va vb))) := rfl
      have e2 : cmp uc (.Function ab rb vb) (.Function aa ra va) =
          lex (cmpInt ab.length aa.length)
            (lex (cmpList uc ab aa) (lex (cmp uc rb ra) (cmp uc vb va))) := rfl
      rw [e1, e2, cmpList_antisymm uc h aa ab, antisymm_of_aux uc ra (cmp_antisymm_aux uc h ra) rb, antisymm_of_aux uc va (cmp_antisymm_aux uc h va) vb,
        cmpInt_neg, lex_neg, lex_neg, lex_neg]
    | NamedType _ _ _ => simp [Ty.isNamed] at hb
    | _ => rfl
theorem cmpList_antisymm (uc : GoVal → GoVal → Int) (h : ∀ x y, uc y x = -uc x y) :
    ∀ (as bs : List Ty), cmpList uc bs as = -cmpList uc as bs
  | [], [] => rfl
  | [], _ :: _ => rfl
  | _ :: _, [] => rfl
  | a :: as, b :: bs => by
    rw [cmpList, cmpList, antisymm_of_aux uc a (cmp_antisymm_aux uc h a) b, cmpList_antisymm uc h as bs, lex_neg]
theorem cmpStatic_antisymm (uc : GoVal → GoVal → Int) (h : ∀ x y, uc y x = -uc x y) :
    ∀ (as bs : List (GoVal × Ty)), cmpStatic uc bs as = -cmpStatic uc as bs
  | [], [] => rfl
  | [], _ :: _ => rfl
  | _ :: _, [] => rfl
  | (ka, va) :: as, (kb, vb) :: bs => by
    rw [cmpStatic, cmpStatic, antisymm_of_aux uc va (cmp_antisymm_aux uc h va) vb, cmpStatic_antisymm uc h as bs, h ka kb,
      lex_neg, lex_neg]
end

theorem cmp_antisymm (uc : GoVal → GoVal → Int) (h : ∀ x y, uc y x = -uc x y) (a b : Ty) :
    cmp uc b a = -cmp uc a b :=
  antisymm_of_aux uc a (cmp_antisymm_aux uc h a) b


theorem consistent_zero : Consistent 0 0 0 := by
  unfold Consistent; omega

theorem cmpInt_consistent (p q r : Int) : Consistent (cmpInt p q) (cmpInt q r) (cmpInt p r) := by
  unfold Consistent cmpInt; split_ifs <;> omega

theorem cmpInt_eq_zero {x y : Int} (h : cmpInt x y = 0) : x = y := by
  unfold cmpInt at h; split_ifs at h <;> omega

theorem consistent_intro {x y z : Int} (h1 : x ≤ 0 → y ≤ 0 → z ≤ 0) (h2 : 0 ≤ x → 0 ≤ y → 0 ≤ z)
    (h3 : 0 ≤ x → z ≤ 0 → y ≤ 0) (h4 : x ≤ 0 → 0 ≤ z → 0 ≤ y) (h5 : z ≤ 0 → 0 ≤ y → x ≤ 0)
    (h6 : 0 ≤ z → y ≤ 0 → 0 ≤ x) : Consistent x y z :=
  ⟨h1, h2, h3, h4, h5, h6⟩

theorem lex_consistent {x1 y1 z1 x2 y2 z2 : Int} (sx : IsSign x1) (sy : IsSign y1)
    (sz : IsSign z1) (h1 : Consistent x1 y1 z1)
    (h2 : x1 = 0 → y1 = 0 → z1 = 0 → Consistent x2 y2 z2) :
    Consistent (lex x1 x2) (lex y1 y2) (lex z1 z2) := by
  rcases sx with rfl | rfl | rfl <;> rcases sy with rfl | rfl | rfl <;>
    rcases sz with rfl | rfl | rfl <;>
    first
    | (exfalso; revert h1; unfold Consistent; decide)
    | (have h := h2 rfl rfl rfl; simpa [lex] using h)
    | (simp only [lex]; apply consistent_intro <;> intros <;> simp at *)

theorem lex_idem (c s : Int) : lex c (lex c s) = lex c s := by
  unfold lex; split_ifs <;> rfl

theorem lex_self (c : Int) : lex c c = c := by
  unfold lex; split_ifs <;> simp_all

theorem cmp_rank (uc : GoVal → GoVal → Int) :
    ∀ (a b : Ty), cmp uc a b = lex (cmpInt (rank a) (rank b)) (cmp uc a b)
  | .NamedType _ _ t, b => by rw [cmp, rank]; exact cmp_rank uc t b
  | .nil, b => by rw [cmp, rank, lex_self]
  | .Null, b => by rw [cmp, rank, lex_self]
  | .Boolean, b => by rw [cmp, rank, lex_self]
  | .Number, b => by rw [cmp, rank, lex_self]
  | .String, b => by rw [cmp, rank, lex_self]
  | .Array _ _, b => by rw [cmp, rank, lex_idem]
  | .Object _ _, b => by rw [cmp, rank, lex_idem]
  | .Set _, b => by rw [cmp, rank, lex_idem]
  | .Any _, b => by rw [cmp, rank, lex_idem]
  | .Function _ _ _, b => by rw [cmp, rank, lex_idem]

theorem nonNil_eq {a b : Ty} (h : nonNil a = nonNil b) : a.isNil = b.isNil := by
  unfold nonNil at h
  cases ha : a.isNil <;> cases hb : b.isNil <;> simp [ha, hb] at h ⊢

theorem consistent_of_aux (uc : GoVal → GoVal → Int) (a : Ty)
    (ih : ∀ b c : Ty, b.isNamed = false → c.isNamed = false →
      Consistent (cmp uc a b) (cmp uc b c) (cmp uc a c)) (b c : Ty) :
    Consistent (cmp uc a b) (cmp uc b c) (cmp uc a c) := by
  have := ih (strip b) (strip c) (strip_notNamed b) (strip_notNamed c)
  rwa [cmp_strip_right, cmp_strip_right, cmp_strip_left, cmp_strip_right] at this

theorem KeyOrder.consistent {uc : GoVal → GoVal → Int} (h : KeyOrder uc) (x y z : GoVal) :
    Consistent (uc x y) (uc y z) (uc x z) := by
  have a1 := h.antisymm x y
  have a2 := h.antisymm y z
  have a3 := h.antisymm x z
  refine ⟨h.trans x y z, ?_, ?_, ?_, ?_, ?_⟩
  · intro p q; have := h.trans z y x (by omega) (by omega); omega
  · intro p q; have := h.trans y x z (by omega) q; exact this
  · intro p q; have := h.trans z x y (by omega) p; omega
  · intro p q; have := h.trans x z y p (by omega); exact this
  · intro p q; have := h.trans y z x q (by omega); omega

theorem rank_cases {P : Ty → Prop} {r : Int} (b : Ty) (hb : b.isNamed = false) (hr : rank b = r)
    (h : ∀ b', b'.isNamed = false → rank b' = r → strip b' = b' → P b') : P b :=
  h b hb hr (strip_of_notNamed hb)


theorem cmp_array (uc : GoVal → GoVal → Int) (sa da sb db) :
    cmp uc (.Array sa da) (.Array sb db) =
      lex (cmpInt (nonNil da) (nonNil db))
        (lex (if da.isNil then 0 else cmp uc da db) (cmpList uc sa sb)) := rfl

theorem cmp_set (uc : GoVal → GoVal → Int) (oa ob) :
    cmp uc (.Set oa) (.Set ob) =
      lex (cmpInt (nonNil oa) (nonNil ob)) (if oa.isNil then 0 else cmp uc oa ob) := rfl

theorem cmp_any (uc : GoVal → GoVal → Int) (sa sb) :
    cmp uc (.Any sa) (.Any sb) = cmpList uc sa sb := rfl

theorem cmp_function (uc : GoVal → GoVal → Int) (aa ra va ab rb vb) :
    cmp uc (.Function aa ra va) (.Function ab rb vb) =
      lex (cmpInt aa.length ab.length)
        (lex (cmpList uc aa ab) (lex (cmp uc ra rb) (cmp uc va vb))) := rfl

theorem cmp_object_some (uc : GoVal → GoVal → Int) (sa ka va sb kb vb) :
    cmp uc (.Object sa (some (ka, va))) (.Object sb (some (kb, vb))) =
      lex (cmp uc ka kb) (lex (cmp uc va vb) (cmpStatic uc sa sb)) := rfl

theorem cmp_object_none (uc : GoVal → GoVal → Int) (sa sb) :
    cmp uc (.Object sa none) (.Object sb none) = cmpStatic uc sa sb := rfl

theorem cmp_object_some_none (uc : GoVal → GoVal → Int) (sa p sb) :
    cmp uc (.Object sa (some p)) (.Object sb none) = 1 := rfl

theorem cmp_object_none_some (uc : GoVal → GoVal → Int) (sa p sb) :
    cmp uc (.Object sa none) (.Object sb (some p)) = -1 := rfl

theorem cmpList_nil_cons (uc : GoVal → GoVal → Int) (b : Ty) (bs : List Ty) :
    cmpList uc [] (b :: bs) = -1 := rfl

theorem cmpList_cons_nil (uc : GoVal → GoVal → Int) (a : Ty) (as : List Ty) :
    cmpList uc (a :: as) [] = 1 := rfl

theorem cmpList_nil_nil (uc : GoVal → GoVal → Int) : cmpList uc [] [] = 0 := rfl

theorem cmpList_cons_cons (uc : GoVal → GoVal → Int) (a b : Ty) (as bs : List Ty) :
    cmpList uc (a :: as) (b :: bs) = lex (cmp uc a b) (cmpList uc as bs) := rfl

theorem cmpStatic_nil_cons (uc : GoVal → GoVal → Int) (b : GoVal × Ty) (bs : List (GoVal × Ty)) :
    cmpStatic uc [] (b :: bs) = -1 := rfl

theorem cmpStatic_cons_nil (uc : GoVal → GoVal → Int) (a : GoVal × Ty) (as : List (GoVal × Ty)) :
    cmpStatic uc (a :: as) [] = 1 := rfl

theorem cmpStatic_nil_nil (uc : GoVal → GoVal → Int) : cmpStatic uc [] [] = 0 := rfl

theorem cmpStatic_cons_cons (uc : GoVal → GoVal → Int) (ka kb : GoVal) (va vb : Ty)
    (as bs : List (GoVal × Ty)) :
    cmpStatic uc ((ka, va) :: as) ((kb, vb) :: bs) =
      lex (uc ka kb) (lex (cmp uc va vb) (cmpStatic uc as bs)) := rfl

theorem ite_sign {p : Prop} [Decidable p] {c : Int} (h : IsSign c) :
    IsSign (if p then 0 else c) := by
  split
  · exact isSign_zero
  · exact h

set_option maxHeartbeats 4000000 in
mutual
theorem cmp_consistent_aux (uc : GoVal → GoVal → Int) (ko : KeyOrder uc) :
    ∀ (a b c : Ty), b.isNamed = false → c.isNamed = false →
      Consistent (cmp uc a b) (cmp uc b c) (cmp uc a c)
  | .NamedType x d t, b, c, hb, hc => by
    rw [cmp, cmp]; exact cmp_consistent_aux uc ko t b c hb hc
  | .nil, b, c, hb, hc => by
    rw [cmp_rank uc .nil b, cmp_rank uc b c, cmp_rank uc .nil c]
    refine lex_consistent (cmpInt_sign _ _) (cmpInt_sign _ _) (cmpInt_sign _ _)
      (cmpInt_consistent _ _ _) (fun h1 h2 _ => ?_)
    have r1 := cmpInt_eq_zero h1
    have r2 := cmpInt_eq_zero h2
    cases b <;> first
      | (simp [rank] at r1; done)
      | (simp [Ty.isNamed] at hb; done)
      | (cases c <;> first
          | (simp [rank] at r2; done)
          | (simp [Ty.isNamed] at hc; done)
          | exact consistent_zero)
  | .Null, b, c, hb, hc => by
    rw [cmp_rank uc .Null b, cmp_rank uc b c, cmp_rank uc .Null c]
    refine lex_consistent (cmpInt_sign _ _) (cmpInt_sign _ _) (cmpInt_sign _ _)
      (cmpInt_consistent _ _ _) (fun h1 h2 _ => ?_)
    have r1 := cmpInt_eq_zero h1
    have r2 := cmpInt_eq_zero h2
    cases b <;> first
      | (simp [rank] at r1; done)
      | (simp [Ty.isNamed] at hb; done)
      | (cases c <;> first
          | (simp [rank] at r2; done)
          | (simp [Ty.isNamed] at hc; done)
          | exact consistent_zero)
  | .Boolean, b, c, hb, hc => by
    rw [cmp_rank uc .Boolean b, cmp_rank uc b c, cmp_rank uc .Boolean c]
    refine lex_consistent (cmpInt_sign _ _) (cmpInt_sign _ _) (cmpInt_sign _ _)
      (cmpInt_consistent _ _ _) (fun h1 h2 _ => ?_)
    have r1 := cmpInt_eq_zero h1
    have r2 := cmpInt_eq_zero h2
    cases b <;> first
      | (simp [rank] at r1; done)
      | (simp [Ty.isNamed] at hb; done)
      | (cases c <;> first
          | (simp [rank] at r2; done)
          | (simp [Ty.isNamed] at hc; done)
          | exact consistent_zero)
  | .Number, b, c, hb, hc => by
    rw [cmp_rank uc .Number b, cmp_rank uc b c, cmp_rank uc .Number c]
    refine lex_consistent (cmpInt_sign _ _) (cmpInt_sign _ _) (cmpInt_sign _ _)
      (cmpInt_consistent _ _ _) (fun h1 h2 _ => ?_)
    have r1 := cmpInt_eq_zero h1
    have r2 := cmpInt_eq_zero h2
    cases b <;> first
      | (simp [rank] at r1; done)
      | (simp [Ty.isNamed] at hb; done)
      | (cases c <;> first
          | (simp [rank] at r2; done)
          | (simp [Ty.isNamed] at hc; done)
          | exact consistent_zero)
  | .String, b, c, hb, hc => by
    rw [cmp_rank uc .String b, cmp_rank uc b c, cmp_rank uc .String c]
    refine lex_consistent (cmpInt_sign _ _) (cmpInt_sign _ _) (cmpInt_sign _ _)
      (cmpInt_consistent _ _ _) (fun h1 h2 _ => ?_)
    have r1 := cmpInt_eq_zero h1
    have r2 := cmpInt_eq_zero h2
    cases b <;> first
      | (simp [rank] at r1; done)
      | (simp [Ty.isNamed] at hb; done)
      | (cases c <;> first
          | (simp [rank] at r2; done)
          | (simp [Ty.isNamed] at hc; done)
          | exact consistent_zero)
  | .Array sa da, b, c, hb, hc => by
    rw [cmp_rank uc (.Array sa da) b, cmp_rank uc b c, cmp_rank uc (.Array sa da) c]
    refine lex_consistent (cmpInt_sign _ _) (cmpInt_sign _ _) (cmpInt_sign _ _)
      (cmpInt_consistent _ _ _) (fun h1 h2 _ => ?_)
    have r1 := cmpInt_eq_zero h1
    have r2 := cmpInt_eq_zero h2
    obtain ⟨sb, db, rfl⟩ : ∃ sb db, b = .Array sb db := by
      cases b <;> first
        | (simp [rank] at r1; done)
        | (simp [Ty.isNamed] at hb; done)
        | exact ⟨_, _, rfl⟩
    obtain ⟨sc, dc, rfl⟩ : ∃ sc dc, c = .Array sc dc := by
      cases c <;> first
        | (simp [rank] at r2; done)
        | (simp [Ty.isNamed] at hc; done)
        | exact ⟨_, _, rfl⟩
    rw [cmp_array, cmp_array, cmp_array]
    refine lex_consistent (cmpInt_sign _ _) (cmpInt_sign _ _) (cmpInt_sign _ _)
      (cmpInt_consistent _ _ _) (fun f1 f2 _ => ?_)
    have g1 := nonNil_eq (cmpInt_eq_zero f1)
    have g2 := nonNil_eq (cmpInt_eq_zero f2)
    refine lex_consistent (ite_sign (cmp_sign uc ko.sign _ _)) (ite_sign (cmp_sign uc ko.sign _ _))
      (ite_sign (cmp_sign uc ko.sign _ _)) ?_
      (fun _ _ _ => cmpList_consistent uc ko sa sb sc)
    rw [← g1]
    by_cases hn : da.isNil = true
    · simp only [if_pos hn]; exact consistent_zero
    · simp only [if_neg hn]
      exact consistent_of_aux uc da (cmp_consistent_aux uc ko da) db dc
  | .Object sa da, b, c, hb, hc => by
    rw [cmp_rank uc (.Object sa da) b, cmp_rank uc b c, cmp_rank uc (.Object sa da) c]
    refine lex_consistent (cmpInt_sign _ _) (cmpInt_sign _ _) (cmpInt_sign _ _)
      (cmpInt_consistent _ _ _) (fun h1 h2 _ => ?_)
    have r1 := cmpInt_eq_zero h1
    have r2 := cmpInt_eq_zero h2
    obtain ⟨sb, db, rfl⟩ : ∃ sb db, b = .Object sb db := by
      cases b <;> first
        | (simp [rank] at r1; done)
        | (simp [Ty.isNamed] at hb; done)
        | exact ⟨_, _, rfl⟩
    obtain ⟨sc, dc, rfl⟩ : ∃ sc dc, c = .Object sc dc := by
      cases c <;> first
        | (simp [rank] at r2; done)
        | (simp [Ty.isNamed] at hc; done)
        | exact ⟨_, _, rfl⟩
    have hs := cmpStatic_consistent uc ko sa sb sc
    cases da with
    | none =>
      cases db with
      | none =>
        cases dc with
        | none => exact hs
        | some pc =>
          rw [cmp_object_none_some, cmp_object_none_some]
          apply consistent_intro <;> intros <;> omega
      | some pb =>
        cases dc with
        | none =>
          rw [cmp_object_none_some, cmp_object_some_none]
          apply consistent_intro <;> intros <;> omega
        | some pc =>
          rw [cmp_object_none_some, cmp_object_none_some]
          apply consistent_intro <;> intros <;> omega
    | some pa =>
      cases db with
      | none =>
        cases dc with
        | none =>
          rw [cmp_object_some_none, cmp_object_some_none]
          apply consistent_intro <;> intros <;> omega
        | some pc =>
          rw [cmp_object_some_none, cmp_object_none_some]
          apply consistent_intro <;> intros <;> omega
      | some pb =>
        cases dc with
        | none =>
          rw [cmp_object_some_none, cmp_object_some_none]
          apply consistent_intro <;> intros <;> omega
        | some pc =>
          obtain ⟨ka, va⟩ := pa
          obtain ⟨kb, vb⟩ := pb
          obtain ⟨kc, vc⟩ := pc
          rw [cmp_object_some, cmp_object_some, cmp_object_some]
          refine lex_consistent (cmp_sign uc ko.sign _ _) (cmp_sign uc ko.sign _ _)
            (cmp_sign uc ko.sign _ _)
            (consistent_of_aux uc ka (cmp_consistent_aux uc ko ka) kb kc) (fun _ _ _ => ?_)
          exact lex_consistent (cmp_sign uc ko.sign _ _) (cmp_sign uc ko.sign _ _)
            (cmp_sign uc ko.sign _ _)
            (consistent_of_aux uc va (cmp_consistent_aux uc ko va) vb vc) (fun _ _ _ => hs)
  | .Set oa, b, c, hb, hc => by
    rw [cmp_rank uc (.Set oa) b, cmp_rank uc b c, cmp_rank uc (.Set oa) c]
    refine lex_consistent (cmpInt_sign _ _) (cmpInt_sign _ _) (cmpInt_sign _ _)
      (cmpInt_consistent _ _ _) (fun h1 h2 _ => ?_)
    have r1 := cmpInt_eq_zero h1
    have r2 := cmpInt_eq_zero h2
    obtain ⟨ob, rfl⟩ : ∃ ob, b = .Set ob := by
      cases b <;> first
        | (simp [rank] at r1; done)
        | (simp [Ty.isNamed] at hb; done)
        | exact ⟨_, rfl⟩
    obtain ⟨oc, rfl⟩ : ∃ oc, c = .Set oc := by
      cases c <;> first
        | (simp [rank] at r2; done)
        | (simp [Ty.isNamed] at hc; done)
        | exact ⟨_, rfl⟩
    rw [cmp_set, cmp_set, cmp_set]
    refine lex_consistent (cmpInt_sign _ _) (cmpInt_sign _ _) (cmpInt_sign _ _)
      (cmpInt_consistent _ _ _) (fun f1 f2 _ => ?_)
    have g1 := nonNil_eq (cmpInt_eq_zero f1)
    have g2 := nonNil_eq (cmpInt_eq_zero f2)
    rw [← g1]
    by_cases hn : oa.isNil = true
    · simp only [if_pos hn]; exact consistent_zero
    · simp only [if_neg hn]
      exact consistent_of_aux uc oa (cmp_consistent_aux uc ko oa) ob oc
  | .Any sa, b, c, hb, hc => by
    rw [cmp_rank uc (.Any sa) b, cmp_rank uc b c, cmp_rank uc (.Any sa) c]
    refine lex_consistent (cmpInt_sign _ _) (cmpInt_sign _ _) (cmpInt_sign _ _)
      (cmpInt_consistent _ _ _) (fun h1 h2 _ => ?_)
    have r1 := cmpInt_eq_zero h1
    have r2 := cmpInt_eq_zero h2
    obtain ⟨sb, rfl⟩ : ∃ sb, b = .Any sb := by
      cases b <;> first
        | (simp [rank] at r1; done)
        | (simp [Ty.isNamed] at hb; done)
        | exact ⟨_, rfl⟩
    obtain ⟨sc, rfl⟩ : ∃ sc, c = .Any sc := by
      cases c <;> first
        | (simp [rank] at r2; done)
        | (simp [Ty.isNamed] at hc; done)
        | exact ⟨_, rfl⟩
    exact cmpList_consistent uc ko sa sb sc
  | .Function aa ra va, b, c, hb, hc => by
    rw [cmp_rank uc (.Function aa ra va) b, cmp_rank uc b c, cmp_rank uc (.Function aa ra va) c]
    refine lex_consistent (cmpInt_sign _ _) (cmpInt_sign _ _) (cmpInt_sign _ _)
      (cmpInt_consistent _ _ _) (fun h1 h2 _ => ?_)
    have r1 := cmpInt_eq_zero h1
    have r2 := cmpInt_eq_zero h2
    obtain ⟨ab, rb, vb, rfl⟩ : ∃ ab rb vb, b = .Function ab rb vb := by
      cases b <;> first
        | (simp [rank] at r1; done)
        | (simp [Ty.isNamed] at hb; done)
        | exact ⟨_, _, _, rfl⟩
    obtain ⟨ac, rc, vc, rfl⟩ : ∃ ac rc vc, c = .Function ac rc vc := by
      cases c <;> first
        | (simp [rank] at r2; done)
        | (simp [Ty.isNamed] at hc; done)
        | exact ⟨_, _, _, rfl⟩
    rw [cmp_function, cmp_function, cmp_function]
    refine lex_consistent (cmpInt_sign _ _) (cmpInt_sign _ _) (cmpInt_sign _ _)
      (cmpInt_consistent _ _ _) (fun _ _ _ => ?_)
    refine lex_consistent (cmpList_sign uc ko.sign _ _) (cmpList_sign uc ko.sign _ _)
      (cmpList_sign uc ko.sign _ _) (cmpList_consistent uc ko aa ab ac) (fun _ _ _ => ?_)
    exact lex_consistent (cmp_sign uc ko.sign _ _) (cmp_sign uc ko.sign _ _)
      (cmp_sign uc ko.sign _ _)
      (consistent_of_aux uc ra (cmp_consistent_aux uc ko ra) rb rc)
      (fun _ _ _ => consistent_of_aux uc va (cmp_consistent_aux uc ko va) vb vc)
theorem cmpList_consistent (uc : GoVal → GoVal → Int) (ko : KeyOrder uc) :
    ∀ (as bs cs : List Ty),
      Consistent (cmpList uc as bs) (cmpList uc bs cs) (cmpList uc as cs)
  | [], [], [] => consistent_zero
  | [], [], _ :: _ => by
    simp only [cmpList_nil_cons, cmpList_cons_nil, cmpList_nil_nil]; apply consistent_intro <;> intros <;> omega
  | [], _ :: _, [] => by
    simp only [cmpList_nil_cons, cmpList_cons_nil, cmpList_nil_nil]; apply consistent_intro <;> intros <;> omega
  | [], _ :: _, _ :: _ => by
    simp only [cmpList_nil_cons, cmpList_cons_nil, cmpList_nil_nil]; apply consistent_intro <;> intros <;> omega
  | _ :: _, [], [] => by
    simp only [cmpList_nil_cons, cmpList_cons_nil, cmpList_nil_nil]; apply consistent_intro <;> intros <;> omega
  | _ :: _, [], _ :: _ => by
    simp only [cmpList_nil_cons, cmpList_cons_nil, cmpList_nil_nil]; apply consistent_intro <;> intros <;> omega
  | _ :: _, _ :: _, [] => by
    simp only [cmpList_nil_cons, cmpList_cons_nil, cmpList_nil_nil]; apply consistent_intro <;> intros <;> omega
  | a :: as, b :: bs, c :: cs => by
    rw [cmpList_cons_cons, cmpList_cons_cons, cmpList_cons_cons]
    exact lex_consistent (cmp_sign uc ko.sign _ _) (cmp_sign uc ko.sign _ _)
      (cmp_sign uc ko.sign _ _)
      (consistent_of_aux uc a (cmp_consistent_aux uc ko a) b c)
      (fun _ _ _ => cmpList_consistent uc ko as bs cs)
theorem cmpStatic_consistent (uc : GoVal → GoVal → Int) (ko : KeyOrder uc) :
    ∀ (as bs cs : List (GoVal × Ty)),
      Consistent (cmpStatic uc as bs) (cmpStatic uc bs cs) (cmpStatic uc as cs)
  | [], [], [] => consistent_zero
  | [], [], _ :: _ => by
    simp only [cmpStatic_nil_cons, cmpStatic_cons_nil, cmpStatic_nil_nil]; apply consistent_intro <;> intros <;> omega
  | [], _ :: _, [] => by
    simp only [cmpStatic_nil_cons, cmpStatic_cons_nil, cmpStatic_nil_nil]; apply consistent_intro <;> intros <;> omega
  | [], _ :: _, _ :: _ => by
    simp only [cmpStatic_nil_cons, cmpStatic_cons_nil, cmpStatic_nil_nil]; apply consistent_intro <;> intros <;> omega
  | _ :: _, [], [] => by
    simp only [cmpStatic_nil_cons, cmpStatic_cons_nil, cmpStatic_nil_nil]; apply consistent_intro <;> intros <;> omega
  | _ :: _, [], _ :: _ => by
    simp only [cmpStatic_nil_cons, cmpStatic_cons_nil, cmpStatic_nil_nil]; apply consistent_intro <;> intros <;> omega
  | _ :: _, _ :: _, [] => by
    simp only [cmpStatic_nil_cons, cmpStatic_cons_nil, cmpStatic_nil_nil]; apply consistent_intro <;> intros <;> omega
  | (ka, va) :: as, (kb, vb) :: bs, (kc, vc) :: cs => by
    rw [cmpStatic_cons_cons, cmpStatic_cons_cons, cmpStatic_cons_cons]
    refine lex_consistent (ko.sign _ _) (ko.sign _ _) (ko.sign _ _) (ko.consistent ka kb kc)
      (fun _ _ _ => ?_)
    exact lex_consistent (cmp_sign uc ko.sign _ _) (cmp_sign uc ko.sign _ _)
      (cmp_sign uc ko.sign _ _)
      (consistent_of_aux uc va (cmp_consistent_aux uc ko va) vb vc)
      (fun _ _ _ => cmpStatic_consistent uc ko as bs cs)
end

theorem cmp_consistent (uc : GoVal → GoVal → Int) (ko : KeyOrder uc) (a b c : Ty) :
    Consistent (cmp uc a b) (cmp uc b c) (cmp uc a c) :=
  consistent_of_aux uc a (cmp_consistent_aux uc ko a) b c


theorem searchLoop_split {α : Type} (c : α → Int) (l1 l2 : List α)
    (h1 : ∀ a ∈ l1, c a < 0) (h2 : ∀ a ∈ l2, 0 ≤ c a) :
    ∀ (fuel i j : Nat), i ≤ l1.length → l1.length ≤ j → j ≤ (l1 ++ l2).length → j - i ≤ fuel →
      searchLoop (atLeast c (l1 ++ l2)) fuel i j = some l1.length := by
  intro fuel
  induction fuel with
  | zero =>
    intro i j hi hj _ hf
    have : i = l1.length := by omega
    simp [searchLoop, this]
  | succ fuel ih =>
    intro i j hi hj hn hf
    rw [searchLoop]
    by_cases hij : i < j
    · rw [if_pos hij]
      have hh : (i + j) / 2 < (l1 ++ l2).length := by omega
      by_cases hl : (i + j) / 2 < l1.length
      · have e : atLeast c (l1 ++ l2) ((i + j) / 2) = some false := by
          simp only [atLeast, List.getElem?_append_left hl, List.getElem?_eq_getElem hl]
          have := h1 _ (List.getElem_mem hl)
          simp; omega
        simp only [e]
        exact ih _ _ (by omega) hj hn (by omega)
      · have hl2 : (i + j) / 2 - l1.length < l2.length := by
          simp only [List.length_append] at hh; omega
        have e : atLeast c (l1 ++ l2) ((i + j) / 2) = some true := by
          simp only [atLeast, List.getElem?_append_right (Nat.le_of_not_lt hl),
            List.getElem?_eq_getElem hl2]
          have := h2 _ (List.getElem_mem hl2)
          simp; omega
        simp only [e]
        exact ih _ _ hi (by omega) (by omega) (by omega)
    · rw [if_neg hij]
      have : i = l1.length := by omega
      rw [this]

theorem search_split {α : Type} (c : α → Int) (l1 l2 : List α)
    (h1 : ∀ a ∈ l1, c a < 0) (h2 : ∀ a ∈ l2, 0 ≤ c a) :
    Search (l1 ++ l2).length (atLeast c (l1 ++ l2)) = some l1.length :=
  searchLoop_split c l1 l2 h1 h2 _ 0 _ (Nat.zero_le _) (by simp) (le_refl _) (by omega)

theorem monotone_split {α : Type} (c : α → Int) :
    ∀ (l : List α), MonotoneFrom c l →
      ∃ l1 l2, l = l1 ++ l2 ∧ (∀ a ∈ l1, c a < 0) ∧ (∀ a ∈ l2, 0 ≤ c a)
  | [], _ => ⟨[], [], rfl, by simp, by simp⟩
  | x :: xs, h => by
    rw [MonotoneFrom, List.pairwise_cons] at h
    by_cases hx : c x < 0
    · obtain ⟨l1, l2, e, p1, p2⟩ := monotone_split c xs h.2
      refine ⟨x :: l1, l2, by simp [e], ?_, p2⟩
      intro a ha
      rcases List.mem_cons.1 ha with rfl | ha
      · exact hx
      · exact p1 a ha
    · refine ⟨[], x :: xs, rfl, by simp, ?_⟩
      intro a ha
      rcases List.mem_cons.1 ha with rfl | ha
      · omega
      · exact h.1 a ha (by omega)


theorem noNestedNamedList_iff : ∀ (t : List Ty),
    noNestedNamedList t = true ↔ ∀ x ∈ t, noNestedNamed x = true
  | [] => by simp [noNestedNamedList]
  | x :: xs => by
    simp [noNestedNamedList, noNestedNamedList_iff xs]

theorem compareAtLeast_eq (uc : GoVal → GoVal → Int) {t : List Ty} {other : Ty}
    (ht : ∀ x ∈ t, noNestedNamed x = true) (ho : noNestedNamed other = true) :
    compareAtLeast uc t other = atLeast (fun x => cmp uc x other) t := by
  funext i
  unfold compareAtLeast atLeast
  cases h : t[i]? with
  | none => rfl
  | some x =>
    have hx : x ∈ t := List.getElem?_mem h
    simp [Compare_eq_cmp uc (ht x hx) ho]

theorem cmp_self (uc : GoVal → GoVal → Int) (ko : KeyOrder uc) (a : Ty) : cmp uc a a = 0 := by
  have := cmp_antisymm uc ko.antisymm a a
  omega

/-- The method `Any.Contains` finds an element that compares equal to `other` when every
element before it is less and every element after it is not less. -/
theorem anyContains_of_split (uc : GoVal → GoVal → Int) (l1 l2 : List Ty) (y other : Ty)
    (hw : ∀ x ∈ l1 ++ y :: l2, noNestedNamed x = true) (ho : noNestedNamed other = true)
    (hf : other.isFunction = false)
    (h1 : ∀ a ∈ l1, cmp uc a other < 0) (hy : cmp uc y other = 0)
    (h2 : ∀ a ∈ l2, 0 ≤ cmp uc a other) :
    Any.Contains uc (l1 ++ y :: l2) other = some true := by
  have hs := search_split (fun x => cmp uc x other) l1 (y :: l2) h1 (by
    intro a ha
    rcases List.mem_cons.1 ha with rfl | ha
    · show 0 ≤ cmp uc a other
      omega
    · exact h2 a ha)
  unfold Any.Contains
  rw [if_neg (by simp [hf]), compareAtLeast_eq uc hw ho, hs]
  have hlt : l1.length < (l1 ++ y :: l2).length := by simp
  have hget : (l1 ++ y :: l2)[l1.length]? = some y := by
    rw [List.getElem?_append_right (le_refl _)]; simp
  simp only [hlt, if_true, hget, Compare_eq_cmp uc (hw y (by simp)) ho, hy]


set_option maxHeartbeats 4000000 in
theorem orFrom_eq_orBody (uc : GoVal → GoVal → Int) (a b : Ty) (n : Nat) (hn : n ≤ 1)
    (hna : a.isNamed = false) (ha : a.isNil = false) (hfa : a.isFunction = false)
    (hb : b.isNil = false) (hfb : b.isFunction = false) :
    orFrom uc n a b = orBody uc a b := by
  interval_cases n <;> cases a <;>
    first
    | (simp [Ty.isNamed] at hna; done)
    | (simp [Ty.isNil] at ha; done)
    | (simp [Ty.isFunction] at hfa; done)
    | (cases b <;> first
        | (simp [Ty.isNil] at hb; done)
        | (simp [Ty.isFunction] at hfb; done)
        | rfl)

theorem orFrom_named (uc : GoVal → GoVal → Int) (x d : String) (t b : Ty) :
    orFrom uc 1 (.NamedType x d t) b = orFrom uc 0 t b := rfl

theorem Or_eq_orBody (uc : GoVal → GoVal → Int) (a b : Ty)
    (hna : (unwrap a).isNamed = false) (ha : (unwrap a).isNil = false)
    (hfa : (unwrap a).isFunction = false)
    (hb : (unwrap b).isNil = false) (hfb : (unwrap b).isFunction = false) :
    Or uc a b = orBody uc (unwrap a) (unwrap b) := by
  unfold Or
  cases a with
  | NamedType x d t =>
    rw [orFrom_named]
    exact orFrom_eq_orBody uc t _ 0 (by omega) hna ha hfa hb hfb
  | _ => exact orFrom_eq_orBody uc _ _ 1 (le_refl _) hna ha hfa hb hfb


theorem cmp_lt_of_lt_of_le (uc : GoVal → GoVal → Int) (ko : KeyOrder uc) {a b c : Ty}
    (h1 : cmp uc a b < 0) (h2 : cmp uc b c ≤ 0) : cmp uc a c < 0 := by
  obtain ⟨c1, -, -, -, -, c6⟩ := cmp_consistent uc ko a b c
  have := c1 (by omega) h2
  by_contra hn
  have := c6 (by omega) h2
  omega

theorem cmp_lt_of_le_of_lt (uc : GoVal → GoVal → Int) (ko : KeyOrder uc) {a b c : Ty}
    (h1 : cmp uc a b ≤ 0) (h2 : cmp uc b c < 0) : cmp uc a c < 0 := by
  obtain ⟨c1, -, -, c4, -, -⟩ := cmp_consistent uc ko a b c
  have := c1 h1 (by omega)
  by_contra hn
  have := c4 h1 (by omega)
  omega

theorem cmp_eq_trans (uc : GoVal → GoVal → Int) (ko : KeyOrder uc) {a b c : Ty}
    (h1 : cmp uc a b = 0) (h2 : cmp uc b c = 0) : cmp uc a c = 0 := by
  obtain ⟨c1, c2, -, -, -, -⟩ := cmp_consistent uc ko a b c
  have := c1 (by omega) (by omega)
  have := c2 (by omega) (by omega)
  omega

theorem unionLoop_spec (uc : GoVal → GoVal → Int) (ko : KeyOrder uc) :
    ∀ (fuel : Nat) (t other : List Ty), t.length + other.length < fuel →
      (∀ x ∈ t, noNestedNamed x = true) → (∀ x ∈ other, noNestedNamed x = true) →
      ∃ m, unionLoop uc fuel t other = some m ∧
        (∀ y ∈ m, y ∈ t ∨ y ∈ other) ∧
        (∀ y ∈ t, ∃ z ∈ m, cmp uc z y = 0) ∧
        (∀ y ∈ other, ∃ z ∈ m, cmp uc z y = 0) ∧
        (Ascending uc t → Ascending uc other → Ascending uc m) := by
  intro fuel
  induction fuel with
  | zero => intro t other h; omega
  | succ fuel ih =>
    intro t other hf hwt hwo
    cases t with
    | nil =>
      refine ⟨other, by cases other <;> rfl, fun y hy => Or.inr hy, by simp,
        fun y hy => ⟨y, hy, cmp_self uc ko y⟩, fun _ h => h⟩
    | cons a restT =>
      cases other with
      | nil =>
        refine ⟨a :: restT, rfl, fun y hy => Or.inl hy,
          fun y hy => ⟨y, hy, cmp_self uc ko y⟩, by simp, fun h _ => h⟩
      | cons b restOther =>
        have hwa := hwt a (by simp)
        have hwb := hwo b (by simp)
        have hwt' : ∀ x ∈ restT, noNestedNamed x = true := fun x hx => hwt x (by simp [hx])
        have hwo' : ∀ x ∈ restOther, noNestedNamed x = true := fun x hx => hwo x (by simp [hx])
        simp only [List.length_cons] at hf
        rw [unionLoop, Compare_eq_cmp uc hwa hwb]
        simp only []
        rcases cmp_sign uc ko.sign a b with hc | hc | hc
        · -- a < b
          obtain ⟨m, e, p1, p2, p3, p4⟩ := ih restT (b :: restOther)
            (by simp only [List.length_cons]; omega) hwt' hwo
          refine ⟨a :: m, by simp [hc, e], ?_, ?_, ?_, ?_⟩
          · intro y hy
            rcases List.mem_cons.1 hy with rfl | hy
            · exact Or.inl (by simp)
            · rcases p1 y hy with h | h
              · exact Or.inl (by simp [h])
              · exact Or.inr h
          · intro y hy
            rcases List.mem_cons.1 hy with rfl | hy
            · exact ⟨y, by simp, cmp_self uc ko y⟩
            · obtain ⟨z, hz, hz2⟩ := p2 y hy
              exact ⟨z, by simp [hz], hz2⟩
          · intro y hy
            obtain ⟨z, hz, hz2⟩ := p3 y hy
            exact ⟨z, by simp [hz], hz2⟩
          · intro st so
            rw [Ascending, List.pairwise_cons] at st so ⊢
            refine ⟨?_, p4 st.2 (List.pairwise_cons.2 so)⟩
            intro y hy
            rcases p1 y hy with h | h
            · exact st.1 y h
            · rcases List.mem_cons.1 h with rfl | h
              · omega
              · exact cmp_lt_of_lt_of_le uc ko (by omega) (le_of_lt (so.1 y h))
        · -- a = b
          obtain ⟨m, e, p1, p2, p3, p4⟩ := ih restT restOther (by omega) hwt' hwo'
          refine ⟨a :: m, by simp [hc, e], ?_, ?_, ?_, ?_⟩
          · intro y hy
            rcases List.mem_cons.1 hy with rfl | hy
            · exact Or.inl (by simp)
            · rcases p1 y hy with h | h
              · exact Or.inl (by simp [h])
              · exact Or.inr (by simp [h])
          · intro y hy
            rcases List.mem_cons.1 hy with rfl | hy
            · exact ⟨y, by simp, cmp_self uc ko y⟩
            · obtain ⟨z, hz, hz2⟩ := p2 y hy
              exact ⟨z, by simp [hz], hz2⟩
          · intro y hy
            rcases List.mem_cons.1 hy with rfl | hy
            · exact ⟨a, by simp, hc⟩
            · obtain ⟨z, hz, hz2⟩ := p3 y hy
              exact ⟨z, by simp [hz], hz2⟩
          · intro st so
            rw [Ascending, List.pairwise_cons] at st so ⊢
            refine ⟨?_, p4 st.2 so.2⟩
            intro y hy
            rcases p1 y hy with h | h
            · exact st.1 y h
            · exact cmp_lt_of_le_of_lt uc ko (by omega) (so.1 y h)
        · -- a > b
          have hba : cmp uc b a < 0 := by
            have := cmp_antisymm uc ko.antisymm a b; omega
          obtain ⟨m, e, p1, p2, p3, p4⟩ := ih (a :: restT) restOther
            (by simp only [List.length_cons]; omega) hwt hwo'
          refine ⟨b :: m, by simp [hc, e], ?_, ?_, ?_, ?_⟩
          · intro y hy
            rcases List.mem_cons.1 hy with rfl | hy
            · exact Or.inr (by simp)
            · rcases p1 y hy with h | h
              · exact Or.inl h
              · exact Or.inr (by simp [h])
          · intro y hy
            obtain ⟨z, hz, hz2⟩ := p2 y hy
            exact ⟨z, by simp [hz], hz2⟩
          · intro y hy
            rcases List.mem_cons.1 hy with rfl | hy
            · exact ⟨y, by simp, cmp_self uc ko y⟩
            · obtain ⟨z, hz, hz2⟩ := p3 y hy
              exact ⟨z, by simp [hz], hz2⟩
          · intro st so
            rw [Ascending, List.pairwise_cons] at st so ⊢
            refine ⟨?_, p4 (List.pairwise_cons.2 st) so.2⟩
            intro y hy
            rcases p1 y hy with h | h
            · rcases List.mem_cons.1 h with rfl | h
              · exact hba
              · exact cmp_lt_of_lt_of_le uc ko hba (le_of_lt (st.1 y h))
            · exact so.1 y h


theorem ascending_of_strictlyAscending (uc : GoVal → GoVal → Int) {t : List Ty}
    (hw : ∀ x ∈ t, noNestedNamed x = true) (h : StrictlyAscending uc t) : Ascending uc t := by
  unfold StrictlyAscending at h
  unfold Ascending
  refine List.Pairwise.imp_of_mem ?_ h
  intro a b ha hb hab
  rw [Compare_eq_cmp uc (hw a ha) (hw b hb)] at hab
  have : cmp uc a b = -1 := by simpa using hab
  omega

theorem strictlyAscending_of_ascending (uc : GoVal → GoVal → Int) (ko : KeyOrder uc)
    {t : List Ty} (hw : ∀ x ∈ t, noNestedNamed x = true) (h : Ascending uc t) :
    StrictlyAscending uc t := by
  unfold Ascending at h
  unfold StrictlyAscending
  refine List.Pairwise.imp_of_mem ?_ h
  intro a b ha hb hab
  rw [Compare_eq_cmp uc (hw a ha) (hw b hb)]
  rcases cmp_sign uc ko.sign a b with hc | hc | hc <;> first | omega | simp [hc]

theorem monotone_of_ascending (uc : GoVal → GoVal → Int) (ko : KeyOrder uc) {t : List Ty}
    (h : Ascending uc t) (other : Ty) : MonotoneFrom (fun x => cmp uc x other) t := by
  unfold Ascending at h
  unfold MonotoneFrom
  refine List.Pairwise.imp ?_ h
  intro a b hab ha
  obtain ⟨-, -, -, c4, -, -⟩ := cmp_consistent uc ko a b other
  exact c4 (by omega) ha

theorem typeSliceLess_eq (uc : GoVal → GoVal → Int) {a b : Ty} (ha : noNestedNamed a = true)
    (hb : noNestedNamed b = true) : typeSliceLess uc a b = some (decide (cmp uc a b < 0)) := by
  simp [typeSliceLess, Compare_eq_cmp uc ha hb]

theorem NewAny_pair (uc : GoVal → GoVal → Int) {a b : Ty} (ha : noNestedNamed a = true)
    (hb : noNestedNamed b = true) :
    NewAny uc [a, b] = some (Ty.Any (if cmp uc b a < 0 then [b, a] else [a, b])) := by
  simp only [NewAny, insertionSort, insertionLoop, insertBack, typeSliceLess_eq uc hb ha]
  by_cases h : cmp uc b a < 0 <;> simp [h, insertionLoop, insertBack]

theorem isFunction_of_unwrap {b : Ty} (h : (unwrap b).isFunction = false) :
    b.isFunction = false := by
  cases b <;> first | rfl | simp [unwrap, Ty.isFunction] at h

theorem cmp_unwrap_left (uc : GoVal → GoVal → Int) {a : Ty} (b : Ty)
    (h : noNestedNamed a = true) : cmp uc (unwrap a) b = cmp uc a b := by
  rw [← (unwrap_facts h).2.2.1, cmp_strip_left]


theorem unwrap_of_notNamed {t : Ty} (h : t.isNamed = false) : unwrap t = t := by
  cases t <;> first | rfl | simp [Ty.isNamed] at h

theorem Compare_unwrap_right (uc : GoVal → GoVal → Int) (a : Ty) {b : Ty}
    (h : noNestedNamed b = true) : Compare uc a (unwrap b) = Compare uc a b := by
  unfold Compare
  rw [unwrap_of_notNamed (unwrap_facts h).1]

theorem anyContains_unwrap (uc : GoVal → GoVal → Int) (t : List Ty) {b : Ty}
    (h : noNestedNamed b = true) (hf : (unwrap b).isFunction = false) :
    Any.Contains uc t (unwrap b) = Any.Contains uc t b := by
  have e : compareAtLeast uc t (unwrap b) = compareAtLeast uc t b := by
    funext i; unfold compareAtLeast; simp only [Compare_unwrap_right uc _ h]
  unfold Any.Contains
  simp only [hf, isFunction_of_unwrap hf, e, Compare_unwrap_right uc _ h]

/-- The result of `Any.Contains` on a list whose elements are all less than
`other`. -/
theorem anyContains_split_nil (uc : GoVal → GoVal → Int) (l1 : List Ty) (other : Ty)
    (hw : ∀ x ∈ l1, noNestedNamed x = true) (ho : noNestedNamed other = true)
    (hf : other.isFunction = false) (h1 : ∀ a ∈ l1, cmp uc a other < 0) :
    Any.Contains uc l1 other = some (decide (l1.length = 0)) := by
  have hs := search_split (fun x => cmp uc x other) l1 [] h1 (by simp)
  rw [List.append_nil] at hs
  unfold Any.Contains
  rw [if_neg (by simp [hf]), compareAtLeast_eq uc hw ho, hs]
  simp

/-- The result of `Any.Contains` on a list that splits into the elements less
than `other` and the elements not less than `other`, of which `y` is the
first. -/
theorem anyContains_split_cons (uc : GoVal → GoVal → Int) (l1 l2 : List Ty) (y other : Ty)
    (hw : ∀ x ∈ l1 ++ y :: l2, noNestedNamed x = true) (ho : noNestedNamed other = true)
    (hf : other.isFunction = false)
    (h1 : ∀ a ∈ l1, cmp uc a other < 0) (h2 : ∀ a ∈ y :: l2, 0 ≤ cmp uc a other) :
    Any.Contains uc (l1 ++ y :: l2) other = some (decide (cmp uc y other = 0)) := by
  have hs := search_split (fun x => cmp uc x other) l1 (y :: l2) h1 h2
  unfold Any.Contains
  rw [if_neg (by simp [hf]), compareAtLeast_eq uc hw ho, hs]
  have hlt : l1.length < (l1 ++ y :: l2).length := by simp
  have hget : (l1 ++ y :: l2)[l1.length]? = some y := by
    rw [List.getElem?_append_right (le_refl _)]; simp
  simp only [hlt, if_true, hget, Compare_eq_cmp uc (hw y (by simp)) ho]
  by_cases hy : cmp uc y other = 0 <;> simp [hy]

theorem anyContains_total (uc : GoVal → GoVal → Int) (l1 l2 : List Ty) (other : Ty)
    (hw : ∀ x ∈ l1 ++ l2, noNestedNamed x = true) (ho : noNestedNamed other = true)
    (hf : other.isFunction = false)
    (h1 : ∀ a ∈ l1, cmp uc a other < 0) (h2 : ∀ a ∈ l2, 0 ≤ cmp uc a other) :
    ∃ v, Any.Contains uc (l1 ++ l2) other = some v := by
  cases l2 with
  | nil =>
    rw [List.append_nil] at hw ⊢
    exact ⟨_, anyContains_split_nil uc l1 other hw ho hf h1⟩
  | cons y l2 => exact ⟨_, anyContains_split_cons uc l1 l2 y other hw ho hf h1 h2⟩

theorem anyMerge_notAny (uc : GoVal → GoVal → Int) (t : List Ty) {b : Ty}
    (hany : b.isAny = false) :
    Any.Merge uc t b =
      match Any.Contains uc t b with
      | none => none
      | some true => some t
      | some false =>
        match Search t.length (compareAtLeast uc t b) with
        | none => none
        | some idx => some (t.take idx ++ b :: t.drop idx) := by
  cases b <;> first | rfl | simp [Ty.isAny] at hany

theorem search_of_ascending (uc : GoVal → GoVal → Int) (ko : KeyOrder uc) {t : List Ty}
    (hw : ∀ x ∈ t, noNestedNamed x = true) (hs : Ascending uc t) (other : Ty)
    (ho : noNestedNamed other = true) :
    ∃ l1 l2, t = l1 ++ l2 ∧ (∀ a ∈ l1, cmp uc a other < 0) ∧ (∀ a ∈ l2, 0 ≤ cmp uc a other) ∧
      Search t.length (compareAtLeast uc t other) = some l1.length := by
  obtain ⟨l1, l2, e, p1, p2⟩ := monotone_split _ t (monotone_of_ascending uc ko hs other)
  refine ⟨l1, l2, e, p1, p2, ?_⟩
  rw [compareAtLeast_eq uc hw ho, e]
  exact search_split _ l1 l2 p1 p2

/-- The result of `Any.Merge` of a sorted list with a type that is not an Any returns a list
that contains the type. -/
theorem anyMerge_contains (uc : GoVal → GoVal → Int) (ko : KeyOrder uc) {t : List Ty} {b : Ty}
    (hw : ∀ x ∈ t, noNestedNamed x = true) (hs : Ascending uc t)
    (hb : noNestedNamed b = true) (hf : (unwrap b).isFunction = false)
    (hany : (unwrap b).isAny = false) :
    ∃ r, Any.Merge uc t (unwrap b) = some r ∧ Any.Contains uc r b = some true := by
  obtain ⟨ub1, ub2, -, -⟩ := unwrap_facts hb
  obtain ⟨l1, l2, e, p1, p2, hsearch⟩ := search_of_ascending uc ko hw hs (unwrap b) ub2
  subst e
  obtain ⟨v0, hc⟩ := anyContains_total uc l1 l2 (unwrap b) hw ub2 hf p1 p2
  rw [anyMerge_notAny uc _ hany, hsearch]
  cases hv : Any.Contains uc (l1 ++ l2) (unwrap b) with
  | none => rw [hc] at hv; simp at hv
  | some v =>
    cases v with
    | true =>
      refine ⟨_, rfl, ?_⟩
      rw [← anyContains_unwrap uc _ hb hf]; exact hv
    | false =>
      refine ⟨_, rfl, ?_⟩
      have e1 : (l1 ++ l2).take l1.length = l1 := by simp
      have e2 : (l1 ++ l2).drop l1.length = l2 := by simp
      rw [e1, e2]
      refine anyContains_of_split uc l1 l2 (unwrap b) b ?_ hb (isFunction_of_unwrap hf) ?_ ?_ ?_
      · intro x hx
        rcases List.mem_append.1 hx with h | h
        · exact hw x (by simp [h])
        · rcases List.mem_cons.1 h with rfl | h
          · exact ub2
          · exact hw x (by simp [h])
      · intro a ha; rw [← cmp_unwrap_right uc a hb]; exact p1 a ha
      · rw [← cmp_unwrap_right uc _ hb]; exact cmp_self uc ko _
      · intro a ha; rw [← cmp_unwrap_right uc a hb]; exact p2 a ha


theorem Contains_any (uc : GoVal → GoVal → Int) (l : List Ty) (b : Ty) :
    Contains uc (Ty.Any l) b = Any.Contains uc l b := rfl

theorem Contains_of_unwrap_any (uc : GoVal → GoVal → Int) {a : Ty} {l : List Ty} (b : Ty)
    (h : unwrap a = Ty.Any l) : Contains uc a b = Any.Contains uc l b := by
  unfold Contains; rw [h]

theorem Contains_notAny (uc : GoVal → GoVal → Int) {a : Ty} (b : Ty)
    (h : (unwrap a).isAny = false) :
    Contains uc a b = (Compare uc a b).map (fun c => decide (c = 0)) := by
  unfold Contains
  generalize unwrap a = a' at h
  cases a' <;> first | rfl | simp [Ty.isAny] at h

theorem orBody_any_left (uc : GoVal → GoVal → Int) (x : List Ty) (b : Ty) :
    orBody uc (Ty.Any x) b = (Any.Merge uc x b).map Ty.Any := by
  cases b <;> rfl

theorem orBody_any_right (uc : GoVal → GoVal → Int) {a : Ty} (y : List Ty)
    (h : a.isAny = false) : orBody uc a (Ty.Any y) = (Any.Merge uc y a).map Ty.Any := by
  cases a <;> first | rfl | simp [Ty.isAny] at h

theorem orBody_plain (uc : GoVal → GoVal → Int) {a b : Ty} (ha : a.isAny = false)
    (hb : b.isAny = false) : orBody uc a b = orPlain uc a b := by
  cases a <;> first
    | (simp [Ty.isAny] at ha; done)
    | (cases b <;> first | rfl | simp [Ty.isAny] at hb)

theorem isAny_cases (a : Ty) : a.isAny = false ∨ ∃ x, a = Ty.Any x := by
  cases a <;> first | exact Or.inl rfl | exact Or.inr ⟨_, rfl⟩

theorem wf_any {x : List Ty} (h : noNestedNamed (Ty.Any x) = true) :
    ∀ y ∈ x, noNestedNamed y = true :=
  (noNestedNamedList_iff x).1 (by simpa [noNestedNamed] using h)

theorem anyUnion_total (uc : GoVal → GoVal → Int) (ko : KeyOrder uc) {t other : List Ty}
    (hwt : ∀ x ∈ t, noNestedNamed x = true) (hwo : ∀ x ∈ other, noNestedNamed x = true) :
    ∃ m, Any.Union uc t other = some m := by
  unfold Any.Union
  split
  · exact ⟨_, rfl⟩
  · split
    · exact ⟨_, rfl⟩
    · obtain ⟨m, e, -⟩ := unionLoop_spec uc ko (t.length + other.length + 1) t other
        (by omega) hwt hwo
      exact ⟨m, e⟩

theorem or_contains_aux (uc : GoVal → GoVal → Int) (ko : KeyOrder uc) (a b : Ty)
    (hwa : noNestedNamed a = true) (hwb : noNestedNamed b = true)
    (ha : (unwrap a).isNil = false) (hfa : (unwrap a).isFunction = false)
    (hb : (unwrap b).isNil = false) (hfb : (unwrap b).isFunction = false)
    (hsa : ∀ x, unwrap a = Ty.Any x → StrictlyAscending uc x)
    (hsb : ∀ y, unwrap b = Ty.Any y → StrictlyAscending uc y) :
    ∃ r, Or uc a b = some r ∧
      ((unwrap a).isAny = false → Contains uc r a = some true) ∧
      ((unwrap b).isAny = false → Contains uc r b = some true) := by
  obtain ⟨ua1, ua2, -, -⟩ := unwrap_facts hwa
  obtain ⟨ub1, ub2, -, -⟩ := unwrap_facts hwb
  rw [Or_eq_orBody uc a b ua1 ha hfa hb hfb]
  rcases isAny_cases (unwrap a) with hA | ⟨x, hx⟩
  · rcases isAny_cases (unwrap b) with hB | ⟨y, hy⟩
    · -- neither is an Any
      rw [orBody_plain uc hA hB, orPlain, Compare_eq_cmp uc ua2 ub2]
      have e1 : cmp uc (unwrap a) (unwrap b) = cmp uc a b := by
        rw [cmp_unwrap_left uc _ hwa, cmp_unwrap_right uc _ hwb]
      have e2 := cmp_antisymm uc ko.antisymm a b
      by_cases h0 : cmp uc (unwrap a) (unwrap b) = 0
      · refine ⟨unwrap a, by simp [h0], fun _ => ?_, fun _ => ?_⟩
        · rw [Contains_notAny uc a (by rwa [unwrap_of_notNamed ua1]),
            Compare_eq_cmp uc ua2 hwa, cmp_unwrap_left uc _ hwa, cmp_self uc ko]
          rfl
        · rw [Contains_notAny uc b (by rwa [unwrap_of_notNamed ua1]),
            Compare_eq_cmp uc ua2 hwb, cmp_unwrap_left uc _ hwa, ← e1, h0]
          rfl
      · rw [e1] at h0
        simp only [e1, h0, if_false]
        rw [NewAny_pair uc ua2 ub2]
        have e3 : cmp uc (unwrap b) (unwrap a) = cmp uc b a := by
          rw [cmp_unwrap_left uc _ hwb, cmp_unwrap_right uc _ hwa]
        have fa := isFunction_of_unwrap hfa
        have fb := isFunction_of_unwrap hfb
        by_cases hlt : cmp uc (unwrap b) (unwrap a) < 0
        · refine ⟨_, by rw [if_pos hlt], fun _ => ?_, fun _ => ?_⟩
          · rw [Contains_any]
            refine anyContains_of_split uc [unwrap b] [] (unwrap a) a ?_ hwa fa ?_ ?_ ?_
            · intro z hz; simp at hz; rcases hz with rfl | rfl <;> assumption
            · intro z hz; simp at hz; subst hz
              rw [cmp_unwrap_left uc _ hwb]; rw [e3] at hlt; exact hlt
            · rw [cmp_unwrap_left uc _ hwa]; exact cmp_self uc ko a
            · simp
          · rw [Contains_any]
            refine anyContains_of_split uc [] [unwrap a] (unwrap b) b ?_ hwb fb ?_ ?_ ?_
            · intro z hz; simp at hz; rcases hz with rfl | rfl <;> assumption
            · simp
            · rw [cmp_unwrap_left uc _ hwb]; exact cmp_self uc ko b
            · intro z hz; simp at hz; subst hz
              rw [cmp_unwrap_left uc _ hwa]; rw [e3] at hlt; omega
        · refine ⟨_, by rw [if_neg hlt], fun _ => ?_, fun _ => ?_⟩
          · rw [Contains_any]
            refine anyContains_of_split uc [] [unwrap b] (unwrap a) a ?_ hwa fa ?_ ?_ ?_
            · intro z hz; simp at hz; rcases hz with rfl | rfl <;> assumption
            · simp
            · rw [cmp_unwrap_left uc _ hwa]; exact cmp_self uc ko a
            · intro z hz; simp at hz; subst hz
              rw [cmp_unwrap_left uc _ hwb]; rw [e3] at hlt; omega
          · rw [Contains_any]
            refine anyContains_of_split uc [unwrap a] [] (unwrap b) b ?_ hwb fb ?_ ?_ ?_
            · intro z hz; simp at hz; rcases hz with rfl | rfl <;> assumption
            · intro z hz; simp at hz; subst hz
              rw [cmp_unwrap_left uc _ hwa]; rw [e3] at hlt; omega
            · rw [cmp_unwrap_left uc _ hwb]; exact cmp_self uc ko b
            · simp
    · -- only b is an Any
      have hwy := wf_any (hy ▸ ub2)
      have sy := ascending_of_strictlyAscending uc hwy (hsb y hy)
      obtain ⟨r, e, hc⟩ := anyMerge_contains uc ko hwy sy hwa hfa hA
      rw [hy, orBody_any_right uc y hA, e]
      refine ⟨Ty.Any r, rfl, fun _ => ?_, fun h => ?_⟩
      · rw [Contains_any]; exact hc
      · simp [hy, Ty.isAny] at h
  · have hwx := wf_any (hx ▸ ua2)
    have sx := ascending_of_strictlyAscending uc hwx (hsa x hx)
    rw [hx, orBody_any_left]
    rcases isAny_cases (unwrap b) with hB | ⟨y, hy⟩
    · obtain ⟨r, e, hc⟩ := anyMerge_contains uc ko hwx sx hwb hfb hB
      rw [e]
      refine ⟨Ty.Any r, rfl, fun h => ?_, fun _ => ?_⟩
      · simp [hx, Ty.isAny] at h
      · rw [Contains_any]; exact hc
    · have hwy := wf_any (hy ▸ ub2)
      obtain ⟨m, e⟩ := anyUnion_total uc ko hwx hwy
      rw [hy]
      refine ⟨Ty.Any m, ?_, fun h => ?_, fun h => ?_⟩
      · show (Any.Union uc x y).map Ty.Any = _
        rw [e]; rfl
      · simp [hx, Ty.isAny] at h
      · simp [hy, Ty.isAny] at h


theorem map_decide_eq_true {o : Option Int} (h : o.map (fun c => decide (c = 0)) = some true) :
    o = some 0 := by
  cases o with
  | none => simp at h
  | some c => simp at h; simp [h]

theorem or_superset_aux (uc : GoVal → GoVal → Int) (ko : KeyOrder uc) (a b : Ty)
    (hwa : noNestedNamed a = true) (hwb : noNestedNamed b = true)
    (ha : (unwrap a).isNil = false) (hfa : (unwrap a).isFunction = false)
    (hb : (unwrap b).isNil = false) (hfb : (unwrap b).isFunction = false) :
    (Contains uc a b = some true → (unwrap b).isAny = false → Or uc a b = some (unwrap a)) ∧
    (unwrap a = Ty.Any [] → Or uc a b = some (Ty.Any [])) ∧
    (Contains uc b a = some true → (unwrap a).isAny = false → (unwrap b).isAny = true →
      Or uc a b = some (unwrap b)) ∧
    (Contains uc b a = some true → (unwrap a).isAny = false → (unwrap b).isAny = false →
      Or uc a b = some (unwrap a) ∧ Compare uc (unwrap a) b = some 0) := by
  obtain ⟨ua1, ua2, -, -⟩ := unwrap_facts hwa
  obtain ⟨ub1, ub2, -, -⟩ := unwrap_facts hwb
  rw [Or_eq_orBody uc a b ua1 ha hfa hb hfb]
  have e1 : cmp uc (unwrap a) (unwrap b) = cmp uc a b := by
    rw [cmp_unwrap_left uc _ hwa, cmp_unwrap_right uc _ hwb]
  refine ⟨?_, ?_, ?_, ?_⟩
  · intro hc hB
    rcases isAny_cases (unwrap a) with hA | ⟨x, hx⟩
    · rw [Contains_notAny uc b hA] at hc
      have h0 := map_decide_eq_true hc
      rw [Compare_eq_cmp uc hwa hwb] at h0
      have h0' : cmp uc a b = 0 := by simpa using h0
      rw [orBody_plain uc hA hB, orPlain, Compare_eq_cmp uc ua2 ub2, e1, h0']
      rfl
    · rw [Contains_of_unwrap_any uc b hx] at hc
      rw [hx, orBody_any_left, anyMerge_notAny uc x hB, anyContains_unwrap uc x hwb hfb, hc]
      rfl
  · intro hx
    rw [hx, orBody_any_left]
    generalize unwrap b = b' at hb hfb
    cases b' <;> first
      | rfl
      | simp [Ty.isFunction] at hfb
  · intro hc hA hB
    rcases isAny_cases (unwrap b) with hB' | ⟨y, hy⟩
    · rw [hB'] at hB; simp at hB
    · rw [Contains_of_unwrap_any uc a hy] at hc
      rw [hy, orBody_any_right uc y hA, anyMerge_notAny uc y hA, anyContains_unwrap uc y hwa hfa,
        hc]
      rfl
  · intro hc hA hB
    rw [Contains_notAny uc a hB] at hc
    have h0 := map_decide_eq_true hc
    rw [Compare_eq_cmp uc hwb hwa] at h0
    have h0' : cmp uc b a = 0 := by simpa using h0
    have h1 : cmp uc a b = 0 := by
      have := cmp_antisymm uc ko.antisymm a b; omega
    refine ⟨?_, ?_⟩
    · rw [orBody_plain uc hA hB, orPlain, Compare_eq_cmp uc ua2 ub2, e1, h1]
      rfl
    · rw [Compare_eq_cmp uc ua2 hwb, cmp_unwrap_left uc _ hwa, h1]

theorem compare_zero_iff (uc : GoVal → GoVal → Int) {a b : Ty} (ha : noNestedNamed a = true)
    (hb : noNestedNamed b = true) : Compare uc a b = some 0 ↔ cmp uc a b = 0 := by
  rw [Compare_eq_cmp uc ha hb]; simp

theorem any_union_aux (uc : GoVal → GoVal → Int) (ko : KeyOrder uc) (t other : List Ty)
    (hwt : ∀ x ∈ t, noNestedNamed x = true) (hwo : ∀ x ∈ other, noNestedNamed x = true) :
    ((t = [] ∨ other = []) → Any.Union uc t other = some []) ∧
    (t ≠ [] → other ≠ [] → StrictlyAscending uc t → StrictlyAscending uc other →
      ∃ m, Any.Union uc t other = some m ∧ StrictlyAscending uc m ∧
        ∀ x, noNestedNamed x = true →
          ((∃ y ∈ m, Compare uc y x = some 0) ↔
            ((∃ y ∈ t, Compare uc y x = some 0) ∨ (∃ y ∈ other, Compare uc y x = some 0)))) := by
  refine ⟨?_, ?_⟩
  · intro h
    unfold Any.Union
    rcases h with rfl | rfl
    · rfl
    · cases t <;> rfl
  · intro ht ho st so
    obtain ⟨m, e, p1, p2, p3, p4⟩ := unionLoop_spec uc ko (t.length + other.length + 1) t other
      (by omega) hwt hwo
    have hwm : ∀ y ∈ m, noNestedNamed y = true := by
      intro y hy
      rcases p1 y hy with h | h
      · exact hwt y h
      · exact hwo y h
    refine ⟨m, ?_, ?_, ?_⟩
    · unfold Any.Union
      rw [if_neg (by simpa using ht), if_neg (by simpa using ho)]
      exact e
    · exact strictlyAscending_of_ascending uc ko hwm
        (p4 (ascending_of_strictlyAscending uc hwt st) (ascending_of_strictlyAscending uc hwo so))
    · intro x hx
      constructor
      · rintro ⟨y, hy, hc⟩
        rcases p1 y hy with h | h
        · exact Or.inl ⟨y, h, hc⟩
        · exact Or.inr ⟨y, h, hc⟩
      · rintro (⟨y, hy, hc⟩ | ⟨y, hy, hc⟩)
        · obtain ⟨z, hz, hz2⟩ := p2 y hy
          refine ⟨z, hz, ?_⟩
          rw [compare_zero_iff uc (hwt y hy) hx] at hc
          rw [compare_zero_iff uc (hwm z hz) hx]
          exact cmp_eq_trans uc ko hz2 hc
        · obtain ⟨z, hz, hz2⟩ := p3 y hy
          refine ⟨z, hz, ?_⟩
          rw [compare_zero_iff uc (hwo y hy) hx] at hc
          rw [compare_zero_iff uc (hwm z hz) hx]
          exact cmp_eq_trans uc ko hz2 hc


section Sorting
variable {α : Type} (cmp : α → α → Int)

theorem insertBackFunc_perm (x : α) : ∀ (r : List α), (insertBackFunc cmp x r).Perm (x :: r)
  | [] => List.Perm.refl _
  | y :: ys => by
    unfold insertBackFunc
    split
    · exact ((insertBackFunc_perm x ys).cons y).trans (List.Perm.swap x y ys)
    · exact List.Perm.refl _

theorem insertBackFunc_desc (hanti : ∀ a b, cmp b a = -cmp a b)
    (htrans : ∀ a b c, cmp a b ≤ 0 → cmp b c ≤ 0 → cmp a c ≤ 0) (x : α) :
    ∀ (r : List α), r.Pairwise (fun a b => cmp b a ≤ 0) →
      (insertBackFunc cmp x r).Pairwise (fun a b => cmp b a ≤ 0)
  | [], _ => by simp [insertBackFunc]
  | y :: ys, h => by
    rw [List.pairwise_cons] at h
    unfold insertBackFunc
    split
    · rename_i hlt
      rw [List.pairwise_cons]
      refine ⟨?_, insertBackFunc_desc hanti htrans x ys h.2⟩
      intro z hz
      rcases List.mem_cons.1 ((insertBackFunc_perm cmp x ys).mem_iff.1 hz) with rfl | hz
      · omega
      · exact h.1 z hz
    · rename_i hge
      rw [List.pairwise_cons]
      refine ⟨?_, List.pairwise_cons.2 h⟩
      intro z hz
      have hyx : cmp y x ≤ 0 := by have := hanti x y; omega
      rcases List.mem_cons.1 hz with rfl | hz
      · exact hyx
      · exact htrans z y x (h.1 z hz) hyx

theorem foldl_insertBackFunc (hanti : ∀ a b, cmp b a = -cmp a b)
    (htrans : ∀ a b c, cmp a b ≤ 0 → cmp b c ≤ 0 → cmp a c ≤ 0) :
    ∀ (data r : List α), r.Pairwise (fun a b => cmp b a ≤ 0) →
      (data.foldl (fun sortedRev x => insertBackFunc cmp x sortedRev) r).Pairwise
          (fun a b => cmp b a ≤ 0) ∧
        (data.foldl (fun sortedRev x => insertBackFunc cmp x sortedRev) r).Perm (data.reverse ++ r)
  | [], r, h => ⟨h, by simp⟩
  | x :: xs, r, h => by
    obtain ⟨p1, p2⟩ := foldl_insertBackFunc hanti htrans xs (insertBackFunc cmp x r)
      (insertBackFunc_desc cmp hanti htrans x r h)
    refine ⟨p1, ?_⟩
    simp only [List.foldl_cons, List.reverse_cons, List.append_assoc, List.singleton_append]
    exact p2.trans (List.Perm.append_left _ (insertBackFunc_perm cmp x r))

theorem sortFunc_sorted (hanti : ∀ a b, cmp b a = -cmp a b)
    (htrans : ∀ a b c, cmp a b ≤ 0 → cmp b c ≤ 0 → cmp a c ≤ 0) (data : List α) :
    (SortFunc cmp data).Pairwise (fun a b => cmp a b ≤ 0) ∧ (SortFunc cmp data).Perm data := by
  obtain ⟨p1, p2⟩ := foldl_insertBackFunc cmp hanti htrans data [] List.Pairwise.nil
  unfold SortFunc
  refine ⟨List.pairwise_reverse.2 p1, ?_⟩
  rw [List.append_nil] at p2
  exact (List.reverse_perm _).trans (p2.trans (List.reverse_perm _))

theorem sortFunc_strict (hanti : ∀ a b, cmp b a = -cmp a b)
    (htrans : ∀ a b c, cmp a b ≤ 0 → cmp b c ≤ 0 → cmp a c ≤ 0) (data : List α)
    (hd : data.Pairwise (fun a b => cmp a b ≠ 0)) :
    (SortFunc cmp data).Pairwise (fun a b => cmp a b < 0) := by
  obtain ⟨p1, p2⟩ := sortFunc_sorted cmp hanti htrans data
  have hsymm : ∀ a b : α, cmp a b ≠ 0 → cmp b a ≠ 0 := by
    intro a b h; have := hanti a b; omega
  have p3 : (SortFunc cmp data).Pairwise (fun a b => cmp a b ≠ 0) :=
    (p2.pairwise_iff (fun {a b} h => hsymm a b h)).2 hd
  exact (p1.and p3).imp (fun ⟨h1, h2⟩ => by omega)

end Sorting


theorem keyAtLeast_eq (uc : GoVal → GoVal → Int) (static : List (GoVal × Ty)) (name : GoVal) :
    keyAtLeast uc static name = atLeast (fun p => uc p.1 name) static := by
  funext i; unfold keyAtLeast atLeast; cases static[i]? <;> rfl

theorem objectSelect_eq (uc : GoVal → GoVal → Int) (ko : KeyOrder uc)
    (static : List (GoVal × Ty)) (dynamic : Option (Ty × Ty)) (name : GoVal)
    (hs : static.Pairwise (fun p q => uc p.1 q.1 < 0)) :
    (∀ p ∈ static, uc p.1 name = 0 → Object.Select uc static dynamic name = some p.2) ∧
    ((∀ p ∈ static, uc p.1 name ≠ 0) →
      Object.Select uc static dynamic name = selectDynamic uc dynamic name) := by
  have hmono : MonotoneFrom (fun p : GoVal × Ty => uc p.1 name) static := by
    refine List.Pairwise.imp ?_ hs
    intro p q hpq hp
    obtain ⟨-, -, -, c4, -, -⟩ := ko.consistent p.1 q.1 name
    exact c4 (by omega) hp
  obtain ⟨l1, l2, e, p1, p2⟩ := monotone_split _ static hmono
  subst e
  have hsearch := search_split (fun p : GoVal × Ty => uc p.1 name) l1 l2 p1 p2
  have hunf : Object.Select uc (l1 ++ l2) dynamic name =
      if l1.length < (l1 ++ l2).length then
        match (l1 ++ l2)[l1.length]? with
        | none => none
        | some p => if uc p.1 name = 0 then some p.2 else selectDynamic uc dynamic name
      else selectDynamic uc dynamic name := by
    unfold Object.Select
    rw [keyAtLeast_eq, hsearch]
    rfl
  rw [hunf]
  cases l2 with
  | nil =>
    refine ⟨?_, ?_⟩
    · intro p hp h0
      rw [List.append_nil] at hp
      have := p1 p hp
      omega
    · intro _
      simp
  | cons h rest =>
    have hlt : l1.length < (l1 ++ h :: rest).length := by simp
    have hget : (l1 ++ h :: rest)[l1.length]? = some h := by
      rw [List.getElem?_append_right (le_refl _)]; simp
    rw [if_pos hlt, hget]
    refine ⟨?_, ?_⟩
    · intro p hp h0
      have hh : uc h.1 name = 0 := by
        rcases List.mem_append.1 hp with hp1 | hp2
        · have := p1 p hp1; omega
        · rcases List.mem_cons.1 hp2 with rfl | hp3
          · exact h0
          · exfalso
            have hhr := (List.pairwise_append.1 hs).2.1
            rw [List.pairwise_cons] at hhr
            have hlt2 := hhr.1 p hp3
            have hge := p2 h (by simp)
            obtain ⟨c1, -, -, -, -, c6⟩ := ko.consistent h.1 p.1 name
            have := c6 hge (by omega)
            omega
      have hp_eq : p.2 = h.2 := by
        rcases List.mem_append.1 hp with hp1 | hp2
        · have := p1 p hp1; omega
        · rcases List.mem_cons.1 hp2 with rfl | hp3
          · rfl
          · exfalso
            have hhr := (List.pairwise_append.1 hs).2.1
            rw [List.pairwise_cons] at hhr
            have hlt2 := hhr.1 p hp3
            have hge := p2 h (by simp)
            obtain ⟨c1, -, -, -, -, c6⟩ := ko.consistent h.1 p.1 name
            have := c6 hge (by omega)
            omega
      simp [hh, hp_eq]
    · intro hne
      have := hne h (by simp)
      simp [this]

theorem keyOrder_pair (uc : GoVal → GoVal → Int) (ko : KeyOrder uc) :
    (∀ a b : GoVal × Ty, uc b.1 a.1 = -uc a.1 b.1) ∧
    (∀ a b c : GoVal × Ty, uc a.1 b.1 ≤ 0 → uc b.1 c.1 ≤ 0 → uc a.1 c.1 ≤ 0) :=
  ⟨fun a b => ko.antisymm a.1 b.1, fun a b c => ko.trans a.1 b.1 c.1⟩

theorem newObject_select_aux (uc : GoVal → GoVal → Int) (ko : KeyOrder uc)
    (static : List (GoVal × Ty)) (dynamic : Option (Ty × Ty)) (name : GoVal)
    (hd : static.Pairwise (fun p q => uc p.1 q.1 ≠ 0)) :
    (∀ p ∈ static, uc p.1 name = 0 →
      (NewObject uc static dynamic).SelectProperty uc name = some p.2) ∧
    ((∀ p ∈ static, uc p.1 name ≠ 0) →
      (NewObject uc static dynamic).SelectProperty uc name = selectDynamic uc dynamic name) := by
  obtain ⟨ha, ht⟩ := keyOrder_pair uc ko
  have hs := sortFunc_strict (fun a b : GoVal × Ty => uc a.1 b.1) ha ht static hd
  have hperm := (sortFunc_sorted (fun a b : GoVal × Ty => uc a.1 b.1) ha ht static).2
  obtain ⟨q1, q2⟩ := objectSelect_eq uc ko _ dynamic name hs
  refine ⟨?_, ?_⟩
  · intro p hp h0
    exact q1 p (hperm.mem_iff.2 hp) h0
  · intro hne
    exact q2 (fun p hp => hne p (hperm.mem_iff.1 hp))


theorem sampleCompare_keyOrder : KeyOrder sampleCompare where
  sign := fun x y => cmpInt_sign _ _
  antisymm := fun x y => cmpInt_neg _ _
  trans := fun x y z h1 h2 => by
    unfold sampleCompare cmpInt at *
    split_ifs at * <;> omega

/-! ### `TypeOf` and `Contains` return -/

theorem noNestedNamedStatic_iff : ∀ (l : List (GoVal × Ty)),
    noNestedNamedStatic l = true ↔ ∀ p ∈ l, noNestedNamed p.2 = true
  | [] => by simp [noNestedNamedStatic]
  | (k, t) :: ts => by
    simp [noNestedNamedStatic, noNestedNamedStatic_iff ts]

theorem foldl_insertBackFunc_perm {α : Type} (cmp : α → α → Int) :
    ∀ (data r : List α),
      (data.foldl (fun sortedRev x => insertBackFunc cmp x sortedRev) r).Perm (data.reverse ++ r)
  | [], r => by simp
  | x :: xs, r => by
    have p2 := foldl_insertBackFunc_perm cmp xs (insertBackFunc cmp x r)
    simp only [List.foldl_cons, List.reverse_cons, List.append_assoc, List.singleton_append]
    exact p2.trans (List.Perm.append_left _ (insertBackFunc_perm cmp x r))

theorem sortFunc_perm {α : Type} (cmp : α → α → Int) (data : List α) :
    (SortFunc cmp data).Perm data := by
  have p2 := foldl_insertBackFunc_perm cmp data []
  unfold SortFunc
  rw [List.append_nil] at p2
  exact (List.reverse_perm _).trans (p2.trans (List.reverse_perm _))

theorem noNestedNamed_newObject (uc : GoVal → GoVal → Int) (static : List (GoVal × Ty))
    (h : noNestedNamedStatic static = true) :
    noNestedNamed (NewObject uc static none) = true := by
  have hperm := sortFunc_perm (fun a b : GoVal × Ty => uc a.1 b.1) static
  have h2 : noNestedNamedStatic (SortFunc (fun a b : GoVal × Ty => uc a.1 b.1) static) = true := by
    rw [noNestedNamedStatic_iff] at h ⊢
    intro p hp
    exact h p (hperm.mem_iff.1 hp)
  simp [NewObject, noNestedNamed, h2, noNestedNamedDynamic]

mutual
/-- The function `TypeOf` returns a type, without named types, on every value
whose dynamic type it has a case for. -/
theorem typeOf_returns (uc : GoVal → GoVal → Int) :
    ∀ (x : GoVal), typeOfDefined x = true →
      ∃ t, TypeOf uc x = some t ∧ noNestedNamed t = true
  | .nil, _ => ⟨_, rfl, rfl⟩
  | .bool _, _ => ⟨_, rfl, rfl⟩
  | .string _, _ => ⟨_, rfl, rfl⟩
  | .number _, _ => ⟨_, rfl, rfl⟩
  | .mapString m, h => by
    obtain ⟨static, e, hs⟩ := typeOfStringMap_returns uc m h
    exact ⟨NewObject uc static none, by
      show (typeOfStringMap uc m).map _ = _
      rw [e]; rfl, noNestedNamed_newObject uc static hs⟩
  | .mapAny m, h => by
    obtain ⟨static, e, hs⟩ := typeOfAnyMap_returns uc m h
    exact ⟨NewObject uc static none, by
      show (typeOfAnyMap uc m).map _ = _
      rw [e]; rfl, noNestedNamed_newObject uc static hs⟩
  | .slice xs, h => by
    obtain ⟨static, e, hs⟩ := typeOfSlice_returns uc xs h
    exact ⟨NewArray static .nil, by
      show (typeOfSlice uc xs).map _ = _
      rw [e]; rfl, by simp [NewArray, noNestedNamed, hs]⟩
  | .other, h => by cases h
theorem typeOfStringMap_returns (uc : GoVal → GoVal → Int) :
    ∀ (m : List (String × GoVal)), typeOfDefinedStringMap m = true →
      ∃ static, typeOfStringMap uc m = some static ∧ noNestedNamedStatic static = true
  | [], _ => ⟨[], rfl, rfl⟩
  | (k, v) :: rest, h => by
    have h' : typeOfDefined v = true ∧ typeOfDefinedStringMap rest = true := by
      simpa [typeOfDefinedStringMap] using h
    obtain ⟨t, e1, w1⟩ := typeOf_returns uc v h'.1
    obtain ⟨static, e2, w2⟩ := typeOfStringMap_returns uc rest h'.2
    refine ⟨(.string k, t) :: static, ?_, by simp [noNestedNamedStatic, w1, w2]⟩
    show (match TypeOf uc v, typeOfStringMap uc rest with
      | some t, some static => some ((GoVal.string k, t) :: static)
      | _, _ => none) = _
    rw [e1, e2]
theorem typeOfAnyMap_returns (uc : GoVal → GoVal → Int) :
    ∀ (m : List (GoVal × GoVal)), typeOfDefinedAnyMap m = true →
      ∃ static, typeOfAnyMap uc m = some static ∧ noNestedNamedStatic static = true
  | [], _ => ⟨[], rfl, rfl⟩
  | (k, v) :: rest, h => by
    have h' : typeOfDefined v = true ∧ typeOfDefinedAnyMap rest = true := by
      simpa [typeOfDefinedAnyMap] using h
    obtain ⟨t, e1, w1⟩ := typeOf_returns uc v h'.1
    obtain ⟨static, e2, w2⟩ := typeOfAnyMap_returns uc rest h'.2
    refine ⟨(k, t) :: static, ?_, by simp [noNestedNamedStatic, w1, w2]⟩
    show (match TypeOf uc v, typeOfAnyMap uc rest with
      | some t, some static => some ((k, t) :: static)
      | _, _ => none) = _
    rw [e1, e2]
theorem typeOfSlice_returns (uc : GoVal → GoVal → Int) :
    ∀ (xs : List GoVal), typeOfDefinedSlice xs = true →
      ∃ static, typeOfSlice uc xs = some static ∧ noNestedNamedList static = true
  | [], _ => ⟨[], rfl, rfl⟩
  | x :: rest, h => by
    have h' : typeOfDefined x = true ∧ typeOfDefinedSlice rest = true := by
      simpa [typeOfDefinedSlice] using h
    obtain ⟨t, e1, w1⟩ := typeOf_returns uc x h'.1
    obtain ⟨static, e2, w2⟩ := typeOfSlice_returns uc rest h'.2
    refine ⟨t :: static, ?_, by simp [noNestedNamedList, w1, w2]⟩
    show (match TypeOf uc x, typeOfSlice uc rest with
      | some t, some static => some (t :: static)
      | _, _ => none) = _
    rw [e1, e2]
end


theorem searchLoop_returns (f : Nat → Option Bool) (n : Nat)
    (hf : ∀ h, h < n → ∃ b, f h = some b) :
    ∀ (fuel i j : Nat), j ≤ n → ∃ r, searchLoop f fuel i j = some r ∧ r ≤ max i j
  | 0, i, j, _ => ⟨i, rfl, le_max_left _ _⟩
  | fuel + 1, i, j, hj => by
    rw [searchLoop]
    by_cases hij : i < j
    · rw [if_pos hij]
      obtain ⟨b, hb⟩ := hf ((i + j) / 2) (by omega)
      simp only [hb]
      cases b
      · obtain ⟨r, e, hr⟩ := searchLoop_returns f n hf fuel ((i + j) / 2 + 1) j hj
        exact ⟨r, e, by omega⟩
      · obtain ⟨r, e, hr⟩ := searchLoop_returns f n hf fuel i ((i + j) / 2) (by omega)
        exact ⟨r, e, by omega⟩
    · rw [if_neg hij]
      exact ⟨i, rfl, le_max_left _ _⟩

/-- The method `Any.Contains` returns on elements and an argument without
nested named types. -/
theorem anyContains_returns (uc : GoVal → GoVal → Int) (t : List Ty) (other : Ty)
    (hw : ∀ x ∈ t, noNestedNamed x = true) (ho : noNestedNamed other = true) :
    ∃ v, Any.Contains uc t other = some v := by
  unfold Any.Contains
  split_ifs
  · exact ⟨false, rfl⟩
  · rw [compareAtLeast_eq uc hw ho]
    obtain ⟨r, e, hr⟩ := searchLoop_returns (atLeast (fun x => cmp uc x other) t) t.length
      (by
        intro h hh
        simp [atLeast, List.getElem?_eq_getElem hh]) t.length 0 t.length (le_refl _)
    have e' : Search t.length (atLeast (fun x => cmp uc x other) t) = some r := e
    simp only [e']
    split_ifs with hlt
    · have hx := hw _ (List.getElem_mem hlt)
      simp only [List.getElem?_eq_getElem hlt, Compare_eq_cmp uc hx ho]
      split_ifs <;> exact ⟨_, rfl⟩
    · exact ⟨_, rfl⟩

/-- The function `Contains` returns on types without nested named types. -/
theorem contains_returns (uc : GoVal → GoVal → Int) (a b : Ty)
    (ha : noNestedNamed a = true) (hb : noNestedNamed b = true) :
    ∃ v, Contains uc a b = some v := by
  unfold Contains
  cases hu : unwrap a with
  | Any x =>
    have hx : noNestedNamed (Ty.Any x) = true := hu ▸ (unwrap_facts ha).2.1
    exact anyContains_returns uc x b (wf_any hx) hb
  | _ => exact ⟨_, by rw [Compare_eq_cmp uc ha hb]; rfl⟩

/-! ### Claims on `Or`, `Contains` and `Compare` -/

/-- Where `Or` does return a superset: for types `a` and `b` without nested
named types whose underlying types are not nil and not function types, with
`util.Compare` an order on keys and every argument that is an Any sorted
strictly ascending, `Or(a, b)` returns a type that contains each argument that
is not itself an Any. -/
theorem or_contains_arguments (uc : GoVal → GoVal → Int) (ko : KeyOrder uc) (a b : Ty)
    (hwa : noNestedNamed a = true) (hwb : noNestedNamed b = true)
    (ha : (unwrap a).isNil = false) (hfa : (unwrap a).isFunction = false)
    (hb : (unwrap b).isNil = false) (hfb : (unwrap b).isFunction = false)
    (hsa : ∀ x, unwrap a = Ty.Any x → StrictlyAscending uc x)
    (hsb : ∀ y, unwrap b = Ty.Any y → StrictlyAscending uc y) :
    ∃ r, Or uc a b = some r ∧
      ((unwrap a).isAny = false → Contains uc r a = some true) ∧
      ((unwrap b).isAny = false → Contains uc r b = some true) :=
  or_contains_aux uc ko a b hwa hwb ha hfa hb hfb hsa hsb

/-- An instance of `or_contains_arguments` at `a = Any<number>`, `b = string`. -/
theorem or_contains_arguments_witness :
    ∃ r, Or sampleCompare (Ty.Any [Ty.Number]) Ty.String = some r ∧
      ((unwrap (Ty.Any [Ty.Number])).isAny = false →
        Contains sampleCompare r (Ty.Any [Ty.Number]) = some true) ∧
      ((unwrap Ty.String).isAny = false → Contains sampleCompare r Ty.String = some true) :=
  or_contains_arguments sampleCompare sampleCompare_keyOrder (Ty.Any [Ty.Number]) Ty.String
    rfl rfl rfl rfl rfl rfl
    (fun x h => by
      have e : x = [Ty.Number] := by injection h with h; exact h.symm
      subst e
      exact List.pairwise_singleton _ _)
    (fun y h => by cases h)

/-- C3, at the failing input `a = Any<number>`, `b = number`: `Or(a, b)` is
`Any<number>`, equal to `a`, and `Contains(Or(a, b), a)` is false, where
`Contains` is documented to return true if its first argument is a superset or
equal to the second. -/
theorem or_any_argument_not_contained :
    Or sampleCompare (Ty.Any [Ty.Number]) Ty.Number = some (Ty.Any [Ty.Number]) ∧
    Contains sampleCompare (Ty.Any [Ty.Number]) (Ty.Any [Ty.Number]) = some false :=
  ⟨rfl, rfl⟩

/-- Where `Or` does return the superset: for types `a` and `b` without nested
named types whose underlying types are not nil and not function types, with
`util.Compare` an order on keys, if `Contains(a, b)` holds and
`b` is not an Any then `Or(a, b)` is the underlying type of `a`; if `a` is the
empty Any then `Or(a, b)` is the empty Any; if `Contains(b, a)` holds and `a`
is not an Any then `Or(a, b)` is the underlying type of `b` when `b` is an Any
and otherwise the underlying type of `a`, which compares equal to `b`. -/
theorem or_returns_superset (uc : GoVal → GoVal → Int) (ko : KeyOrder uc) (a b : Ty)
    (hwa : noNestedNamed a = true) (hwb : noNestedNamed b = true)
    (ha : (unwrap a).isNil = false) (hfa : (unwrap a).isFunction = false)
    (hb : (unwrap b).isNil = false) (hfb : (unwrap b).isFunction = false) :
    (Contains uc a b = some true → (unwrap b).isAny = false → Or uc a b = some (unwrap a)) ∧
    (unwrap a = Ty.Any [] → Or uc a b = some (Ty.Any [])) ∧
    (Contains uc b a = some true → (unwrap a).isAny = false → (unwrap b).isAny = true →
      Or uc a b = some (unwrap b)) ∧
    (Contains uc b a = some true → (unwrap a).isAny = false → (unwrap b).isAny = false →
      Or uc a b = some (unwrap a) ∧ Compare uc (unwrap a) b = some 0) :=
  or_superset_aux uc ko a b hwa hwb ha hfa hb hfb

/-- An instance of `or_returns_superset` at `a = Any<number, string>`,
`b = string`: `a` contains `b` and `Or(a, b)` is `a`. -/
theorem or_returns_superset_witness :
    Contains sampleCompare (Ty.Any [Ty.Number, Ty.String]) Ty.String = some true ∧
    Or sampleCompare (Ty.Any [Ty.Number, Ty.String]) Ty.String =
      some (unwrap (Ty.Any [Ty.Number, Ty.String])) :=
  ⟨rfl, (or_returns_superset sampleCompare sampleCompare_keyOrder
    (Ty.Any [Ty.Number, Ty.String]) Ty.String rfl rfl rfl rfl rfl rfl).1 rfl rfl⟩

/-- C4, at the failing input `a = Any<Any<number>>`, `b = Any<number>`:
`Contains(a, b)` is true, so `a` is the superset, and `Or(a, b)` is
`Any<number, Any<number>>`, which has one element more than `a`, where `Or` is
documented to return the superset unchanged. -/
theorem or_superset_changed :
    Contains sampleCompare (Ty.Any [Ty.Any [Ty.Number]]) (Ty.Any [Ty.Number]) = some true ∧
    Or sampleCompare (Ty.Any [Ty.Any [Ty.Number]]) (Ty.Any [Ty.Number]) =
      some (Ty.Any [Ty.Number, Ty.Any [Ty.Number]]) ∧
    Or sampleCompare (Ty.Any [Ty.Any [Ty.Number]]) (Ty.Any [Ty.Number]) ≠
      some (Ty.Any [Ty.Any [Ty.Number]]) := by
  refine ⟨rfl, rfl, ?_⟩
  have e : Or sampleCompare (Ty.Any [Ty.Any [Ty.Number]]) (Ty.Any [Ty.Number]) =
      some (Ty.Any [Ty.Number, Ty.Any [Ty.Number]]) := rfl
  rw [e]
  intro h
  injection h with h
  injection h with h
  injection h with h1 h2
  cases h1

/-- C5, as amended: `Contains(A, b)` is true for every type `b` that is not a
function type. -/
theorem contains_A (uc : GoVal → GoVal → Int) (b : Ty) (hb : b.isFunction = false) :
    Contains uc A b = some true := by
  show Any.Contains uc [] b = some true
  unfold Any.Contains
  rw [if_neg (by simp [hb])]
  rfl

/-- Witness of C5 at the array type `array[any]`. -/
theorem contains_A_witness :
    (Ty.Array [] A).isFunction = false ∧ Contains sampleCompare A (Ty.Array [] A) = some true :=
  ⟨rfl, contains_A sampleCompare (Ty.Array [] A) rfl⟩

/-- C5 fails as stated: `Contains(A, b)` is false for the function type `b`
without arguments and result. -/
theorem contains_A_function_counterexample :
    Contains sampleCompare A (Ty.Function [] Ty.nil Ty.nil) = some false :=
  rfl

/-- C6: for types `a` and `b` without nested named types, and `util.Compare`
returning -1, 0 or 1, `Compare(a, b)` returns, without a panic, one of -1, 0
and 1. -/
theorem compare_returns_sign (uc : GoVal → GoVal → Int)
    (hu : ∀ x y, uc x y = -1 ∨ uc x y = 0 ∨ uc x y = 1) (a b : Ty)
    (ha : noNestedNamed a = true) (hb : noNestedNamed b = true) :
    ∃ c, Compare uc a b = some c ∧ (c = -1 ∨ c = 0 ∨ c = 1) :=
  ⟨cmp uc a b, Compare_eq_cmp uc ha hb, cmp_sign uc hu a b⟩

/-- Witness of C6 at two object types with a named value. -/
theorem compare_returns_sign_witness :
    ∃ c, Compare sampleCompare
        (Ty.Object [(GoVal.string "a", Ty.NamedType "x" "" Ty.Number)] none)
        (Ty.Object [(GoVal.string "bb", Ty.String)] (some (Ty.String, A))) = some c ∧
      (c = -1 ∨ c = 0 ∨ c = 1) :=
  compare_returns_sign sampleCompare sampleCompare_keyOrder.sign _ _ rfl rfl


/-- C7, as amended: for Any values `t` and `other` whose elements contain no
nested named types, with `util.Compare` an order on keys: if `t` or `other` is
empty the union is the empty Any; if both are non-empty and sorted in strictly
ascending order under `Compare`, `t.Union(other)` returns a list that is sorted
in strictly ascending order, and a type compares equal to an element of it
exactly when it compares equal to an element of `t` or of `other`. -/
theorem any_union_sorted (uc : GoVal → GoVal → Int) (ko : KeyOrder uc) (t other : List Ty)
    (hwt : ∀ x ∈ t, noNestedNamed x = true) (hwo : ∀ x ∈ other, noNestedNamed x = true) :
    ((t = [] ∨ other = []) → Any.Union uc t other = some []) ∧
    (t ≠ [] → other ≠ [] → StrictlyAscending uc t → StrictlyAscending uc other →
      ∃ m, Any.Union uc t other = some m ∧ StrictlyAscending uc m ∧
        ∀ x, noNestedNamed x = true →
          ((∃ y ∈ m, Compare uc y x = some 0) ↔
            ((∃ y ∈ t, Compare uc y x = some 0) ∨ (∃ y ∈ other, Compare uc y x = some 0)))) :=
  any_union_aux uc ko t other hwt hwo

/-- Witness of C7 at `t = Any<null, string>` and `other = Any<boolean,
string>`, whose union is `Any<null, boolean, string>`. -/
theorem any_union_sorted_witness :
    Any.Union sampleCompare [Ty.Null, Ty.String] [Ty.Boolean, Ty.String] =
      some [Ty.Null, Ty.Boolean, Ty.String] ∧
    ∃ m, Any.Union sampleCompare [Ty.Null, Ty.String] [Ty.Boolean, Ty.String] = some m ∧
      StrictlyAscending sampleCompare m ∧
        ∀ x, noNestedNamed x = true →
          ((∃ y ∈ m, Compare sampleCompare y x = some 0) ↔
            ((∃ y ∈ [Ty.Null, Ty.String], Compare sampleCompare y x = some 0) ∨
              (∃ y ∈ [Ty.Boolean, Ty.String], Compare sampleCompare y x = some 0))) :=
  ⟨rfl, (any_union_sorted sampleCompare sampleCompare_keyOrder [Ty.Null, Ty.String]
    [Ty.Boolean, Ty.String] (by decide) (by decide)).2 (by simp) (by simp)
    (by unfold StrictlyAscending; decide) (by unfold StrictlyAscending; decide)⟩

/-- C7 fails as stated: the one-element list of a string type named twice is
non-empty and sorted, and its union with itself panics in `Compare` and returns
nothing. -/
theorem any_union_nested_named_counterexample :
    StrictlyAscending sampleCompare [Ty.NamedType "a" "" (Ty.NamedType "b" "" Ty.String)] ∧
    Any.Union sampleCompare [Ty.NamedType "a" "" (Ty.NamedType "b" "" Ty.String)]
      [Ty.NamedType "a" "" (Ty.NamedType "b" "" Ty.String)] = none :=
  ⟨List.pairwise_singleton _ _, rfl⟩

/-- C8, amended: with `util.Compare` an order on keys, for the object type built
by `NewObject` from static properties with pairwise distinct keys, in any
order, `Select(k)` returns the value of the static property whose key compares
equal to `k` when there is one; otherwise it returns nil when there is no
dynamic property, and with a dynamic property whose key type has no nested
named types and a key `k` of a dynamic type that `TypeOf` has a case for,
`TypeOf(k)` and `Contains` return, and `Select(k)` returns the dynamic value
when the key type contains `TypeOf(k)` and nil when it does not. -/
theorem newObject_select (uc : GoVal → GoVal → Int) (ko : KeyOrder uc)
    (static : List (GoVal × Ty)) (dynamic : Option (Ty × Ty)) (k : GoVal)
    (hd : static.Pairwise (fun p q => uc p.1 q.1 ≠ 0)) :
    (∀ p ∈ static, uc p.1 k = 0 →
      (NewObject uc static dynamic).SelectProperty uc k = some p.2) ∧
    ((∀ p ∈ static, uc p.1 k ≠ 0) →
      (dynamic = none → (NewObject uc static dynamic).SelectProperty uc k = some Ty.nil) ∧
      (∀ key value, dynamic = some (key, value) → typeOfDefined k = true →
        noNestedNamed key = true →
        ∃ tpe c, TypeOf uc k = some tpe ∧ Contains uc key tpe = some c ∧
          (NewObject uc static dynamic).SelectProperty uc k =
            some (if c = true then value else Ty.nil))) := by
  obtain ⟨h1, h2⟩ := newObject_select_aux uc ko static dynamic k hd
  refine ⟨h1, fun hne => ⟨?_, ?_⟩⟩
  · intro hnone
    rw [h2 hne, hnone]; rfl
  · intro key value hsome hk hkey
    obtain ⟨tpe, ht, hw⟩ := typeOf_returns uc k hk
    obtain ⟨c, hc⟩ := contains_returns uc key tpe hkey hw
    refine ⟨tpe, c, ht, hc, ?_⟩
    rw [h2 hne, hsome]
    cases c <;> simp [selectDynamic, ht, hc]

/-- Witness of C8 at the object built from the properties `"bb": number` and
`"a": string`, passed out of order, with a dynamic property from numbers to
booleans: the key `"a"` selects the string type, the key 7 the dynamic value
and the key `"ccc"` nil. -/
theorem newObject_select_witness :
    (NewObject sampleCompare [(GoVal.string "bb", Ty.Number), (GoVal.string "a", Ty.String)]
      (some (Ty.Number, Ty.Boolean))).SelectProperty sampleCompare (GoVal.string "a") =
        some Ty.String ∧
    (NewObject sampleCompare [(GoVal.string "bb", Ty.Number), (GoVal.string "a", Ty.String)]
      (some (Ty.Number, Ty.Boolean))).SelectProperty sampleCompare (GoVal.number "7") =
        some Ty.Boolean ∧
    (NewObject sampleCompare [(GoVal.string "bb", Ty.Number), (GoVal.string "a", Ty.String)]
      (some (Ty.Number, Ty.Boolean))).SelectProperty sampleCompare (GoVal.string "ccc") =
        some Ty.nil := by
  refine ⟨?_, ?_, ?_⟩
  · exact (newObject_select sampleCompare sampleCompare_keyOrder
      [(GoVal.string "bb", Ty.Number), (GoVal.string "a", Ty.String)]
      (some (Ty.Number, Ty.Boolean)) (GoVal.string "a") (by decide)).1
      (GoVal.string "a", Ty.String) (by simp) (by decide)
  · obtain ⟨tpe, c, ht, hc, hs⟩ := ((newObject_select sampleCompare sampleCompare_keyOrder
      [(GoVal.string "bb", Ty.Number), (GoVal.string "a", Ty.String)]
      (some (Ty.Number, Ty.Boolean)) (GoVal.number "7") (by decide)).2 (by decide)).2
      Ty.Number Ty.Boolean rfl rfl rfl
    have e1 : tpe = Ty.Number := by
      have : TypeOf sampleCompare (GoVal.number "7") = some Ty.Number := rfl
      rw [this] at ht; injection ht with ht; exact ht.symm
    subst e1
    have e2 : c = true := by
      have : Contains sampleCompare Ty.Number Ty.Number = some true := rfl
      rw [this] at hc; injection hc with hc; exact hc.symm
    subst e2
    exact hs
  · obtain ⟨tpe, c, ht, hc, hs⟩ := ((newObject_select sampleCompare sampleCompare_keyOrder
      [(GoVal.string "bb", Ty.Number), (GoVal.string "a", Ty.String)]
      (some (Ty.Number, Ty.Boolean)) (GoVal.string "ccc") (by decide)).2 (by decide)).2
      Ty.Number Ty.Boolean rfl rfl rfl
    have e1 : tpe = Ty.String := by
      have : TypeOf sampleCompare (GoVal.string "ccc") = some Ty.String := rfl
      rw [this] at ht; injection ht with ht; exact ht.symm
    subst e1
    have e2 : c = false := by
      have : Contains sampleCompare Ty.Number Ty.String = some false := rfl
      rw [this] at hc; injection hc with hc; exact hc.symm
    subst e2
    exact hs

/-- C8 fails as stated: on the object type with a dynamic property from strings
to numbers and no static property, `Select` of a key of a Go type that `TypeOf`
has no case for, such as an `int`, panics in `TypeOf`; and with the key type
a string type named twice, `Select` of the key `"a"` panics in `Compare`. -/
theorem select_untyped_key_counterexample :
    (NewObject sampleCompare [] (some (Ty.String, Ty.Number))).SelectProperty sampleCompare
      GoVal.other = none ∧
    (NewObject sampleCompare []
      (some (Ty.NamedType "a" "" (Ty.NamedType "b" "" Ty.String), Ty.Number))).SelectProperty
        sampleCompare (GoVal.string "a") = none :=
  ⟨rfl, rfl⟩

theorem keysObjectLoop_string (uc : GoVal → GoVal → Int) :
    ∀ (keys : List GoVal) (tpe : Ty), (∀ k ∈ keys, ∃ s, k = GoVal.string s) →
      (tpe = Ty.nil ∨ tpe = Ty.String) →
      keysObjectLoop uc keys tpe = some (if keys.isEmpty then tpe else Ty.String)
  | [], tpe, _, _ => rfl
  | k :: rest, tpe, hk, ht => by
    obtain ⟨s, rfl⟩ := hk k (by simp)
    have ih := keysObjectLoop_string uc rest Ty.String (fun k hk' => hk k (by simp [hk']))
      (Or.inr rfl)
    have e : keysObjectLoop uc (GoVal.string s :: rest) tpe = keysObjectLoop uc rest Ty.String := by
      rcases ht with rfl | rfl <;> rfl
    rw [e, ih]
    cases rest <;> rfl

/-- Where `Keys` does return the string type: for an object type whose static
keys are all strings, whose dynamic property, if there is one, has the string
type as key type, and which has a static or a dynamic property. -/
theorem keys_object_string (uc : GoVal → GoVal → Int) (static : List (GoVal × Ty))
    (dynamic : Option (Ty × Ty)) (hk : ∀ p ∈ static, ∃ s, p.1 = GoVal.string s)
    (hne : static ≠ [] ∨ dynamic.isSome = true)
    (hdk : ∀ key value, dynamic = some (key, value) → unwrap key = Ty.String) :
    Keys uc (Ty.Object static dynamic) = some Ty.String := by
  have hloop := keysObjectLoop_string uc (Object.Keys static) Ty.nil (by
    intro k hk'
    obtain ⟨p, hp, rfl⟩ := List.mem_map.1 hk'
    exact hk p hp) (Or.inl rfl)
  cases dynamic with
  | none =>
    have e : Keys uc (Ty.Object static none) =
        match keysObjectLoop uc (Object.Keys static) .nil with
        | none => none
        | some tpe => some tpe := rfl
    have hs : static ≠ [] := by
      rcases hne with h | h
      · exact h
      · simp at h
    rw [e, hloop]
    cases static with
    | nil => exact absurd rfl hs
    | cons p ps => rfl
  | some p =>
    obtain ⟨key, value⟩ := p
    have hu := hdk key value rfl
    have e : Keys uc (Ty.Object static (some (key, value))) =
        match keysObjectLoop uc (Object.Keys static) .nil with
        | none => none
        | some tpe => orFrom uc 1 tpe (unwrap key) := rfl
    rw [e, hloop, hu]
    cases static <;> rfl

/-- An instance of `keys_object_string` at the object with the static property
`"a": number` and the dynamic property from strings to booleans. -/
theorem keys_object_string_witness :
    Keys sampleCompare (Ty.Object [(GoVal.string "a", Ty.Number)] (some (Ty.String, Ty.Boolean))) =
      some Ty.String :=
  keys_object_string sampleCompare [(GoVal.string "a", Ty.Number)]
    (some (Ty.String, Ty.Boolean)) (by simp) (Or.inr rfl)
    (fun key value h => by injection h with h; injection h with h1 h2; subst h1; rfl)

/-- C9, at the failing input: `Keys` of the object type built from the one
property with the number key 1 is the number type, and `Keys` of the object
type without properties is nil, where `Keys` is documented to return the
string type for every object. -/
theorem keys_object_number_key :
    Keys sampleCompare (NewObject sampleCompare [(GoVal.number "1", Ty.String)] none) =
      some Ty.Number ∧
    Keys sampleCompare (NewObject sampleCompare [] none) = some Ty.nil :=
  ⟨rfl, rfl⟩

/-- C10: `Array.Select(pos)` returns the static element at `pos` when
`0 <= pos < Len()`, the dynamic type when `pos >= Len()` and the dynamic type
is set, and nil in every other case, negative positions included; it always
returns and never indexes out of range. -/
theorem array_select (static : List Ty) (dynamic : Ty) (pos : Int) :
    (0 ≤ pos → pos < Array.Len static →
      ∃ t, static[pos.toNat]? = some t ∧ Array.Select static dynamic pos = some t) ∧
    (Array.Len static ≤ pos → dynamic.isNil = false →
      Array.Select static dynamic pos = some dynamic) ∧
    (Array.Len static ≤ pos → dynamic.isNil = true →
      Array.Select static dynamic pos = some Ty.nil) ∧
    (pos < 0 → Array.Select static dynamic pos = some Ty.nil) ∧
    (∃ t, Array.Select static dynamic pos = some t) := by
  unfold Array.Select Array.Len
  have key : 0 ≤ pos → pos < (static.length : Int) →
      ∃ t, static[pos.toNat]? = some t := by
    intro h1 h2
    have : pos.toNat < static.length := by omega
    exact ⟨static[pos.toNat], List.getElem?_eq_getElem this⟩
  refine ⟨?_, ?_, ?_, ?_, ?_⟩
  · intro h1 h2
    obtain ⟨t, ht⟩ := key h1 h2
    exact ⟨t, ht, by rw [if_pos h1, if_pos h2, ht]⟩
  · intro h1 h2
    have h0 : pos ≥ 0 := by omega
    rw [if_pos h0, if_neg (by omega)]
    simp [h2]
  · intro h1 h2
    have h0 : pos ≥ 0 := by omega
    rw [if_pos h0, if_neg (by omega)]
    simp [h2]
  · intro h
    rw [if_neg (by omega)]
  · by_cases h0 : pos ≥ 0
    · by_cases h1 : (static.length : Int) > pos
      · obtain ⟨t, ht⟩ := key h0 h1
        exact ⟨t, by rw [if_pos h0, if_pos h1, ht]⟩
      · rw [if_pos h0, if_neg h1]
        split <;> exact ⟨_, rfl⟩
    · rw [if_neg h0]; exact ⟨_, rfl⟩


/-! ### Function types with unwrapped names -/

theorem isNil_iff {t : Ty} : t.isNil = true ↔ t = Ty.nil := by
  cases t <;> simp [Ty.isNil]

theorem cmpList_map_unwrap (uc : GoVal → GoVal → Int) (ko : KeyOrder uc) :
    ∀ (l : List Ty), noNestedNamedList l = true → cmpList uc l (l.map unwrap) = 0
  | [], _ => rfl
  | t :: ts, h => by
    obtain ⟨h1, h2⟩ := wf_cons h
    rw [List.map_cons, cmpList_cons_cons, cmp_unwrap_right uc t h1, cmp_self uc ko,
      cmpList_map_unwrap uc ko ts h2]
    rfl

theorem noNestedNamedList_map_unwrap :
    ∀ (l : List Ty), noNestedNamedList l = true → noNestedNamedList (l.map unwrap) = true
  | [], _ => rfl
  | t :: ts, h => by
    obtain ⟨h1, h2⟩ := wf_cons h
    simp [noNestedNamedList, (unwrap_facts h1).2.1, noNestedNamedList_map_unwrap ts h2]

/-- A function type compares equal to the function type of its unwrapped
arguments, result and variadic type. -/
theorem compare_unwrapped_function (uc : GoVal → GoVal → Int) (ko : KeyOrder uc)
    (a : List Ty) (r v : Ty) (h : noNestedNamed (Ty.Function a r v) = true) :
    Compare uc (Ty.Function a r v) (Ty.Function (a.map unwrap) (unwrap r) (unwrap v)) = some 0 := by
  obtain ⟨ha, hr, hv⟩ := wf_function h
  have h2 : noNestedNamed (Ty.Function (a.map unwrap) (unwrap r) (unwrap v)) = true := by
    simp [noNestedNamed, noNestedNamedList_map_unwrap a ha, (unwrap_facts hr).2.1,
      (unwrap_facts hv).2.1]
  rw [compare_zero_iff uc h h2, cmp_function, List.length_map, cmpList_map_unwrap uc ko a ha,
    cmp_unwrap_right uc r hr, cmp_unwrap_right uc v hv, cmp_self uc ko, cmp_self uc ko]
  simp [lex, cmpInt]

end types

/-! ## The built-in registry -/

namespace ast

set_option maxRecDepth 100000 in
set_option maxHeartbeats 4000000 in
/-- Every default built-in is stored under its name. -/
theorem defaultBuiltins_lookup : ∀ b ∈ DefaultBuiltins, BuiltinMap b.Name = some b := by
  decide!

set_option maxRecDepth 100000 in
set_option maxHeartbeats 4000000 in
/-- The names of the default built-ins are pairwise distinct. -/
theorem defaultBuiltins_names_nodup : (DefaultBuiltins.map (fun b => b.Name)).Nodup := by
  decide!

set_option maxRecDepth 100000 in
set_option maxHeartbeats 4000000 in
/-- An infix of a default built-in is not the name of another one. -/
theorem defaultBuiltins_infix_ne_name :
    ∀ b ∈ DefaultBuiltins, ∀ c ∈ DefaultBuiltins, b.Infix = c.Name → b = c := by
  decide!

/-- C1: after package initialisation every built-in `b` of `DefaultBuiltins` is
found under its name, `BuiltinMap[b.Name]` is `b`; the names of
`DefaultBuiltins` are pairwise distinct, and an infix of one built-in is never
the name of a different built-in. -/
theorem builtinMap_lookup_name :
    (∀ b ∈ DefaultBuiltins, BuiltinMap b.Name = some b) ∧
    (DefaultBuiltins.map (fun b => b.Name)).Nodup ∧
    (∀ b ∈ DefaultBuiltins, ∀ c ∈ DefaultBuiltins, b.Infix = c.Name → b = c) :=
  ⟨defaultBuiltins_lookup, defaultBuiltins_names_nodup, defaultBuiltins_infix_ne_name⟩

/-- The method `HasDynamicRef` returns nothing exactly on an empty
`Reference`. -/
theorem hasDynamicRef_none_iff (isConstant : Term → Bool) (h : Head) :
    h.HasDynamicRef isConstant = none ↔ h.Reference = [] := by
  unfold Head.HasDynamicRef
  cases hr : h.Reference with
  | nil => simp [Ref.Dynamic]
  | cons t rest => cases t <;> simp [Ref.Dynamic]

/-- The method `DocKind` on every head: `PartialObjectDoc` when key and value are
both non-nil, `PartialSetDoc` when the key is non-nil and the value nil, and
with a nil key what `HasDynamicRef` decides, nothing when that panics. -/
theorem head_docKind_cases (isConstant : Term → Bool) (h : Head) :
    h.DocKind isConstant =
      match h.Key, h.Value with
      | some _, some _ => some DocKind.PartialObjectDoc
      | some _, none => some DocKind.PartialSetDoc
      | none, _ =>
        (h.HasDynamicRef isConstant).map
          (fun d => if d = true then DocKind.PartialObjectDoc else DocKind.CompleteDoc) := by
  cases hk : h.Key <;> cases hv : h.Value <;> simp [Head.DocKind, hk, hv] <;>
    cases h.HasDynamicRef isConstant <;> simp <;> rename_i b <;> cases b <;> simp

/-- C2, at the failing input: for the head with the name `p`, nil `Key` and
`Value` and no `Reference`, `DocKind` panics in `Ref.Dynamic` and returns no
document kind, where the claim gives `CompleteDoc`; for the same head with the
reference `[p]` it returns `CompleteDoc`. -/
theorem head_docKind_empty_reference (isConstant : Term → Bool) :
    (Head.mk "p" [] [] none none false false).DocKind isConstant = none ∧
    (Head.mk "p" [Term.Var "p"] [] none none false false).DocKind isConstant =
      some DocKind.CompleteDoc :=
  ⟨rfl, rfl⟩

/-! ### Claims on the flags and declarations of built-ins -/

/-- C11 fails as stated: on a built-in without declaration, such as
`&Builtin{Name: "eq"}`, `IsTargetPos` dereferences the nil `Decl` and panics,
for the position 0 as for every other. -/
theorem isTargetPos_nil_decl_counterexample :
    sampleUndeclared.Decl = none ∧ sampleUndeclared.IsTargetPos 0 = none ∧
    sampleUndeclared.IsTargetPos 2 = none :=
  ⟨rfl, rfl, rfl⟩

/-- C11, amended: for a built-in `b` whose `Decl` is not nil and points to the
declaration `decl`, and every integer `i`, `b.IsTargetPos(i)` is true exactly
when `i` is the number of declared arguments, and false for every other
`i`. -/
theorem isTargetPos_iff_arity (b : FullBuiltin) (decl : types.Function) (i : Int)
    (h : b.Decl = some decl) :
    (b.IsTargetPos i = some true ↔ i = (decl.args.length : Int)) ∧
    (b.IsTargetPos i = some false ↔ i ≠ (decl.args.length : Int)) := by
  simp only [FullBuiltin.IsTargetPos, h, types.Function.Arity, Option.some.injEq,
    decide_eq_true_eq, decide_eq_false_iff_not]
  constructor <;> constructor <;> intro h1 <;> [exact h1.symm; exact h1.symm; exact fun e => h1 e.symm; exact fun e => h1 e.symm]

/-- The instance of C11 at `plus` and position 2. -/
theorem isTargetPos_iff_arity_witness :
    samplePlus.IsTargetPos 2 = some true ∧ samplePlus.IsTargetPos 1 = some false :=
  ⟨(isTargetPos_iff_arity samplePlus _ 2 rfl).1.2 rfl,
   (isTargetPos_iff_arity samplePlus _ 1 rfl).2.2 (by decide)⟩

/-- C12: `b.NeedsBuiltInContext()` is the negation of `b.canSkipBctx`, and a
built-in whose `canSkipBctx` has the zero value reports that it needs the
built-in context. -/
theorem needsBuiltInContext_eq_not :
    (∀ b : Builtin, b.NeedsBuiltInContext = !b.canSkipBctx) ∧
    (∀ (name infixName : String) (relation deprecated nondeterministic : Bool),
      (Builtin.mk name infixName relation deprecated false nondeterministic).NeedsBuiltInContext
        = true) :=
  ⟨fun _ => rfl, fun _ _ _ _ _ => rfl⟩

set_option maxRecDepth 100000 in
set_option maxHeartbeats 4000000 in
/-- A default built-in is nondeterministic exactly when it is listed. -/
theorem nondeterministic_iff_listed :
    ∀ b ∈ DefaultBuiltins, b.IsNondeterministic = true ↔ b ∈ IgnoreDuringPartialEval := by
  decide!

set_option maxRecDepth 100000 in
set_option maxHeartbeats 4000000 in
/-- The listed built-ins are default built-ins with the flag set. -/
theorem listed_default :
    ∀ b ∈ IgnoreDuringPartialEval, b ∈ DefaultBuiltins ∧ b.IsNondeterministic = true := by
  decide!

/-- The names of the listed built-ins. -/
theorem listed_names :
    IgnoreDuringPartialEval.map (fun b => b.Name) =
      ["rand.intn", "uuid.rfc4122", "io.jwt.decode_verify", "io.jwt.encode_sign_raw",
       "io.jwt.encode_sign", "time.now_ns", "http.send", "opa.runtime", "net.lookup_ip_addr"] := by
  decide

/-- C13: the built-ins of `DefaultBuiltins` whose `Nondeterministic` flag is
true are exactly the built-ins of `IgnoreDuringPartialEval`, which are
rand.intn, uuid.rfc4122, io.jwt.decode_verify, io.jwt.encode_sign_raw,
io.jwt.encode_sign, time.now_ns, http.send, opa.runtime and
net.lookup_ip_addr: `IsNondeterministic` holds for each listed built-in, each
is a default built-in, and it holds for no other default built-in. -/
theorem nondeterministic_eq_ignoreDuringPartialEval :
    (∀ b ∈ DefaultBuiltins, b.IsNondeterministic = true ↔ b ∈ IgnoreDuringPartialEval) ∧
    (∀ b ∈ IgnoreDuringPartialEval, b ∈ DefaultBuiltins ∧ b.IsNondeterministic = true) ∧
    IgnoreDuringPartialEval.map (fun b => b.Name) =
      ["rand.intn", "uuid.rfc4122", "io.jwt.decode_verify", "io.jwt.encode_sign_raw",
       "io.jwt.encode_sign", "time.now_ns", "http.send", "opa.runtime", "net.lookup_ip_addr"] :=
  ⟨nondeterministic_iff_listed, listed_default, listed_names⟩

set_option maxRecDepth 100000 in
set_option maxHeartbeats 4000000 in
/-- Two default built-ins with the same non-empty infix are the same built-in or
the two membership built-ins. -/
theorem infix_shared_aux :
    ∀ b ∈ DefaultBuiltins, ∀ c ∈ DefaultBuiltins, b.Infix ≠ "" → b.Infix = c.Infix →
      b = c ∨ ((b = Member ∨ b = MemberWithKey) ∧ (c = Member ∨ c = MemberWithKey)) := by
  decide!

set_option maxRecDepth 100000 in
set_option maxHeartbeats 4000000 in
/-- The two membership built-ins are default built-ins. -/
theorem member_default : Member ∈ DefaultBuiltins ∧ MemberWithKey ∈ DefaultBuiltins := by
  decide!

/-- C14, as stated, fails: `Member` and `MemberWithKey` are two distinct default
built-ins with the same non-empty infix `in`. -/
theorem infix_in_shared_counterexample :
    ¬ (∀ b ∈ DefaultBuiltins, ∀ c ∈ DefaultBuiltins, b ≠ c → b.Infix ≠ "" →
        b.Infix ≠ c.Infix) := by
  intro h
  exact h Member member_default.1 MemberWithKey member_default.2 (by decide) (by decide)
    (by decide)

/-- C14, amended: two distinct built-ins of `DefaultBuiltins` with the same
non-empty `Infix` are `Member` and `MemberWithKey`, which share the infix
`in`. -/
theorem infix_unique_except_in (b c : Builtin) (hb : b ∈ DefaultBuiltins)
    (hc : c ∈ DefaultBuiltins) (hne : b.Infix ≠ "") (heq : b.Infix = c.Infix) :
    b = c ∨ ((b = Member ∨ b = MemberWithKey) ∧ (c = Member ∨ c = MemberWithKey)) :=
  infix_shared_aux b hb c hc hne heq

/-- The instance of C14 at `Plus` and at the membership built-ins. -/
theorem infix_unique_except_in_witness :
    (Plus = Plus ∨ ((Plus = Member ∨ Plus = MemberWithKey) ∧
      (Plus = Member ∨ Plus = MemberWithKey))) ∧
    (Member = MemberWithKey ∨ ((Member = Member ∨ Member = MemberWithKey) ∧
      (MemberWithKey = Member ∨ MemberWithKey = MemberWithKey))) :=
  ⟨infix_unique_except_in Plus Plus (by decide) (by decide) (by decide) rfl,
   infix_unique_except_in Member MemberWithKey member_default.1 member_default.2 (by decide) rfl⟩

/-- The copy `Minimal` returns, for a declaration that is not variadic or has no
result. -/
theorem minimal_aux (b : FullBuiltin) (decl : types.Function) (h : b.Decl = some decl)
    (hv : decl.variadic.isNil = true ∨ (types.unwrap decl.result).isNil = true) :
    b.Minimal = some { b with
      Decl := some ⟨decl.args.map types.unwrap, types.unwrap decl.result,
        types.unwrap decl.variadic⟩
      Categories := none
      Description := "" } := by
  unfold FullBuiltin.Minimal
  rw [h]
  simp only [types.Function.FuncArgs, types.Function.Args, types.Function.Result]
  cases hu : (types.unwrap decl.variadic).isNil
  · have hr : (types.unwrap decl.result).isNil = true := by
      rcases hv with hv | hv
      · rw [types.isNil_iff.1 hv] at hu
        simp [types.unwrap, types.Ty.isNil] at hu
      · exact hv
    simp [types.NewVariadicFunction, (types.isNil_iff.1 hr), types.Ty.isNil]
  · simp [types.NewFunction, (types.isNil_iff.1 hu), types.Ty.isNil]

/-- C16 fails as stated: for the built-in whose one argument is a string type
named twice, `Minimal` returns a built-in whose argument is the string type
named once, and `types.Compare` of the two declarations panics. -/
theorem minimal_nested_named_counterexample :
    ∃ m d, sampleNestedNamed.Minimal = some m ∧ m.Decl = some d ∧
      d.args = [types.Ty.NamedType "b" "" types.Ty.String] ∧
      types.Compare types.sampleCompare
        (types.Ty.Function
          [types.Ty.NamedType "a" "" (types.Ty.NamedType "b" "" types.Ty.String)]
          types.Ty.Boolean types.Ty.nil) d.toType = none :=
  ⟨_, _, rfl, rfl, rfl, rfl⟩

/-- C16, amended: for a built-in `b` whose declaration `decl` is not nil and is
not variadic or has no result, `b.Minimal()` returns a pointer to a new
built-in with the same `Name`, `Infix`, `Relation`, `Nondeterministic`,
`deprecated` and `canSkipBctx`, with an empty `Description` and nil
`Categories`, whose `Decl` holds the arguments, the result and the variadic
type of `decl` with a top-level `NamedType` replaced by its underlying type;
it has the same arity, and it equals `decl` under `types.Compare` when `decl`
has no nested named types, `util.Compare` being an order on keys. The built-in
`b` points to and every other built-in in memory are left unchanged. -/
theorem minimal_strips_names (uc : types.GoVal → types.GoVal → Int) (ko : types.KeyOrder uc)
    (s : BuiltinStore) (b : BuiltinPtr) (decl : types.Function) (hb : b < s.next)
    (h : (s.cells b).Decl = some decl)
    (hv : decl.variadic.isNil = true ∨ (types.unwrap decl.result).isNil = true) :
    ∃ s' r d, s.Minimal b = some (s', r) ∧ (s'.cells r).Decl = some d ∧
      (s'.cells r).Name = (s.cells b).Name ∧ (s'.cells r).Infix = (s.cells b).Infix ∧
      (s'.cells r).Relation = (s.cells b).Relation ∧
      (s'.cells r).Nondeterministic = (s.cells b).Nondeterministic ∧
      (s'.cells r).deprecated = (s.cells b).deprecated ∧
      (s'.cells r).canSkipBctx = (s.cells b).canSkipBctx ∧
      (s'.cells r).Description = "" ∧ (s'.cells r).Categories = none ∧
      d.args = decl.args.map types.unwrap ∧ d.result = types.unwrap decl.result ∧
      d.variadic = types.unwrap decl.variadic ∧ d.Arity = decl.Arity ∧
      (types.noNestedNamed decl.toType = true →
        types.Compare uc decl.toType d.toType = some 0) ∧
      r ≠ b ∧ s'.cells b = s.cells b ∧ (∀ p, p ≠ r → s'.cells p = s.cells p) := by
  have hm := minimal_aux (s.cells b) decl h hv
  refine ⟨{ cells := fun p => if p = s.next then
              { s.cells b with
                Decl := some ⟨decl.args.map types.unwrap, types.unwrap decl.result,
                  types.unwrap decl.variadic⟩
                Categories := none
                Description := "" }
            else s.cells p,
            next := s.next + 1 }, s.next,
    ⟨decl.args.map types.unwrap, types.unwrap decl.result, types.unwrap decl.variadic⟩,
    by simp only [BuiltinStore.Minimal, hm], by simp, by simp, by simp, by simp, by simp,
    by simp, by simp, by simp, by simp, rfl, rfl, rfl, by simp [types.Function.Arity],
    fun hn => types.compare_unwrapped_function uc ko decl.args decl.result decl.variadic hn,
    fun e => absurd (e ▸ hb) (Nat.lt_irrefl _), ?_, ?_⟩
  · have hne : b ≠ s.next := Nat.ne_of_lt hb
    simp [hne]
  · intro p hp
    simp [hp]

/-- The instance of C16 at a store of three built-ins `plus` with named
arguments. -/
theorem minimal_strips_names_witness :
    ∃ s' r d, sampleBuiltinStore.Minimal 1 = some (s', r) ∧ (s'.cells r).Decl = some d ∧
      (s'.cells r).Name = "plus" ∧ (s'.cells r).Description = "" ∧
      (s'.cells r).Categories = none ∧
      d.args = [types.Ty.Number, types.Ty.Number] ∧ d.result = types.Ty.Number ∧
      d.variadic = types.Ty.nil ∧
      types.Compare types.sampleCompare
        (types.Ty.Function
          [types.Ty.NamedType "x" "" types.Ty.Number, types.Ty.NamedType "y" "" types.Ty.Number]
          (types.Ty.NamedType "z" "the sum" types.Ty.Number) types.Ty.nil)
        d.toType = some 0 ∧
      r ≠ 1 ∧ s'.cells 1 = samplePlus := by
  obtain ⟨s', r, d, h1, h2, h3, -, -, -, -, -, h9, h10, h11, h12, h13, -, h15, h16, h17, -⟩ :=
    minimal_strips_names types.sampleCompare types.sampleCompare_keyOrder sampleBuiltinStore 1
      _ (by decide) rfl (Or.inl rfl)
  exact ⟨s', r, d, h1, h2, h3, h9, h10, h11, h12, h13, h15 rfl, h16, h17⟩

/-! ### Claims on expressions and heads -/

theorem wrapInt_of_range {x : Int} (h1 : -2 ^ 63 ≤ x) (h2 : x < 2 ^ 63) : wrapInt x = x := by
  unfold wrapInt
  have e : (x + 2 ^ 63) % 2 ^ 64 = x + 2 ^ 63 :=
    Int.emod_eq_of_lt (by omega) (by omega)
  omega

/-- C15: for every built-in `b` and operand list `ops`, `e = b.Expr(ops...)` is a
call expression that is not negated and has no with modifiers, `e.Operator()`
is `b.Ref()`, `e.Operands()` is `ops`, and `e.Operand(i)` is `ops[i]` for
every position `i` of `ops`; the term slice of `len(ops) + 1` elements is a Go
slice, whose length is an `int`. -/
theorem expr_of_builtin (b : Builtin) (ops : List Term) :
    (b.Expr ops).IsCall = true ∧ (b.Expr ops).Negated = false ∧ (b.Expr ops).With = [] ∧
    (b.Expr ops).Operator = some b.Ref ∧ (b.Expr ops).Operands = some ops ∧
    ((ops.length : Int) + 1 < 2 ^ 63 → ∀ (i : Nat) (h : i < ops.length),
      (b.Expr ops).Operand i = some (some (ops.get ⟨i, h⟩))) := by
  refine ⟨rfl, rfl, rfl, rfl, rfl, ?_⟩
  intro hlen i h
  have hw : wrapInt ((i : Int) + 1) = (i : Int) + 1 :=
    wrapInt_of_range (by omega) (by omega)
  have h1 : ((i : Int) + 1 < ((Term.Ref b.Ref :: ops).length : Int)) := by
    simp only [List.length_cons, Nat.cast_add, Nat.cast_one]
    omega
  have h2 : (0 : Int) ≤ (i : Int) + 1 := by omega
  have h3 : ((i : Int) + 1).toNat = i + 1 := by omega
  simp only [Expr.Operand, Builtin.Expr, Expr.Terms, hw, if_pos h1, if_pos h2, h3,
    List.getElem?_cons_succ, List.getElem?_eq_getElem h, List.get_eq_getElem]

/-- The instance of C15 at `plus` with the operands `x` and `1`, and at
`time.now_ns` without operands. -/
theorem expr_of_builtin_witness :
    ((Plus.Expr [Term.Var "x", Term.Number "1"]).IsCall = true ∧
      (Plus.Expr [Term.Var "x", Term.Number "1"]).Operator = some Plus.Ref ∧
      (Plus.Expr [Term.Var "x", Term.Number "1"]).Operands
        = some [Term.Var "x", Term.Number "1"] ∧
      (Plus.Expr [Term.Var "x", Term.Number "1"]).Operand (1 : Nat)
        = some (some (Term.Number "1"))) ∧
    ((NowNanos.Expr []).IsCall = true ∧ (NowNanos.Expr []).Negated = false ∧
      (NowNanos.Expr []).With = [] ∧
      (NowNanos.Expr []).Operator = some [Term.Var "time", Term.String "now_ns"] ∧
      (NowNanos.Expr []).Operands = some []) := by
  obtain ⟨p1, -, -, p4, p5, p6⟩ := expr_of_builtin Plus [Term.Var "x", Term.Number "1"]
  obtain ⟨n1, n2, n3, n4, n5, -⟩ := expr_of_builtin NowNanos []
  exact ⟨⟨p1, p4, p5, p6 (by decide) 1 (by decide)⟩, n1, n2, n3, n4, n5⟩

/-- The sum `pos + 1` wraps around at the largest Go `int`, and the index
expression panics. -/
theorem operand_maxInt_panics :
    (Plus.Expr [Term.Var "x", Term.Number "1"]).Operand (2 ^ 63 - 1) = none := by
  rfl

/-- The reference of a name with a dot, evaluated. -/
theorem ref_of_dotted_name :
    JWTDecodeVerify.Ref = [Term.Var "io", Term.String "jwt", Term.String "decode_verify"] := by
  rfl

/-- C17: `NewHead(name)` has `Name = name`, `Reference = [name]` and nil `Key`
and `Value`; `NewHead(name, k)` has in addition `Key = k`; `NewHead(name, k, v)`
has `Key = k`, `Value = v`, and its `Reference` is `[name, k]` when `k` and `v`
are both non-nil and `[name]` otherwise. -/
theorem newHead_fields (name : String) :
    ((NewHead name []).Name = name ∧ (NewHead name []).Reference = [Term.Var name] ∧
      (NewHead name []).Key = none ∧ (NewHead name []).Value = none) ∧
    (∀ k : Option Term, (NewHead name [k]).Name = name ∧
      (NewHead name [k]).Reference = [Term.Var name] ∧
      (NewHead name [k]).Key = k ∧ (NewHead name [k]).Value = none) ∧
    (∀ k v : Option Term, (NewHead name [k, v]).Name = name ∧
      (NewHead name [k, v]).Key = k ∧ (NewHead name [k, v]).Value = v ∧
      (NewHead name [k, v]).Reference =
        (match k, v with
         | some key, some _ => [Term.Var name, key]
         | _, _ => [Term.Var name]) ∧
      ((NewHead name [k, v]).Reference.length = 2 ↔ k.isSome = true ∧ v.isSome = true)) := by
  refine ⟨⟨rfl, rfl, rfl, rfl⟩, fun k => ⟨rfl, rfl, rfl, rfl⟩, fun k v => ?_⟩
  cases k <;> cases v <;> simp [NewHead, Ref.Append]

/-! ### The body index invariant -/

theorem setIndex_index (e : Expr) (i : Int) : (e.setIndex i).Index = i := by
  cases e; rfl

theorem setIndex_setIndex (e : Expr) (i j : Int) : (e.setIndex i).setIndex j = e.setIndex j := by
  cases e; rfl

theorem store_setIndex_same (s : Store) (p : ExprPtr) (i : Int) :
    (s.setIndex p i p).Index = i := by
  simp [Store.setIndex, setIndex_index]

theorem store_setIndex_other (s : Store) {p q : ExprPtr} (i : Int) (h : q ≠ p) :
    s.setIndex p i q = s q := by
  simp [Store.setIndex, h]

theorem store_setIndex_reset (s : Store) (p q : ExprPtr) (i : Int) :
    (s.setIndex p i q).setIndex 0 = (s q).setIndex 0 := by
  unfold Store.setIndex
  split_ifs
  · exact setIndex_setIndex _ _ _
  · rfl

/-- The loop of `NewBody` on distinct pointers gives position `i` of the rest
the index `k + i`, and changes nothing else. -/
theorem newBodyLoop_spec : ∀ (exprs : List ExprPtr) (s : Store) (k : Nat), exprs.Nodup →
    (∀ (i : Nat) (h : i < exprs.length),
      (newBodyLoop s exprs k (exprs.get ⟨i, h⟩)).Index = ((k + i : Nat) : Int)) ∧
    (∀ p, p ∉ exprs → newBodyLoop s exprs k p = s p) ∧
    (∀ p, (newBodyLoop s exprs k p).setIndex 0 = (s p).setIndex 0)
  | [], s, k, _ => ⟨fun i h => absurd h (by simp), fun _ _ => rfl, fun _ => rfl⟩
  | p :: ps, s, k, hnd => by
    obtain ⟨hp, hps⟩ := List.nodup_cons.1 hnd
    obtain ⟨ih1, ih2, ih3⟩ := newBodyLoop_spec ps (s.setIndex p k) (k + 1) hps
    refine ⟨?_, ?_, ?_⟩
    · intro i h
      cases i with
      | zero =>
        show (newBodyLoop (s.setIndex p k) ps (k + 1) p).Index = _
        rw [ih2 p hp, store_setIndex_same]
        rfl
      | succ j =>
        have := ih1 j (by simpa using h)
        show (newBodyLoop (s.setIndex p k) ps (k + 1) (ps.get ⟨j, _⟩)).Index = _
        rw [this]
        congr 1
        omega
    · intro q hq
      show newBodyLoop (s.setIndex p k) ps (k + 1) q = s q
      rw [ih2 q (fun h => hq (List.mem_cons_of_mem _ h)),
        store_setIndex_other s _ (fun h => hq (by rw [h]; exact List.mem_cons_self _ _))]
    · intro q
      show (newBodyLoop (s.setIndex p k) ps (k + 1) q).setIndex 0 = _
      rw [ih3 q, store_setIndex_reset]

/-- The mutator `Append`: one more expression, `expr` last with the old length
as its index, and the invariant kept when `expr` is a new pointer. -/
theorem append_aux (s : Store) (body : List ExprPtr) (e : ExprPtr) :
    (Body.Append s body e).2 = body ++ [e] ∧
    (Body.Append s body e).2.length = body.length + 1 ∧
    (Body.Append s body e).2.getLast? = some e ∧
    ((Body.Append s body e).1 e).Index = body.length ∧
    (∀ p, p ≠ e → (Body.Append s body e).1 p = s p) ∧
    (e ∉ body → IndexInvariant s body →
      IndexInvariant (Body.Append s body e).1 (Body.Append s body e).2) := by
  refine ⟨rfl, by simp [Body.Append], by simp [Body.Append], store_setIndex_same _ _ _,
    fun p hp => store_setIndex_other s _ hp, ?_⟩
  intro he hinv i hi
  simp only [Body.Append, List.length_append, List.length_singleton] at hi ⊢
  rcases Nat.lt_succ_iff_lt_or_eq.1 hi with h | h
  · have hne : body.get ⟨i, h⟩ ≠ e := fun h' => he (h' ▸ List.get_mem body i h)
    have h3 := hinv i h
    simp only [List.get_eq_getElem] at hne h3
    simp only [List.get_eq_getElem, List.getElem_append_left h]
    rw [store_setIndex_other s _ hne]
    exact h3
  · subst h
    simp [store_setIndex_same]

/-- The mutator `Set` on a position of the body. -/
theorem set_aux (s : Store) (body : List ExprPtr) (e : ExprPtr) (pos : Nat)
    (h : pos < body.length) :
    ∃ s' body', Body.Set s body e pos = some (s', body') ∧ body'.length = body.length ∧
      body'[pos]? = some e ∧ (s' e).Index = pos ∧
      (∀ k, k ≠ pos → body'[k]? = body[k]?) ∧
      (∀ p, p ≠ e → s' p = s p) ∧
      ((∀ (k : Nat) (hk : k < body.length), k ≠ pos → body.get ⟨k, hk⟩ ≠ e) →
        IndexInvariant s body → IndexInvariant s' body') := by
  have h1 : (0 : Int) ≤ (pos : Int) ∧ (pos : Int) < (body.length : Int) := by omega
  refine ⟨s.setIndex e pos, body.set pos e, ?_, by simp, ?_, store_setIndex_same _ _ _, ?_,
    fun p hp => store_setIndex_other s _ hp, ?_⟩
  · simp [Body.Set, h1]
  · simp [List.getElem?_set_self h]
  · intro k hk
    simp [List.getElem?_set_ne (Ne.symm hk)]
  · intro hne hinv i hi
    have hi' : i < body.length := by simpa using hi
    by_cases hip : i = pos
    · subst hip
      simp [store_setIndex_same]
    · have h2 := hne i hi' hip
      simp only [List.get_eq_getElem, List.getElem_set_ne (Ne.symm hip)] at h2 ⊢
      rw [store_setIndex_other s _ h2]
      simpa using hinv i hi'


/-- C18, as stated, fails: `Set` with an expression that the body already holds
at another position changes the `Index` there. In the body of the pointers 0
and 1, with the indices 0 and 1, `Set` of pointer 0 at position 1 leaves
pointer 0 at position 0, with the index 1. -/
theorem set_alias_counterexample :
    IndexInvariant sampleStore [0, 1] ∧
    ∃ s' body', Body.Set sampleStore [0, 1] 0 1 = some (s', body') ∧
      body'[0]? = some 0 ∧ (sampleStore 0).Index = 0 ∧ (s' 0).Index = 1 ∧
      ¬ IndexInvariant s' body' := by
  refine ⟨?_, sampleStore.setIndex 0 1, [0, 0], rfl, rfl, rfl, rfl, ?_⟩
  · intro i h
    have h2 : i < 2 := h
    interval_cases i <;> rfl
  · intro hinv
    have := hinv 0 (by decide)
    exact absurd this (by decide)

/-- C18, amended: `NewBody(exprs...)` establishes the body index invariant for
every list of distinct expression pointers, returns the same pointers in the
same order and changes at most the `Index` of an expression; `body.Append(e)`
gives a body with one more expression whose last is `e` with `Index` the old
length, and keeps the invariant when `e` is not already in the body;
`body.Set(e, pos)` with `pos` inside the body puts `e` with `Index` `pos` at
position `pos`, leaves the pointer at every other position and every
expression other than `e` as they were, and keeps the invariant when `e` is at
no other position of the body. -/
theorem body_index_invariant (s : Store) (exprs body : List ExprPtr) (e : ExprPtr) :
    (exprs.Nodup →
      (NewBody s exprs).2 = exprs ∧ IndexInvariant (NewBody s exprs).1 (NewBody s exprs).2 ∧
      ∀ p, ((NewBody s exprs).1 p).setIndex 0 = (s p).setIndex 0) ∧
    ((Body.Append s body e).2 = body ++ [e] ∧
      (Body.Append s body e).2.length = body.length + 1 ∧
      (Body.Append s body e).2.getLast? = some e ∧
      ((Body.Append s body e).1 e).Index = body.length ∧
      (∀ p, p ≠ e → (Body.Append s body e).1 p = s p) ∧
      (e ∉ body → IndexInvariant s body →
        IndexInvariant (Body.Append s body e).1 (Body.Append s body e).2)) ∧
    (∀ (pos : Nat), pos < body.length →
      ∃ s' body', Body.Set s body e pos = some (s', body') ∧ body'.length = body.length ∧
        body'[pos]? = some e ∧ (s' e).Index = pos ∧
        (∀ k, k ≠ pos → body'[k]? = body[k]?) ∧
        (∀ p, p ≠ e → s' p = s p) ∧
        ((∀ (k : Nat) (hk : k < body.length), k ≠ pos → body.get ⟨k, hk⟩ ≠ e) →
          IndexInvariant s body → IndexInvariant s' body')) := by
  refine ⟨fun hnd => ⟨rfl, ?_, (newBodyLoop_spec exprs s 0 hnd).2.2⟩, append_aux s body e,
    fun pos h => set_aux s body e pos h⟩
  intro i h
  have := (newBodyLoop_spec exprs s 0 hnd).1 i h
  simpa [NewBody] using this

/-- The instance of C18 at the pointers 3 and 5 for `NewBody`, and at the body of
the pointers 0 and 1 with the new pointer 7 for `Append` and `Set`. -/
theorem body_index_invariant_witness :
    IndexInvariant (NewBody sampleStore [3, 5]).1 (NewBody sampleStore [3, 5]).2 ∧
    IndexInvariant (Body.Append sampleStore [0, 1] 7).1 (Body.Append sampleStore [0, 1] 7).2 ∧
    ∃ s' body', Body.Set sampleStore [0, 1] 7 1 = some (s', body') ∧
      body'[1]? = some 7 ∧ (s' 7).Index = 1 ∧ body'[0]? = some 0 ∧ (s' 0).Index = 0 := by
  have hinv : IndexInvariant sampleStore [0, 1] := by
    intro i h
    have h2 : i < 2 := h
    interval_cases i <;> rfl
  obtain ⟨h1, h2, h3⟩ := body_index_invariant sampleStore [3, 5] [0, 1] 7
  refine ⟨(h1 (by decide)).2.1, h2.2.2.2.2.2 (by decide) hinv, ?_⟩
  obtain ⟨s', body', e1, -, e3, e4, e5, e6, -⟩ := h3 1 (by decide)
  refine ⟨s', body', e1, e3, e4, ?_, ?_⟩
  · rw [e5 0 (by decide)]; rfl
  · rw [e6 0 (by decide)]; rfl

/-! ### Rule sets -/

theorem ruleSet_eq_foldl (ruleEqual : Rule → Rule → Bool) (mod : Module) (name : String) :
    mod.RuleSet ruleEqual name = mod.Rules.foldl (ruleSetStep ruleEqual name) [] := rfl

theorem ruleSetStep_cases (ruleEqual : Rule → Rule → Bool) (name : String) (rs : RuleSet)
    (rule : Rule) :
    (ruleSetStep ruleEqual name rs rule = rs ∧
      (rule.Head.Name = name → rs.any (fun exist => ruleEqual exist rule) = true)) ∨
    (ruleSetStep ruleEqual name rs rule = rs ++ [rule] ∧ rule.Head.Name = name ∧
      rs.any (fun exist => ruleEqual exist rule) = false) := by
  unfold ruleSetStep RuleSet.Add Var.Equal
  by_cases h1 : rule.Head.Name = name
  · cases h2 : rs.any (fun exist => ruleEqual exist rule)
    · right; simp [h1]
    · left; simp [h1]
  · left; simp [h1]

theorem foldl_step_extends (ruleEqual : Rule → Rule → Bool) (name : String) :
    ∀ (l : List Rule) (acc : RuleSet), acc <+: l.foldl (ruleSetStep ruleEqual name) acc
  | [], acc => List.prefix_refl acc
  | r :: l, acc => by
    rw [List.foldl_cons]
    refine List.IsPrefix.trans ?_ (foldl_step_extends ruleEqual name l _)
    rcases ruleSetStep_cases ruleEqual name acc r with h | h
    · rw [h.1]
    · rw [h.1]; exact List.prefix_append _ _

theorem foldl_step_sublist (ruleEqual : Rule → Rule → Bool) (name : String) :
    ∀ (l src : List Rule) (acc : RuleSet),
      acc.Sublist (src.filter (fun r => decide (r.Head.Name = name))) →
      (l.foldl (ruleSetStep ruleEqual name) acc).Sublist
        ((src ++ l).filter (fun r => decide (r.Head.Name = name)))
  | [], src, acc, h => by simpa using h
  | r :: l, src, acc, h => by
    rw [List.foldl_cons]
    have := foldl_step_sublist ruleEqual name l (src ++ [r]) (ruleSetStep ruleEqual name acc r) ?_
    · simpa using this
    · rw [List.filter_append]
      rcases ruleSetStep_cases ruleEqual name acc r with h1 | h1
      · rw [h1.1]
        exact h.trans (List.sublist_append_left _ _)
      · rw [h1.1]
        refine List.Sublist.append h ?_
        simp [h1.2.1]

theorem foldl_step_pairwise (ruleEqual : Rule → Rule → Bool) (name : String) :
    ∀ (l : List Rule) (acc : RuleSet), acc.Pairwise (fun a b => ruleEqual a b = false) →
      (l.foldl (ruleSetStep ruleEqual name) acc).Pairwise (fun a b => ruleEqual a b = false)
  | [], _, h => h
  | r :: l, acc, h => by
    rw [List.foldl_cons]
    apply foldl_step_pairwise ruleEqual name l
    rcases ruleSetStep_cases ruleEqual name acc r with h1 | h1
    · rw [h1.1]; exact h
    · rw [h1.1, List.pairwise_append]
      refine ⟨h, List.pairwise_singleton _ _, ?_⟩
      intro a ha b hb
      rw [List.mem_singleton] at hb
      subst hb
      have := h1.2.2
      simp only [List.any_eq_false, Bool.not_eq_true] at this
      exact this a ha

/-- The rule set of a module, rule by rule. -/
theorem ruleSet_aux (ruleEqual : Rule → Rule → Bool) (mod : Module) (name : String) :
    (mod.RuleSet ruleEqual name).Sublist
      (mod.Rules.filter (fun r => decide (r.Head.Name = name))) ∧
    (mod.RuleSet ruleEqual name).Pairwise (fun a b => ruleEqual a b = false) ∧
    (∀ (earlier later : List Rule) (rule : Rule), mod.Rules = earlier ++ rule :: later →
      rule.Head.Name = name →
      Module.RuleSet ruleEqual ⟨earlier⟩ name <+: mod.RuleSet ruleEqual name ∧
      Module.RuleSet ruleEqual ⟨earlier ++ [rule]⟩ name <+: mod.RuleSet ruleEqual name ∧
      Module.RuleSet ruleEqual ⟨earlier ++ [rule]⟩ name =
        if (Module.RuleSet ruleEqual ⟨earlier⟩ name).any (fun exist => ruleEqual exist rule)
        then Module.RuleSet ruleEqual ⟨earlier⟩ name
        else Module.RuleSet ruleEqual ⟨earlier⟩ name ++ [rule]) := by
  refine ⟨?_, ?_, ?_⟩
  · have := foldl_step_sublist ruleEqual name mod.Rules [] [] (by simp)
    simpa [ruleSet_eq_foldl] using this
  · exact foldl_step_pairwise ruleEqual name mod.Rules [] List.Pairwise.nil
  · intro earlier later rule hsplit hname
    simp only [ruleSet_eq_foldl, hsplit, List.foldl_append, List.foldl_cons, List.foldl_nil]
    refine ⟨?_, foldl_step_extends ruleEqual name later _, ?_⟩
    · refine List.IsPrefix.trans ?_ (foldl_step_extends ruleEqual name later _)
      rcases ruleSetStep_cases ruleEqual name (earlier.foldl (ruleSetStep ruleEqual name) []) rule
        with h | h
      · rw [h.1]
      · rw [h.1]; exact List.prefix_append _ _
    · rcases ruleSetStep_cases ruleEqual name (earlier.foldl (ruleSetStep ruleEqual name) []) rule
        with h | h
      · rw [h.1, if_pos (h.2 hname)]
      · rw [h.1, h.2.2]; rfl


/-- C19: for every module `mod` and name, `mod.RuleSet(name)` holds rules of
`mod.Rules` whose `Head.Name` equals `name`, in their declaration order; no
rule in it is `Equal` to an earlier one in it; and a rule of the module with
that name is added at the end of the rules selected before it exactly when
none of them is `Equal` to it, and omitted otherwise. The rules selected up to
any point stay at the front of the result. -/
theorem module_ruleSet (ruleEqual : Rule → Rule → Bool) (mod : Module) (name : String) :
    (mod.RuleSet ruleEqual name).Sublist
      (mod.Rules.filter (fun r => decide (r.Head.Name = name))) ∧
    (mod.RuleSet ruleEqual name).Pairwise (fun a b => ruleEqual a b = false) ∧
    (∀ (earlier later : List Rule) (rule : Rule), mod.Rules = earlier ++ rule :: later →
      rule.Head.Name = name →
      Module.RuleSet ruleEqual ⟨earlier⟩ name <+: mod.RuleSet ruleEqual name ∧
      Module.RuleSet ruleEqual ⟨earlier ++ [rule]⟩ name <+: mod.RuleSet ruleEqual name ∧
      Module.RuleSet ruleEqual ⟨earlier ++ [rule]⟩ name =
        if (Module.RuleSet ruleEqual ⟨earlier⟩ name).any (fun exist => ruleEqual exist rule)
        then Module.RuleSet ruleEqual ⟨earlier⟩ name
        else Module.RuleSet ruleEqual ⟨earlier⟩ name ++ [rule]) :=
  ruleSet_aux ruleEqual mod name

/-- The rule set of the name p in a module with the rules p, default p, q and p
again: the second p is omitted. -/
theorem module_ruleSet_witness :
    Module.RuleSet sampleRuleEqual
      ⟨[sampleRule "p" false, sampleRule "p" true, sampleRule "q" false, sampleRule "p" false]⟩
      "p" = [sampleRule "p" false, sampleRule "p" true] ∧
    [sampleRule "p" false, sampleRule "p" true].Sublist
      ([sampleRule "p" false, sampleRule "p" true, sampleRule "q" false,
        sampleRule "p" false].filter (fun r => decide (r.Head.Name = "p"))) := by
  have h : Module.RuleSet sampleRuleEqual
      ⟨[sampleRule "p" false, sampleRule "p" true, sampleRule "q" false, sampleRule "p" false]⟩
      "p" = [sampleRule "p" false, sampleRule "p" true] := by
    rfl
  refine ⟨h, ?_⟩
  have := (module_ruleSet sampleRuleEqual
    ⟨[sampleRule "p" false, sampleRule "p" true, sampleRule "q" false, sampleRule "p" false]⟩
    "p").1
  rw [h] at this
  exact this

/-! ### Equality and hashing of expressions and bodies -/

theorem sampleTermCompare_hash (a b : Term) (h : sampleTermCompare a b = 0) :
    sampleTermHash a = sampleTermHash b := by
  unfold sampleTermCompare at h
  split_ifs at h <;> omega

section Hashing

variable (tc : Term → Term → Int) (th : Term → Int)

theorem termSliceCompare_zero (H : ∀ a b, tc a b = 0 → th a = th b) :
    ∀ (a b : List Term), termSliceCompare tc a b = 0 → a.map th = b.map th
  | [], [], _ => rfl
  | [], _ :: _, h => by simp [termSliceCompare] at h
  | _ :: _, [], h => by simp [termSliceCompare] at h
  | a :: as, b :: bs, h => by
    simp only [termSliceCompare] at h
    split_ifs at h with h1
    · exact absurd h h1
    · rw [List.map_cons, List.map_cons, H a b (not_not.1 h1),
        termSliceCompare_zero H as bs h]

theorem with_compare_zero (H : ∀ a b, tc a b = 0 → th a = th b) (a b : With)
    (h : With.Compare tc a b = 0) : a.Hash th = b.Hash th := by
  simp only [With.Compare] at h
  split_ifs at h with h1
  · exact absurd h h1
  · simp only [With.Hash, H _ _ (not_not.1 h1), H _ _ h]

theorem withSliceCompare_zero (H : ∀ a b, tc a b = 0 → th a = th b) :
    ∀ (a b : List With), withSliceCompare tc a b = 0 →
      a.map (With.Hash th) = b.map (With.Hash th)
  | [], [], _ => rfl
  | [], _ :: _, h => by simp [withSliceCompare] at h
  | _ :: _, [], h => by simp [withSliceCompare] at h
  | a :: as, b :: bs, h => by
    simp only [withSliceCompare] at h
    split_ifs at h with h1
    · exact absurd h h1
    · rw [List.map_cons, List.map_cons, with_compare_zero tc th H a b (not_not.1 h1),
        withSliceCompare_zero H as bs h]

theorem foldl_hash_map {α : Type} (f : α → Int) (l : List α) (s : Int) :
    l.foldl (fun s x => wrapInt (s + f x)) s = (l.map f).foldl (fun s h => wrapInt (s + h)) s := by
  rw [List.foldl_map]

theorem expr_compare_mk (w1 : List With) (t1 : ExprTerms) (i1 : Int) (g1 n1 : Bool)
    (w2 : List With) (t2 : ExprTerms) (i2 : Int) (g2 n2 : Bool) :
    Expr.Compare tc (.mk w1 t1 i1 g1 n1) (.mk w2 t2 i2 g2 n2) =
      if t1.sortOrder < t2.sortOrder then -1
      else if t2.sortOrder < t1.sortOrder then 1
      else if i1 < i2 then -1
      else if i1 > i2 then 1
      else if n1 && !n2 then 1
      else if !n1 && n2 then -1
      else
        if (match t1, t2 with
            | .term t, .term u => tc t u
            | .call t, .call u => termSliceCompare tc t u
            | .someDecl t, .someDecl u => t.Compare tc u
            | .every t, .every u => Every.Compare tc t u
            | _, _ => 0) ≠ 0
        then (match t1, t2 with
            | .term t, .term u => tc t u
            | .call t, .call u => termSliceCompare tc t u
            | .someDecl t, .someDecl u => t.Compare tc u
            | .every t, .every u => Every.Compare tc t u
            | _, _ => 0)
        else withSliceCompare tc w1 w2 := by
  cases t1 <;> cases t2 <;> rfl


theorem ite_const_eq_zero {p : Prop} [Decidable p] {c r : Int} (hc : c ≠ 0)
    (h : (if p then c else r) = 0) : ¬ p ∧ r = 0 := by
  split_ifs at h with hp
  · exact absurd h hc
  · exact ⟨hp, h⟩

theorem returnIfNonZero_eq_zero {c r : Int} (h : (if c ≠ 0 then c else r) = 0) :
    c = 0 ∧ r = 0 := by
  split_ifs at h with hp
  · exact absurd h hp
  · exact ⟨not_not.1 hp, h⟩

theorem expr_hash_of_compare (H : ∀ a b, tc a b = 0 → th a = th b) (e1 e2 : Expr)
    (h : Expr.Compare tc e1 e2 = 0) : e1.Hash th = e2.Hash th := by
  obtain ⟨w1, t1, i1, g1, n1⟩ := e1
  obtain ⟨w2, t2, i2, g2, n2⟩ := e2
  rw [expr_compare_mk] at h
  have c1 := (ite_const_eq_zero (by decide) h).1
  replace h := (ite_const_eq_zero (by decide) h).2
  have c2 := (ite_const_eq_zero (by decide) h).1
  replace h := (ite_const_eq_zero (by decide) h).2
  have c3 := (ite_const_eq_zero (by decide) h).1
  replace h := (ite_const_eq_zero (by decide) h).2
  have c4 := (ite_const_eq_zero (by decide) h).1
  replace h := (ite_const_eq_zero (by decide) h).2
  have c5 := (ite_const_eq_zero (by decide) h).1
  replace h := (ite_const_eq_zero (by decide) h).2
  have c6 := (ite_const_eq_zero (by decide) h).1
  replace h := (ite_const_eq_zero (by decide) h).2
  have c7 := (returnIfNonZero_eq_zero h).1
  replace h := (returnIfNonZero_eq_zero h).2
  have hi : i1 = i2 := by omega
  have hn : n1 = n2 := by
    cases n1 <;> cases n2 <;> simp at c5 c6 ⊢
  have hw := withSliceCompare_zero tc th H w1 w2 h
  subst hi hn
  have hs : t1.addHash th i1 = t2.addHash th i1 := by
    rcases t1 with t | t | t | t | _ <;> rcases t2 with u | u | u | u | _ <;>
      first
      | rfl
      | (exfalso; revert c1 c2; simp [ExprTerms.sortOrder]; done)
      | simp only [ExprTerms.addHash, H t u c7]
      | (simp only [ExprTerms.addHash, foldl_hash_map th,
          termSliceCompare_zero tc th H t u c7])
      | (simp only [ExprTerms.addHash, SomeDecl.Hash, termSliceHash, foldl_hash_map th,
          termSliceCompare_zero tc th H t.Symbols u.Symbols c7])
  simp only [Expr.Hash, Expr.Index, Expr.Terms, Expr.Negated, Expr.With]
  rw [foldl_hash_map (With.Hash th) w1, foldl_hash_map (With.Hash th) w2, hw, hs]

theorem body_compare_zero (H : ∀ a b, tc a b = 0 → th a = th b) :
    ∀ (a b : List Expr), Body.Compare tc a b = 0 →
      a.map (Expr.Hash th) = b.map (Expr.Hash th)
  | [], [], _ => rfl
  | [], b :: bs, h => by
    have h2 : Body.Compare tc [] (b :: bs) = -1 := rfl
    rw [h2] at h
    exact absurd h (by decide)
  | a :: as, [], h => by
    have h2 : Body.Compare tc (a :: as) [] = 1 := rfl
    rw [h2] at h
    exact absurd h (by decide)
  | a :: as, b :: bs, h => by
    have h2 : Body.Compare tc (a :: as) (b :: bs) =
        if Expr.Compare tc a b ≠ 0 then Expr.Compare tc a b else Body.Compare tc as bs := rfl
    rw [h2] at h
    split_ifs at h with h1
    · exact absurd h h1
    · rw [List.map_cons, List.map_cons, expr_hash_of_compare tc th H a b (not_not.1 h1),
        body_compare_zero H as bs h]

theorem body_hash_of_compare (H : ∀ a b, tc a b = 0 → th a = th b) (a b : Body)
    (h : Body.Compare tc a b = 0) : Body.Hash th a = Body.Hash th b := by
  unfold Body.Hash
  rw [foldl_hash_map (Expr.Hash th) a, foldl_hash_map (Expr.Hash th) b,
    body_compare_zero tc th H a b h]

end Hashing

/-- C20: given that the hashing of terms is consistent with their comparison,
`a.Equal(b)` implies `a.Hash() == b.Hash()` for all bodies `a` and `b`, and
`e1.Equal(e2)` implies `e1.Hash() == e2.Hash()` for all expressions. -/
theorem equal_implies_same_hash (termCompare : Term → Term → Int) (termHash : Term → Int)
    (H : ∀ a b, termCompare a b = 0 → termHash a = termHash b) :
    (∀ a b : Body, Body.Equal termCompare a b = true →
      Body.Hash termHash a = Body.Hash termHash b) ∧
    (∀ e1 e2 : Expr, Expr.Equal termCompare e1 e2 = true →
      Expr.Hash termHash e1 = Expr.Hash termHash e2) :=
  ⟨fun a b h => body_hash_of_compare termCompare termHash H a b (by simpa [Body.Equal] using h),
   fun e1 e2 h => expr_hash_of_compare termCompare termHash H e1 e2
     (by simpa [Expr.Equal] using h)⟩

/-- The instance of C20 at the calls `f(x)` and `f(y)` with index 1, which are
equal under the sample comparison of terms. -/
theorem equal_implies_same_hash_witness :
    Expr.Equal sampleTermCompare
      (Expr.mk [] (ExprTerms.call [Term.Ref [Term.Var "f"], Term.Var "x"]) 1 false true)
      (Expr.mk [] (ExprTerms.call [Term.Ref [Term.Var "f"], Term.Var "y"]) 1 true true) = true ∧
    Expr.Hash sampleTermHash
      (Expr.mk [] (ExprTerms.call [Term.Ref [Term.Var "f"], Term.Var "x"]) 1 false true) =
    Expr.Hash sampleTermHash
      (Expr.mk [] (ExprTerms.call [Term.Ref [Term.Var "f"], Term.Var "y"]) 1 true true) :=
  ⟨by decide, (equal_implies_same_hash sampleTermCompare sampleTermHash
    sampleTermCompare_hash).2 _ _ (by decide)⟩

end ast
